import Mathlib

/-!
Verification development for the `bobgame` world server (`src/world/src/world`).

The Python data structures are embedded shallowly:
* Python `dict` becomes an insertion-ordered association list (`List (K × V)`)
  with `dictGet` / `dictSet` / `dictDel` mirroring `d.get`, `d[k] = v`, `del d[k]`
  (updating an existing key keeps its position; a fresh key is appended);
* fallible Python code (raised exceptions) returns `Except String _`;
* wall-clock time becomes an explicit `now_ms : Int` parameter.
-/

set_option autoImplicit false
set_option maxRecDepth 65536

/-! ## Insertion-ordered dictionaries (Python `dict` as association list) -/

/-- `d.get(k)`: value of the first (unique) binding of `k`, if any. -/
def dictGet {K V : Type} [DecidableEq K] : List (K × V) → K → Option V
  | [], _ => none
  | (k', v) :: rest, k => if k' = k then some v else dictGet rest k

/-- `k in d`. -/
def dictHas {K V : Type} [DecidableEq K] (d : List (K × V)) (k : K) : Bool :=
  (dictGet d k).isSome

/-- `d[k] = v`: replace in place if the key exists, else append at the end. -/
def dictSet {K V : Type} [DecidableEq K] : List (K × V) → K → V → List (K × V)
  | [], k, v => [(k, v)]
  | (k', v') :: rest, k, v =>
    if k' = k then (k', v) :: rest else (k', v') :: dictSet rest k v

/-- `d.pop(k, None)` / `del d[k]` (the caller checks presence where `del` may raise). -/
def dictDel {K V : Type} [DecidableEq K] : List (K × V) → K → List (K × V)
  | [], _ => []
  | (k', v') :: rest, k =>
    if k' = k then rest else (k', v') :: dictDel rest k

/-- `d.setdefault(k, []).append(v)`. -/
def dictAppendAt {K V : Type} [DecidableEq K] : List (K × List V) → K → V → List (K × List V)
  | [], k, v => [(k, [v])]
  | (k', l) :: rest, k, v =>
    if k' = k then (k', l ++ [v]) :: rest else (k', l) :: dictAppendAt rest k v

/-! ## Geometry (`world/types.py`) -/

/-- `Position`: immutable 2-D tile coordinate. -/
structure Pos where
  x : Int
  y : Int
deriving DecidableEq, Repr

/-- `Direction`: 8-direction movement enum. -/
inductive Direction where
  | north | northeast | east | southeast | south | southwest | west | northwest
deriving DecidableEq, Repr

/-- `DIRECTION_DELTAS`; +X is East, +Y is South. -/
def directionDelta : Direction → Int × Int
  | .north => (0, -1)
  | .northeast => (1, -1)
  | .east => (1, 0)
  | .southeast => (1, 1)
  | .south => (0, 1)
  | .southwest => (-1, 1)
  | .west => (-1, 0)
  | .northwest => (-1, -1)

/-- `DIAGONAL_COMPONENTS`: a diagonal's two cardinal components. -/
def diagonalComponents : Direction → Option (Direction × Direction)
  | .northeast => some (.north, .east)
  | .southeast => some (.south, .east)
  | .southwest => some (.south, .west)
  | .northwest => some (.north, .west)
  | _ => none

/-- `Position.offset(direction)`. -/
def Pos.offset (p : Pos) (d : Direction) : Pos :=
  let (dx, dy) := directionDelta d
  Pos.mk (p.x + dx) (p.y + dy)

/-! ## Inventory, entities, objects, tiles (`world/state.py`) -/

/-- `Inventory`: immutable item_type → count mapping (tuple of pairs). -/
structure Inventory where
  items : List (String × Int)
deriving DecidableEq, Repr

/-- `Inventory.count(item_type)`. -/
def Inventory.count (inv : Inventory) (itemType : String) : Int :=
  match dictGet inv.items itemType with
  | some v => v
  | none => 0

/-- `Inventory.has(item_type, amount)`. -/
def Inventory.hasAmount (inv : Inventory) (itemType : String) (amount : Int) : Bool :=
  decide (inv.count itemType ≥ amount)

/-- `Inventory.add(item_type, amount)`. -/
def Inventory.add (inv : Inventory) (itemType : String) (amount : Int) : Inventory :=
  Inventory.mk (dictSet inv.items itemType (inv.count itemType + amount))

/-- `Inventory.remove(item_type, amount)`; raises `ValueError` if insufficient. -/
def Inventory.remove (inv : Inventory) (itemType : String) (amount : Int) :
    Except String Inventory :=
  let current := inv.count itemType
  if current < amount then
    .error "ValueError: insufficient items"
  else
    let newCount := current - amount
    if newCount = 0 then .ok (Inventory.mk (dictDel inv.items itemType))
    else .ok (Inventory.mk (dictSet inv.items itemType newCount))

/-- `Tile`: immutable tile properties. -/
structure Tile where
  position : Pos
  walkable : Bool
  opaque_ : Bool
  floor_type : String
deriving DecidableEq, Repr

/-- `Entity`: immutable entity state. -/
structure Entity where
  entity_id : String
  position : Pos
  entity_type : String
  tags : List String
  status_bits : Int
  inventory : Inventory
deriving DecidableEq, Repr

/-- `Entity.with_position`. -/
def Entity.with_position (e : Entity) (p : Pos) : Entity :=
  { e with position := p }

/-- `Entity.with_inventory`. -/
def Entity.with_inventory (e : Entity) (inv : Inventory) : Entity :=
  { e with inventory := inv }

/-- Helper matching the pydantic defaults of `Entity`. -/
def mkEntity (eid : String) (p : Pos) : Entity :=
  Entity.mk eid p "default" [] 0 (Inventory.mk [])

/-- `WorldObject`: immutable world object state. -/
structure WorldObject where
  object_id : String
  position : Pos
  object_type : String
  state : List (String × String)
deriving DecidableEq, Repr

/-- `WorldObject.get_state(key, default)`. -/
def WorldObject.get_state (o : WorldObject) (key defaultVal : String) : String :=
  match dictGet o.state key with
  | some v => v
  | none => defaultVal

/-- `WorldObject.with_state(key, value)`. -/
def WorldObject.with_state (o : WorldObject) (key value : String) : WorldObject :=
  { o with state := dictSet o.state key value }

/-- `_FLOOR_VALUE_PROPERTIES` with the `.get(..., (True, False, "stone"))` default:
floor value → (walkable, opaque, floor_type). -/
def floorValueProperties : Nat → Bool × Bool × String
  | 0 => (false, false, "deep_water")
  | 1 => (true, false, "shallow_water")
  | 2 => (true, false, "sand")
  | 3 => (true, false, "grass")
  | 4 => (true, false, "dirt")
  | 5 => (false, true, "mountain")
  | 6 => (true, false, "stone")
  | _ => (true, false, "stone")

/-! ## World state container (`world/state.py`, class `World`) -/

/-- `World`: mutable world state container (entities/objects registries plus
position indices; terrain as optional dense floor array plus sparse overrides). -/
structure World where
  width : Int
  height : Int
  tick : Int
  floor_array : Option (List (List Nat))
  tiles : List (Pos × Tile)
  entities : List (String × Entity)
  entity_positions : List (Pos × String)
  objects : List (String × WorldObject)
  object_positions : List (Pos × List String)

/-- A fresh world with the given dimensions (pydantic defaults elsewhere). -/
def World.new (width height : Int) : World :=
  World.mk width height 0 none [] [] [] [] []

/-- `floor_array[y, x]` once bounds have been checked. -/
def floorArrayGet (arr : List (List Nat)) (y x : Int) : Nat :=
  (arr.getD y.toNat []).getD x.toNat 0

/-- `World.in_bounds(position)`. -/
def World.in_bounds (w : World) (p : Pos) : Bool :=
  decide (0 ≤ p.x) && decide (p.x < w.width) && decide (0 ≤ p.y) && decide (p.y < w.height)

/-- `World.is_walkable(position)`: out of bounds → false; sparse override,
else floor array through `_FLOOR_VALUE_PROPERTIES`, else default walkable. -/
def World.is_walkable (w : World) (p : Pos) : Bool :=
  if ¬ w.in_bounds p then false
  else
    match dictGet w.tiles p with
    | some tile => tile.walkable
    | none =>
      match w.floor_array with
      | some arr => (floorValueProperties (floorArrayGet arr p.y p.x)).1
      | none => true

/-- `World.set_tile(tile)`. -/
def World.set_tile (w : World) (tile : Tile) : World :=
  { w with tiles := dictSet w.tiles tile.position tile }

/-- `World.add_entity(entity)`; raises on duplicate id or occupied position. -/
def World.add_entity (w : World) (e : Entity) : Except String World :=
  if dictHas w.entities e.entity_id then
    .error "EntityAlreadyExistsError"
  else if dictHas w.entity_positions e.position then
    .error "PositionOccupiedError"
  else
    .ok { w with
          entities := dictSet w.entities e.entity_id e,
          entity_positions := dictSet w.entity_positions e.position e.entity_id }

/-- `World.get_entity(entity_id)`; raises `EntityNotFoundError` when missing. -/
def World.get_entity (w : World) (eid : String) : Except String Entity :=
  match dictGet w.entities eid with
  | some e => .ok e
  | none => .error "EntityNotFoundError"

/-- `World.get_entity_at(position)`: `self._entities.get(entity_id) if
entity_id else None` — a falsy (empty) id in the index yields no occupant. -/
def World.get_entity_at (w : World) (p : Pos) : Option Entity :=
  match dictGet w.entity_positions p with
  | some eid => if eid = "" then none else dictGet w.entities eid
  | none => none

/-- `World.update_entity_position(entity_id, new_position)`:
`del _entity_positions[old]` (a `KeyError` when the key is absent), then
`_entity_positions[new] = entity_id`, then replace the entity record. -/
def World.update_entity_position (w : World) (eid : String) (newPos : Pos) :
    Except String World :=
  match dictGet w.entities eid with
  | none => .error "EntityNotFoundError"
  | some e =>
    let oldPos := e.position
    if dictHas w.entity_positions oldPos then
      .ok { w with
            entity_positions := dictSet (dictDel w.entity_positions oldPos) newPos eid,
            entities := dictSet w.entities eid (e.with_position newPos) }
    else
      .error "KeyError"

/-- `World.add_object(obj)`; raises on duplicate id. -/
def World.add_object (w : World) (o : WorldObject) : Except String World :=
  if dictHas w.objects o.object_id then
    .error "ObjectAlreadyExistsError"
  else
    let existing := (dictGet w.object_positions o.position).getD []
    .ok { w with
          objects := dictSet w.objects o.object_id o,
          object_positions := dictSet w.object_positions o.position (existing ++ [o.object_id]) }

/-- `World.get_object(object_id)`; raises `ObjectNotFoundError` when missing. -/
def World.get_object (w : World) (oid : String) : Except String WorldObject :=
  match dictGet w.objects oid with
  | some o => .ok o
  | none => .error "ObjectNotFoundError"

/-- `World.get_objects_at(position)`. -/
def World.get_objects_at (w : World) (p : Pos) : List WorldObject :=
  ((dictGet w.object_positions p).getD []).filterMap (fun oid => dictGet w.objects oid)

/-- `World.update_object(obj)`; raises when the object does not exist. -/
def World.update_object (w : World) (o : WorldObject) : Except String World :=
  if dictHas w.objects o.object_id then
    .ok { w with objects := dictSet w.objects o.object_id o }
  else
    .error "ObjectNotFoundError"

/-! ## Movement resolver (`world/movement.py`) -/

/-- `MoveClaim`: a validated move claim ready for conflict resolution. -/
structure MoveClaim where
  entity_id : String
  from_pos : Pos
  to_pos : Pos
  direction : Direction
deriving DecidableEq, Repr

/-- `MoveResult`: outcome of move resolution for one entity. -/
structure MoveResult where
  entity_id : String
  success : Bool
  from_pos : Pos
  to_pos : Pos
  failure_reason : Option String
deriving DecidableEq, Repr

/-- `MovementResolver.validate_move`: bounds, walkability and the diagonal
corner-cutting rule; `world.get_entity` may raise. -/
def validate_move (w : World) (eid : String) (dir : Direction) :
    Except String (Option MoveClaim) := do
  let entity ← w.get_entity eid
  let fromPos := entity.position
  let toPos := fromPos.offset dir
  if ¬ w.in_bounds toPos then
    return none
  if ¬ w.is_walkable toPos then
    return none
  match diagonalComponents dir with
  | some (d1, d2) =>
    if ¬ (w.is_walkable (fromPos.offset d1) && w.is_walkable (fromPos.offset d2)) then
      return none
    return some (MoveClaim.mk eid fromPos toPos dir)
  | none =>
    return some (MoveClaim.mk eid fromPos toPos dir)

/-- `dest_to_claims`: destination → claimants, in claim order. -/
def buildDestMap (claims : List MoveClaim) : List (Pos × List MoveClaim) :=
  claims.foldl (fun m c => dictAppendAt m c.to_pos c) []

/-- `entity_to_claim`. -/
def buildEntityMap (claims : List MoveClaim) : List (String × MoveClaim) :=
  claims.foldl (fun m c => dictSet m c.entity_id c) []

/-- Phase 1 inner loop: mark a claim and each partner moving `to → from` against
it as `swap_conflict`. -/
def swapScan (c : MoveClaim) (partners : List MoveClaim) (failed : List (String × String)) :
    List (String × String) :=
  partners.foldl
    (fun f oc =>
      if oc.from_pos = c.to_pos then
        dictSet (dictSet f c.entity_id "swap_conflict") oc.entity_id "swap_conflict"
      else f)
    failed

/-- Phase 1 of `resolve_conflicts`: detect and fail swaps. -/
def phase1Swaps (destMap : List (Pos × List MoveClaim)) :
    List MoveClaim → List (String × String) → List (String × String)
  | [], failed => failed
  | c :: rest, failed =>
    if dictHas failed c.entity_id then
      phase1Swaps destMap rest failed
    else
      phase1Swaps destMap rest (swapScan c ((dictGet destMap c.from_pos).getD []) failed)

/-- The `while` walk of `_detect_cycles`, with explicit fuel (the Python loop
adds a fresh entity to `visited_chain` on every iteration, so
`claims.length + 1` steps always suffice).  Returns the chain walked and the
final `current_id`. -/
def walkLoop (e2c : List (String × MoveClaim)) (p2e : List (Pos × String))
    (already : List (String × String)) :
    Nat → List String → String → List String × Option String
  | 0, chain, cur => (chain, some cur)
  | Nat.succ fuel, chain, cur =>
    if cur = "" then (chain, none)
    else if cur ∈ chain then (chain, some cur)
    else if dictHas already cur then (chain, some cur)
    else
      let chain' := chain ++ [cur]
      match dictGet e2c cur with
      | none => (chain', some cur)
      | some claim =>
        match dictGet p2e claim.to_pos with
        | some nxt =>
          if nxt ≠ "" ∧ dictHas e2c nxt = true ∧ dictHas already nxt = false then
            walkLoop e2c p2e already fuel chain' nxt
          else (chain', none)
        | none => (chain', none)

/-- Post-walk marking: if the walk revisited an entity of the current chain,
fail every entity from its first occurrence onward iff that suffix is longer
than 2. -/
def markCycle (chain : List String) (fin : Option String)
    (failed : List (String × String)) : List (String × String) :=
  match fin with
  | some cur =>
    if cur ∈ chain then
      let members := chain.drop (chain.indexOf cur)
      if members.length > 2 then
        members.foldl (fun f m => dictSet f m "cycle_conflict") failed
      else failed
    else failed
  | none => failed

/-- `pos_to_entity` of `_detect_cycles`: origin → entity id of each not-already-
failed claim. -/
def cyclesP2E (claims : List MoveClaim) (already : List (String × String)) :
    List (Pos × String) :=
  claims.foldl
    (fun m c => if dictHas already c.entity_id then m else dictSet m c.from_pos c.entity_id)
    []

/-- One iteration of the outer loop of `_detect_cycles`: skip already-failed or
globally-visited entities, else walk the chain and record any detected cycle. -/
def cyclesStep (e2c : List (String × MoveClaim)) (p2e : List (Pos × String))
    (already : List (String × String)) (fuel : Nat)
    (acc : List (String × String) × List String) (c : MoveClaim) :
    List (String × String) × List String :=
  if dictHas already c.entity_id = true ∨ c.entity_id ∈ acc.2 then acc
  else
    let rwalk := walkLoop e2c p2e already fuel [] c.entity_id
    (markCycle rwalk.1 rwalk.2 acc.1, acc.2 ++ rwalk.1)

/-- `MovementResolver._detect_cycles`. -/
def detect_cycles (claims : List MoveClaim) (e2c : List (String × MoveClaim))
    (already : List (String × String)) : List (String × String) :=
  (claims.foldl (cyclesStep e2c (cyclesP2E claims already) already (claims.length + 1))
    ([], [])).1

/-- Python string comparison, character by character by code point
(structurally recursive so that concrete runs of the resolver evaluate). -/
def charListLtb : List Char → List Char → Bool
  | [], [] => false
  | [], _ :: _ => true
  | _ :: _, [] => false
  | a :: as, b :: bs =>
    if a < b then true
    else if b < a then false
    else charListLtb as bs

/-- `a < b` on Python strings (lexicographic by code point). -/
def pyStrLt (a b : String) : Bool :=
  charListLtb a.data b.data

/-- Stable insertion into a list ascending by `entity_id` (mirrors the stable
`list.sort(key=lambda c: c.entity_id)`). -/
def insertByEntityId (c : MoveClaim) : List MoveClaim → List MoveClaim
  | [] => [c]
  | d :: rest =>
    if pyStrLt c.entity_id d.entity_id then c :: d :: rest else d :: insertByEntityId c rest

/-- `valid_claims.sort(key=lambda c: c.entity_id)`: stable ascending sort. -/
def sortByEntityId (l : List MoveClaim) : List MoveClaim :=
  l.foldl (fun acc c => insertByEntityId c acc) []

/-- Phase 3 of `resolve_conflicts`: same-destination races, destination by
destination in insertion order. -/
def phase3Dest :
    List (Pos × List MoveClaim) → List (Pos × String) → List (String × String) →
      List (Pos × String) × List (String × String)
  | [], winners, failed => (winners, failed)
  | (dest, destClaims) :: rest, winners, failed =>
    let valid := destClaims.filter (fun c => ¬ dictHas failed c.entity_id)
    match valid with
    | [] => phase3Dest rest winners failed
    | [c] => phase3Dest rest (dictSet winners dest c.entity_id) failed
    | _ :: _ :: _ =>
      match sortByEntityId valid with
      | [] => phase3Dest rest winners failed
      | winner :: losers =>
        let failed' :=
          losers.foldl (fun f l => dictSet f l.entity_id "same_destination_conflict") failed
        phase3Dest rest (dictSet winners dest winner.entity_id) failed'

/-- Phase 4 of `resolve_conflicts`: winners whose destination holds an entity
that is not itself a mover fail with `destination_occupied`. -/
def phase4Occupied (w : World) (e2c : List (String × MoveClaim)) :
    List (Pos × String) → List (Pos × String) → List (String × String) →
      List (Pos × String) × List (String × String)
  | [], winners, failed => (winners, failed)
  | (dest, winnerId) :: rest, winners, failed =>
    match w.get_entity_at dest with
    | some occupant =>
      if ¬ dictHas e2c occupant.entity_id then
        phase4Occupied w e2c rest (dictDel winners dest) (dictSet failed winnerId "destination_occupied")
      else
        phase4Occupied w e2c rest winners failed
    | none => phase4Occupied w e2c rest winners failed

/-- The `failed` map after phase 1 (swap detection). -/
def swapFailed (claims : List MoveClaim) : List (String × String) :=
  phase1Swaps (buildDestMap claims) claims []

/-- The `failed` map after phases 1 and 2, i.e. right before the
same-destination resolution (`failed.update(self._detect_cycles(...))`). -/
def preDestFailed (claims : List MoveClaim) : List (String × String) :=
  let failed1 := swapFailed claims
  (detect_cycles claims (buildEntityMap claims) failed1).foldl
    (fun f p => dictSet f p.1 p.2) failed1

/-- Provisional winners and the `failed` map after phase 3. -/
def phase3Result (claims : List MoveClaim) : List (Pos × String) × List (String × String) :=
  phase3Dest (buildDestMap claims) [] (preDestFailed claims)

/-- The `failed` map at the end of `resolve_conflicts` (after all four phases). -/
def resolveFailed (w : World) (claims : List MoveClaim) : List (String × String) :=
  let e2c := buildEntityMap claims
  let p3 := phase3Result claims
  (phase4Occupied w e2c p3.1 p3.1 p3.2).2

/-- `MovementResolver.resolve_conflicts`. -/
def resolve_conflicts (w : World) (claims : List MoveClaim) : List MoveResult :=
  if claims.isEmpty then []
  else
    let failed := resolveFailed w claims
    claims.map (fun c =>
      match dictGet failed c.entity_id with
      | some reason => MoveResult.mk c.entity_id false c.from_pos c.from_pos (some reason)
      | none => MoveResult.mk c.entity_id true c.from_pos c.to_pos none)

/-- `MovementResolver.enact_moves`: apply each successful move via
`update_entity_position`, in result order. -/
def enact_moves (w : World) (results : List MoveResult) : Except String World :=
  let moves := (results.filter (fun r => r.success)).map (fun r => (r.entity_id, r.to_pos))
  moves.foldlM (fun wacc m => wacc.update_entity_position m.1 m.2) w

/-- `process_movement_phase`: validate in intent order, resolve, enact. -/
def process_movement_phase (w : World) (intents : List (String × Direction)) :
    Except String (List MoveResult × World) := do
  let claims ← intents.foldlM
    (fun acc i => do
      match ← validate_move w i.1 i.2 with
      | some c => pure (acc ++ [c])
      | none => pure acc)
    ([] : List MoveClaim)
  let results := resolve_conflicts w claims
  let w' ← enact_moves w results
  pure (results, w')

/-! ## Lease manager (`world/lease.py`) -/

/-- `Lease`: an active lease for controlling an entity. -/
structure Lease where
  lease_id : String
  entity_id : String
  controller_id : String
  acquired_at_ms : Int
  expires_at_ms : Int
deriving DecidableEq, Repr

/-- `Lease.is_expired(current_time_ms)`. -/
def Lease.is_expired (l : Lease) (now_ms : Int) : Bool :=
  decide (now_ms ≥ l.expires_at_ms)

/-- `LeaseManager` state: `_leases` and `_entity_leases`
(`lease_duration_ms` is carried separately where needed). -/
structure LeaseManagerState where
  leases : List (String × Lease)
  entity_leases : List (String × String)
deriving DecidableEq, Repr

/-- `LeaseManager._remove_lease(lease_id)`: pop from `_leases`; when a lease was
there, also pop its `entity_id` from `_entity_leases`. -/
def LeaseManagerState.remove_lease (s : LeaseManagerState) (leaseId : String) :
    LeaseManagerState :=
  match dictGet s.leases leaseId with
  | some lease =>
    LeaseManagerState.mk (dictDel s.leases leaseId) (dictDel s.entity_leases lease.entity_id)
  | none => s

/-- `LeaseManager.get_lease(lease_id)`: returns the lease unless missing, and
evicts (and returns `None` for) a lease that is expired at call time.  The
returned state is the manager's `_leases`/`_entity_leases` after the call. -/
def LeaseManagerState.get_lease (s : LeaseManagerState) (now_ms : Int) (leaseId : String) :
    Option Lease × LeaseManagerState :=
  match dictGet s.leases leaseId with
  | some lease =>
    if lease.is_expired now_ms then (none, s.remove_lease leaseId)
    else (some lease, s)
  | none => (none, s)

/-- `LeaseManager.get_lease_for_entity(entity_id)`. -/
def LeaseManagerState.get_lease_for_entity (s : LeaseManagerState) (now_ms : Int)
    (entityId : String) : Option Lease × LeaseManagerState :=
  match dictGet s.entity_leases entityId with
  | none => (none, s)
  | some leaseId => s.get_lease now_ms leaseId

/-- `LeaseManager.is_valid_lease(lease_id, entity_id)`. -/
def LeaseManagerState.is_valid_lease (s : LeaseManagerState) (now_ms : Int)
    (leaseId entityId : String) : Bool × LeaseManagerState :=
  let (lease, s') := s.get_lease now_ms leaseId
  match lease with
  | some l => (l.entity_id = entityId, s')
  | none => (false, s')

/-- `LeaseManager._renew_lease(lease, now_ms)` with the manager's duration. -/
def LeaseManagerState.renew_lease (s : LeaseManagerState) (duration_ms now_ms : Int)
    (lease : Lease) : Lease × LeaseManagerState :=
  let renewed := Lease.mk lease.lease_id lease.entity_id lease.controller_id
    lease.acquired_at_ms (now_ms + duration_ms)
  (renewed, LeaseManagerState.mk (dictSet s.leases lease.lease_id renewed) s.entity_leases)

/-- `LeaseManager.acquire(entity_id, controller_id)`: `new_lease_id` stands for
the fresh `uuid4` drawn by the source. -/
def LeaseManagerState.acquire (s : LeaseManagerState) (duration_ms now_ms : Int)
    (new_lease_id entityId controllerId : String) :
    (Lease ⊕ String) × LeaseManagerState :=
  let afterCleanup :=
    match dictGet s.entity_leases entityId with
    | some existingId =>
      match dictGet s.leases existingId with
      | some existing =>
        if ¬ existing.is_expired now_ms then
          if existing.controller_id = controllerId then
            let (renewed, s') := s.renew_lease duration_ms now_ms existing
            Sum.inl (Sum.inl renewed, s')
          else
            Sum.inl (Sum.inr ("entity already leased by " ++ existing.controller_id), s)
        else Sum.inr (s.remove_lease existingId)
      | none => Sum.inr (s.remove_lease existingId)
    | none => Sum.inr s
  match afterCleanup with
  | Sum.inl result => result
  | Sum.inr s' =>
    let lease := Lease.mk new_lease_id entityId controllerId now_ms (now_ms + duration_ms)
    (Sum.inl lease,
     LeaseManagerState.mk (dictSet s'.leases new_lease_id lease)
       (dictSet s'.entity_leases entityId new_lease_id))

/-! ## Tick admission (`world/tick.py`) -/

/-- `CollectIntent` (`world/types.py`): entity_id, optional object_id and an
item_type.  The source defines no `amount` field on this model. -/
structure CollectIntent where
  entity_id : String
  object_id : Option String
  item_type : String
deriving DecidableEq, Repr

/-- `EatIntent`. -/
structure EatIntent where
  entity_id : String
  item_type : String
  amount : Int
deriving DecidableEq, Repr

/-- `TickContext`. -/
structure TickContext where
  tick_id : Int
  start_time_ms : Int
  deadline_ms : Int
  move_intents : List (String × Direction)
  collect_intents : List (String × CollectIntent)
  eat_intents : List (String × EatIntent)
deriving DecidableEq, Repr

/-- `TickContext.is_past_deadline()`: `time.time() * 1000 > deadline_ms`. -/
def TickContext.is_past_deadline (ctx : TickContext) (now_ms : Int) : Bool :=
  decide (now_ms > ctx.deadline_ms)

/-- `TickContext.submit_move_intent`. -/
def TickContext.submit_move_intent (ctx : TickContext) (now_ms : Int)
    (entityId : String) (dir : Direction) : Bool × TickContext :=
  if ctx.is_past_deadline now_ms then (false, ctx)
  else if dictHas ctx.move_intents entityId then (false, ctx)
  else (true, { ctx with move_intents := dictSet ctx.move_intents entityId dir })

/-- `TickContext.submit_collect_intent`. -/
def TickContext.submit_collect_intent (ctx : TickContext) (now_ms : Int)
    (intent : CollectIntent) : Bool × TickContext :=
  if ctx.is_past_deadline now_ms then (false, ctx)
  else if dictHas ctx.collect_intents intent.entity_id then (false, ctx)
  else (true, { ctx with collect_intents := dictSet ctx.collect_intents intent.entity_id intent })

/-- `TickContext.submit_eat_intent`. -/
def TickContext.submit_eat_intent (ctx : TickContext) (now_ms : Int)
    (intent : EatIntent) : Bool × TickContext :=
  if ctx.is_past_deadline now_ms then (false, ctx)
  else if dictHas ctx.eat_intents intent.entity_id then (false, ctx)
  else (true, { ctx with eat_intents := dictSet ctx.eat_intents intent.entity_id intent })

/-- `TickLoop.submit_move_intent`: rejected outright when `_current_context`
is `None`, else delegated to the context. -/
def tickLoopSubmitMoveIntent (current : Option TickContext) (now_ms : Int)
    (entityId : String) (dir : Direction) : Bool × Option TickContext :=
  match current with
  | none => (false, none)
  | some ctx =>
    let (ok, ctx') := ctx.submit_move_intent now_ms entityId dir
    (ok, some ctx')

/-! ## Foraging (`world/foraging.py`) -/

/-- `CollectResult`. -/
structure CollectResult where
  entity_id : String
  success : Bool
  object_id : Option String
  item_type : Option String
  amount : Int
  failure_reason : Option String
deriving DecidableEq, Repr

/-- `ObjectChange`. -/
structure ObjectChange where
  object_id : String
  field : String
  old_value : String
  new_value : String
deriving DecidableEq, Repr

/-- Reading `intent.amount` on a `CollectIntent`: the model in `world/types.py`
has no `amount` field (pydantic ignores the extra constructor argument), so the
attribute access in `process_collect_phase` raises `AttributeError`. -/
def CollectIntent.amountAttr (_ : CollectIntent) : Except String Int :=
  .error "AttributeError: amount"

/-- Decimal digit accumulation for `parseInt`. -/
def parseDigits : List Char → Nat → Option Nat
  | [], acc => some acc
  | c :: rest, acc =>
    if c.isDigit then parseDigits rest (acc * 10 + (c.toNat - 48))
    else none

/-- Python `int(s)` on the decimal strings stored in object state
(optional minus sign followed by at least one digit). -/
def parseInt (s : String) : Except String Int :=
  match s.data with
  | [] => .error "ValueError: invalid int literal"
  | c :: rest =>
    if c = Char.ofNat 45 then
      match rest with
      | [] => .error "ValueError: invalid int literal"
      | _ =>
        match parseDigits rest 0 with
        | some n => .ok (-(n : Int))
        | none => .error "ValueError: invalid int literal"
    else
      match parseDigits s.data 0 with
      | some n => .ok (n : Int)
      | none => .error "ValueError: invalid int literal"

/-- Stable insertion ascending by `entity_id` for collect intents
(`collectors.sort(key=lambda i: i.entity_id)`). -/
def insertCollectById (c : CollectIntent) : List CollectIntent → List CollectIntent
  | [] => [c]
  | d :: rest =>
    if pyStrLt c.entity_id d.entity_id then c :: d :: rest else d :: insertCollectById c rest

/-- `collectors.sort(key=lambda i: i.entity_id)`: stable ascending sort. -/
def sortCollectById (l : List CollectIntent) : List CollectIntent :=
  l.foldl (fun acc c => insertCollectById c acc) []

/-- Grouping pass of `process_collect_phase`: route each intent to a target
object or emit its failure result. -/
def collectGroup (w : World) :
    List (String × CollectIntent) → List CollectResult →
      List (String × List CollectIntent) → List CollectResult × List (String × List CollectIntent)
  | [], results, groups => (results, groups)
  | (entityId, intent) :: rest, results, groups =>
    match dictGet w.entities entityId with
    | none =>
      collectGroup w rest
        (results ++ [CollectResult.mk entityId false none none 0 (some "entity_not_found")])
        groups
    | some entity =>
      match intent.object_id with
      | some oid =>
        match dictGet w.objects oid with
        | some obj =>
          if obj.position ≠ entity.position then
            collectGroup w rest
              (results ++ [CollectResult.mk entityId false (some oid) none 0
                (some "object_not_at_position")])
              groups
          else
            collectGroup w rest results (dictAppendAt groups oid intent)
        | none =>
          collectGroup w rest
            (results ++ [CollectResult.mk entityId false none none 0 (some "object_not_found")])
            groups
      | none =>
        let bushes := (w.get_objects_at entity.position).filter
          (fun o => o.object_type = "bush")
        match bushes with
        | [] =>
          collectGroup w rest
            (results ++ [CollectResult.mk entityId false none none 0
              (some "no_collectible_object")])
            groups
        | b :: _ =>
          collectGroup w rest results (dictAppendAt groups b.object_id intent)

/-- Per-object serving loop of `process_collect_phase`: the source reads
`intent.amount`, which raises `AttributeError` (see `CollectIntent.amountAttr`)
whenever a claimant is served with a positive `berry_count`. -/
def collectServe (objectId : String) :
    List CollectIntent → Int → World → List CollectResult → List ObjectChange →
      Except String (Int × World × List CollectResult × List ObjectChange)
  | [], berryCount, w, results, changes => .ok (berryCount, w, results, changes)
  | intent :: rest, berryCount, w, results, changes =>
    if berryCount ≤ 0 then
      collectServe objectId rest berryCount w
        (results ++ [CollectResult.mk intent.entity_id false (some objectId) none 0
          (some "no_berries")])
        changes
    else do
      let amount ← intent.amountAttr
      let collectAmount := min amount berryCount
      let oldCount := berryCount
      let newCount := berryCount - collectAmount
      let entity ← w.get_entity intent.entity_id
      let newInventory := entity.inventory.add "berry" collectAmount
      let w' := { w with
        entities := dictSet w.entities intent.entity_id (entity.with_inventory newInventory) }
      collectServe objectId rest newCount w'
        (results ++ [CollectResult.mk intent.entity_id true (some objectId) (some "berry")
          collectAmount none])
        (changes ++ [ObjectChange.mk objectId "berry_count" (toString oldCount)
          (toString newCount)])

/-- Second pass of `process_collect_phase`: serve each group in lexicographic
claimant order, then write the object's final `berry_count` back. -/
def collectResolve :
    List (String × List CollectIntent) → World → List CollectResult → List ObjectChange →
      Except String (World × List CollectResult × List ObjectChange)
  | [], w, results, changes => .ok (w, results, changes)
  | (objectId, collectors) :: rest, w, results, changes => do
    let obj ← w.get_object objectId
    let berryCount ← parseInt (obj.get_state "berry_count" "0")
    let sorted := sortCollectById collectors
    let (finalCount, w', results', changes') ← collectServe objectId sorted berryCount w results changes
    let w'' ← w'.update_object (obj.with_state "berry_count" (toString finalCount))
    collectResolve rest w'' results' changes'

/-- `process_collect_phase(world, intents)`. -/
def process_collect_phase (w : World) (intents : List (String × CollectIntent)) :
    Except String (List CollectResult × List ObjectChange × World) := do
  let (results, groups) := collectGroup w intents [] []
  let (w', results', changes) ← collectResolve groups w results []
  .ok (results', changes, w')

/-! ## Chunk index (`world/chunks.py`) -/

/-- `CHUNK_SIZE`. -/
def CHUNK_SIZE : Int := 32

/-- `chunk_coords(x, y)`: Python floor division by `CHUNK_SIZE`. -/
def chunk_coords (x y : Int) : Int × Int :=
  (Int.fdiv x CHUNK_SIZE, Int.fdiv y CHUNK_SIZE)

/-- `Chunk` (entity/object id sets modelled as duplicate-free lists). -/
structure Chunk where
  chunk_x : Int
  chunk_y : Int
  terrain : List (List Nat)
  entities : List String
  objects : List String
  version : Int
deriving DecidableEq, Repr

/-- `set.add`. -/
def setAdd (s : List String) (x : String) : List String :=
  if s.contains x then s else s ++ [x]

/-- `set.discard`. -/
def setDiscard (s : List String) (x : String) : List String :=
  s.erase x

/-- `ChunkManager` state; `getTerrain` stands for the bound
`world.get_terrain_chunk` used when a chunk is materialized lazily. -/
structure ChunkManagerState where
  getTerrain : Int → Int → List (List Nat)
  chunks : List ((Int × Int) × Chunk)
  entity_chunks : List (String × (Int × Int))
  object_chunks : List (String × (Int × Int))

/-- `ChunkManager._get_or_create_chunk(cx, cy)`. -/
def ChunkManagerState.get_or_create_chunk (s : ChunkManagerState) (cx cy : Int) :
    Chunk × ChunkManagerState :=
  match dictGet s.chunks (cx, cy) with
  | some c => (c, s)
  | none =>
    let c := Chunk.mk cx cy (s.getTerrain cx cy) [] [] 0
    (c, { s with chunks := dictSet s.chunks (cx, cy) c })

/-- `ChunkManager.add_entity(entity_id, position)`. -/
def ChunkManagerState.add_entity (s : ChunkManagerState) (entityId : String) (p : Pos) :
    (Int × Int) × ChunkManagerState :=
  let cc := chunk_coords p.x p.y
  let s1 := { s with entity_chunks := dictSet s.entity_chunks entityId cc }
  let (chunk, s2) := s1.get_or_create_chunk cc.1 cc.2
  let chunk' := { chunk with entities := setAdd chunk.entities entityId,
                             version := chunk.version + 1 }
  (cc, { s2 with chunks := dictSet s2.chunks cc chunk' })

/-- `ChunkManager.update_entity_position(entity_id, old_pos, new_pos)`. -/
def ChunkManagerState.update_entity_position (s : ChunkManagerState) (entityId : String)
    (oldPos newPos : Pos) :
    (Option (Int × Int) × Option (Int × Int)) × ChunkManagerState :=
  let oldChunk := chunk_coords oldPos.x oldPos.y
  let newChunk := chunk_coords newPos.x newPos.y
  let s1 :=
    match dictGet s.chunks oldChunk with
    | some oc =>
      if oc.entities.contains entityId then
        let oc' := { oc with entities := setDiscard oc.entities entityId,
                             version := oc.version + 1 }
        { s with chunks := dictSet s.chunks oldChunk oc' }
      else s
    | none => s
  let (nc, s2) := s1.get_or_create_chunk newChunk.1 newChunk.2
  let nc' := { nc with entities := setAdd nc.entities entityId,
                       version := nc.version + 1 }
  let s3 := { s2 with chunks := dictSet s2.chunks newChunk nc' }
  let s4 := { s3 with entity_chunks := dictSet s3.entity_chunks entityId newChunk }
  if oldChunk ≠ newChunk then ((some oldChunk, some newChunk), s4)
  else ((none, none), s4)

/-! ## Terrain RLE codec (`world/encoding.py`) -/

/-- Run accumulation loop of `encode_terrain_rle` (current value, run count,
remaining flattened cells). -/
def encodeRLEGo (v c : Nat) : List Nat → List Nat
  | [] => [v, c]
  | x :: xs =>
    if x = v ∧ c < 255 then encodeRLEGo v (c + 1) xs
    else v :: c :: encodeRLEGo x 1 xs

/-- `encode_terrain_rle(terrain)`: flatten row-major, emit (value, count)
byte pairs with counts capped at 255. -/
def encode_terrain_rle (terrain : List (List Nat)) : List Nat :=
  match terrain.flatten with
  | [] => []
  | x :: xs => encodeRLEGo x 1 xs

/-- Pair-consuming loop of `decode_terrain_rle`, tracking the remaining
capacity (`expected_size - pos`); a trailing lone byte is ignored, exactly as
the `while i < len(data) - 1` loop does. -/
def decodeRLEGo : List Nat → Nat → Except String (List Nat)
  | v :: c :: rest, rem =>
    if c > rem then .error "RLE decode overflow"
    else do
      let tail ← decodeRLEGo rest (rem - c)
      .ok (List.replicate c v ++ tail)
  | [_], rem => if rem = 0 then .ok [] else .error "RLE decode size mismatch"
  | [], rem => if rem = 0 then .ok [] else .error "RLE decode size mismatch"

/-- `result.reshape(shape)` for a flat list of `rows * cols` cells. -/
def splitRows : Nat → Nat → List Nat → List (List Nat)
  | 0, _, _ => []
  | Nat.succ n, w, l => l.take w :: splitRows n w (l.drop w)

/-- `decode_terrain_rle(data, shape)` with `shape = (height, width)`. -/
def decode_terrain_rle (data : List Nat) (shape : Nat × Nat) :
    Except String (List (List Nat)) := do
  let flat ← decodeRLEGo data (shape.1 * shape.2)
  .ok (splitRows shape.1 shape.2 flat)

/-! ## Concrete scenario fixtures -/

/-- Chain scenario start (spec §8 scenario 5): 10×10 world, "a" at (3,3) and
"b" at (4,3), built through `add_entity`. -/
def chainW0 : World :=
  World.mk 10 10 0 none []
    [("a", mkEntity "a" (Pos.mk 3 3)), ("b", mkEntity "b" (Pos.mk 4 3))]
    [(Pos.mk 3 3, "a"), (Pos.mk 4 3, "b")]
    [] []

/-- The world the code produces after the chain tick. -/
def chainW1 : World :=
  World.mk 10 10 0 none []
    [("a", mkEntity "a" (Pos.mk 4 3)), ("b", mkEntity "b" (Pos.mk 5 3))]
    [(Pos.mk 5 3, "b")]
    [] []

/-- Same-destination race start (spec §8 scenario 2): "alpha" at (4,5),
"beta" at (6,5). -/
def raceW0 : World :=
  World.mk 10 10 0 none []
    [("alpha", mkEntity "alpha" (Pos.mk 4 5)), ("beta", mkEntity "beta" (Pos.mk 6 5))]
    [(Pos.mk 4 5, "alpha"), (Pos.mk 6 5, "beta")]
    [] []

/-- Cycle-of-three start (spec §8 scenario 4): "a" (3,3), "b" (4,3), "c" (4,4). -/
def cycleW0 : World :=
  World.mk 10 10 0 none []
    [("a", mkEntity "a" (Pos.mk 3 3)), ("b", mkEntity "b" (Pos.mk 4 3)),
     ("c", mkEntity "c" (Pos.mk 4 4))]
    [(Pos.mk 3 3, "a"), (Pos.mk 4 3, "b"), (Pos.mk 4 4, "c")]
    [] []

/-- Occupancy scenario: movers "alpha" (3,3) and "bravo" (5,3) race toward
(4,3), where non-mover "zed" sits. -/
def occupiedW0 : World :=
  World.mk 10 10 0 none []
    [("alpha", mkEntity "alpha" (Pos.mk 3 3)), ("bravo", mkEntity "bravo" (Pos.mk 5 3)),
     ("zed", mkEntity "zed" (Pos.mk 4 3))]
    [(Pos.mk 3 3, "alpha"), (Pos.mk 5 3, "bravo"), (Pos.mk 4 3, "zed")]
    [] []

/-- Collect scenario: "bob" stands on bush "bush1" carrying 3 berries. -/
def collectW0 : World :=
  World.mk 10 10 0 none []
    [("bob", mkEntity "bob" (Pos.mk 5 5))]
    [(Pos.mk 5 5, "bob")]
    [("bush1", WorldObject.mk "bush1" (Pos.mk 5 5) "bush" [("berry_count", "3")])]
    [(Pos.mk 5 5, ["bush1"])]

/-- The default all-stone 32×32 terrain a fresh `World` yields for any chunk. -/
def stoneChunkTerrain : List (List Nat) :=
  List.replicate 32 (List.replicate 32 6)

/-- An empty chunk manager over all-stone terrain. -/
def chunkMgr0 : ChunkManagerState :=
  ChunkManagerState.mk (fun _ _ => stoneChunkTerrain) [] [] []

/-- The 32×32 array filled with the floor value 3 (spec §8 scenario 10). -/
def grassChunkTerrain : List (List Nat) :=
  List.replicate 32 (List.replicate 32 3)

/-- A fresh tick context: tick 0, window opening at 0 ms, deadline 500 ms. -/
def ctx0 : TickContext :=
  TickContext.mk 0 0 500 [] [] []

/-! ## Statement-level notions for the resolver claims -/

/-- The submitted entity ids, in claim order. -/
def claimIds (claims : List MoveClaim) : List String :=
  claims.map MoveClaim.entity_id

/-- The claims that target `dest`, in claim order. -/
def claimantsOf (claims : List MoveClaim) (dest : Pos) : List MoveClaim :=
  claims.filter (fun c => c.to_pos = dest)

/-- The claimants of `dest` that are still unfailed when the same-destination
phase runs (phase 3 recomputes exactly this filter). -/
def validClaimantsOf (claims : List MoveClaim) (dest : Pos) : List MoveClaim :=
  (claimantsOf claims dest).filter (fun c => ¬ dictHas (preDestFailed claims) c.entity_id)

/-- Well-formed claim lists, as produced from a consistent world: entity ids
are unique, and so are origin positions (at most one entity per tile). -/
def wfClaims (claims : List MoveClaim) : Prop :=
  (claims.map MoveClaim.entity_id).Nodup ∧ (claims.map MoveClaim.from_pos).Nodup

/-- A mutual-displacement cycle among the not-yet-failed movers: at least three
distinct movers (with the nonempty ids the walk's truthiness tests rely on),
each moving onto the origin of the next, the last wrapping around to the first,
none of them failed by the swap phase. -/
def IsMoveCycle (claims cyc : List MoveClaim) : Prop :=
  3 ≤ cyc.length ∧
  (∀ c ∈ cyc, c ∈ claims) ∧
  (cyc.map MoveClaim.entity_id).Nodup ∧
  (∀ c ∈ cyc, c.entity_id ≠ "" ∧ dictHas (swapFailed claims) c.entity_id = false) ∧
  List.Chain' (fun a b => a.to_pos = b.from_pos) cyc ∧
  (∀ x ∈ cyc.getLast?, ∀ y ∈ cyc.head?, x.to_pos = y.from_pos)

/-- Two claims that exactly exchange positions. -/
def IsSwapPair (c c' : MoveClaim) : Prop :=
  c'.from_pos = c.to_pos ∧ c'.to_pos = c.from_pos

/-- Combined swap-and-cycle scenario: "s1"/"s2" exchange positions while
"a" → "b" → "c" → "a" displace one another in a 3-cycle. -/
def c4Claims : List MoveClaim :=
  [MoveClaim.mk "s1" (Pos.mk 0 0) (Pos.mk 1 0) Direction.east,
   MoveClaim.mk "s2" (Pos.mk 1 0) (Pos.mk 0 0) Direction.west,
   MoveClaim.mk "a" (Pos.mk 3 3) (Pos.mk 4 3) Direction.east,
   MoveClaim.mk "b" (Pos.mk 4 3) (Pos.mk 3 4) Direction.southwest,
   MoveClaim.mk "c" (Pos.mk 3 4) (Pos.mk 3 3) Direction.north]

/-- A 3-cycle of movers one of which has the empty entity id: "a" (3,3),
"" (4,3) and "c" (3,4), each moving onto the origin of the next. -/
def c4EmptyCycleClaims : List MoveClaim :=
  [MoveClaim.mk "a" (Pos.mk 3 3) (Pos.mk 4 3) Direction.east,
   MoveClaim.mk "" (Pos.mk 4 3) (Pos.mk 3 4) Direction.southwest,
   MoveClaim.mk "c" (Pos.mk 3 4) (Pos.mk 3 3) Direction.north]

/-- The world holding the three movers of `c4EmptyCycleClaims`. -/
def c4EmptyCycleW : World :=
  World.mk 10 10 0 none []
    [("a", mkEntity "a" (Pos.mk 3 3)), ("", mkEntity "" (Pos.mk 4 3)),
     ("c", mkEntity "c" (Pos.mk 3 4))]
    [(Pos.mk 3 3, "a"), (Pos.mk 4 3, ""), (Pos.mk 3 4, "c")]
    [] []

/-- The world the code produces after the alpha/beta race tick. -/
def raceW1 : World :=
  World.mk 10 10 0 none []
    [("alpha", mkEntity "alpha" (Pos.mk 5 5)), ("beta", mkEntity "beta" (Pos.mk 6 5))]
    [(Pos.mk 6 5, "beta"), (Pos.mk 5 5, "alpha")]
    [] []

/-! # Theorems

General lemmas about the dictionary embedding, then the per-claim theorems. -/

theorem dictGet_dictSet_self {K V : Type} [DecidableEq K] (d : List (K × V)) (k : K) (v : V) :
    dictGet (dictSet d k v) k = some v := by
  induction d with
  | nil => simp [dictSet, dictGet]
  | cons hd tl ih =>
    obtain ⟨k', v'⟩ := hd
    by_cases h : k' = k <;> simp [dictSet, dictGet, h, ih]

theorem dictGet_dictSet_ne {K V : Type} [DecidableEq K] (d : List (K × V)) (k k' : K) (v : V)
    (h : k ≠ k') : dictGet (dictSet d k v) k' = dictGet d k' := by
  induction d with
  | nil => simp [dictSet, dictGet, h]
  | cons hd tl ih =>
    obtain ⟨k'', v''⟩ := hd
    by_cases h2 : k'' = k
    · subst h2
      simp [dictSet, dictGet, h]
    · simp [dictSet, dictGet, h2, ih]

theorem dictGet_dictDel_ne {K V : Type} [DecidableEq K] (d : List (K × V)) (k k' : K)
    (h : k ≠ k') : dictGet (dictDel d k) k' = dictGet d k' := by
  induction d with
  | nil => simp [dictDel, dictGet]
  | cons hd tl ih =>
    obtain ⟨k'', v''⟩ := hd
    by_cases h2 : k'' = k
    · subst h2
      simp [dictDel, dictGet, h]
    · simp [dictDel, dictGet, h2, ih]

theorem dictGet_dictAppendAt_self {K V : Type} [DecidableEq K] (d : List (K × List V))
    (k : K) (v : V) :
    dictGet (dictAppendAt d k v) k = some ((dictGet d k).getD [] ++ [v]) := by
  induction d with
  | nil => simp [dictAppendAt, dictGet]
  | cons hd tl ih =>
    obtain ⟨k', l⟩ := hd
    by_cases h : k' = k <;> simp [dictAppendAt, dictGet, h, ih]

theorem dictGet_dictAppendAt_ne {K V : Type} [DecidableEq K] (d : List (K × List V))
    (k k' : K) (v : V) (h : k ≠ k') :
    dictGet (dictAppendAt d k v) k' = dictGet d k' := by
  induction d with
  | nil => simp [dictAppendAt, dictGet, h]
  | cons hd tl ih =>
    obtain ⟨k'', l⟩ := hd
    by_cases h2 : k'' = k
    · subst h2
      simp [dictAppendAt, dictGet, h]
    · simp [dictAppendAt, dictGet, h2, ih]

/-- C1: the claim asserts that enacting a tick's winning moves keeps the
position index consistent with every entity record regardless of enactment
order, with the chain scenario (a at (3,3) EAST, b at (4,3) EAST) as witness.
The code does not satisfy this: enacting in submission order, b's
`update_entity_position` deletes the (4,3) key that a had just claimed, so
`get_entity_at((4,3))` is empty afterwards even though a's record says (4,3),
and a's subsequent SOUTH move raises `KeyError` instead of succeeding.  This
theorem evaluates the code on the failing input. -/
theorem c1_chain_enactment_corrupts_position_index :
    (((World.new 10 10).add_entity (mkEntity "a" (Pos.mk 3 3))).bind
        (fun w => w.add_entity (mkEntity "b" (Pos.mk 4 3))) = Except.ok chainW0)
    ∧ process_movement_phase chainW0 [("a", Direction.east), ("b", Direction.east)]
        = Except.ok ([MoveResult.mk "a" true (Pos.mk 3 3) (Pos.mk 4 3) none,
                      MoveResult.mk "b" true (Pos.mk 4 3) (Pos.mk 5 3) none], chainW1)
    ∧ chainW1.get_entity_at (Pos.mk 4 3) = none
    ∧ dictGet chainW1.entities "a" = some (mkEntity "a" (Pos.mk 4 3))
    ∧ chainW1.get_entity_at (Pos.mk 5 3) = some (mkEntity "b" (Pos.mk 5 3))
    ∧ process_movement_phase chainW1 [("a", Direction.south)] = Except.error "KeyError" := by
  exact ⟨rfl, rfl, rfl, rfl, rfl, rfl⟩

/-- C3 (counterexample): the claim requires admission to succeed only when the
wall clock is strictly below `deadline_ms`, but `is_past_deadline` tests
`now > deadline_ms`, so a submission at exactly the deadline is accepted. -/
theorem c3_deadline_boundary_counterexample :
    (tickLoopSubmitMoveIntent (some ctx0) 500 "p1" Direction.north).1 = true
    ∧ ¬ ((500 : Int) < ctx0.deadline_ms) := by
  exact ⟨rfl, by decide⟩

/-- C3 (amended): each submit accepts iff a tick context exists, the wall clock
is not past (i.e. is at most) the context's `deadline_ms`, and no intent of the
same family is already recorded for the entity; every rejection leaves the
context's intent maps unchanged. -/
theorem c3_admission_characterization :
    (∀ (ctx : TickContext) (now : Int) (eid : String) (dir : Direction),
      (tickLoopSubmitMoveIntent (some ctx) now eid dir).1 = true ↔
        (now ≤ ctx.deadline_ms ∧ dictHas ctx.move_intents eid = false))
    ∧ (∀ (now : Int) (eid : String) (dir : Direction),
        tickLoopSubmitMoveIntent none now eid dir = (false, none))
    ∧ (∀ (ctx : TickContext) (now : Int) (eid : String) (dir : Direction),
        (tickLoopSubmitMoveIntent (some ctx) now eid dir).1 = false →
          (tickLoopSubmitMoveIntent (some ctx) now eid dir).2 = some ctx)
    ∧ (∀ (ctx : TickContext) (now : Int) (intent : CollectIntent),
        (ctx.submit_collect_intent now intent).1 = true ↔
          (now ≤ ctx.deadline_ms ∧ dictHas ctx.collect_intents intent.entity_id = false))
    ∧ (∀ (ctx : TickContext) (now : Int) (intent : CollectIntent),
        (ctx.submit_collect_intent now intent).1 = false →
          (ctx.submit_collect_intent now intent).2 = ctx)
    ∧ (∀ (ctx : TickContext) (now : Int) (intent : EatIntent),
        (ctx.submit_eat_intent now intent).1 = true ↔
          (now ≤ ctx.deadline_ms ∧ dictHas ctx.eat_intents intent.entity_id = false))
    ∧ (∀ (ctx : TickContext) (now : Int) (intent : EatIntent),
        (ctx.submit_eat_intent now intent).1 = false →
          (ctx.submit_eat_intent now intent).2 = ctx) := by
  refine ⟨?_, ?_, ?_, ?_, ?_, ?_, ?_⟩
  · intro ctx now eid dir
    simp only [tickLoopSubmitMoveIntent, TickContext.submit_move_intent,
      TickContext.is_past_deadline]
    by_cases h1 : now > ctx.deadline_ms
    · simp [h1]
    · by_cases h2 : dictHas ctx.move_intents eid
      · simp [h1, h2]
      · simp [h1, h2]
        omega
  · intro now eid dir
    rfl
  · intro ctx now eid dir
    simp only [tickLoopSubmitMoveIntent, TickContext.submit_move_intent,
      TickContext.is_past_deadline]
    by_cases h1 : now > ctx.deadline_ms
    · simp [h1]
    · by_cases h2 : dictHas ctx.move_intents eid
      · simp [h1, h2]
      · simp [h1, h2]
  · intro ctx now intent
    simp only [TickContext.submit_collect_intent, TickContext.is_past_deadline]
    by_cases h1 : now > ctx.deadline_ms
    · simp [h1]
    · by_cases h2 : dictHas ctx.collect_intents intent.entity_id
      · simp [h1, h2]
      · simp [h1, h2]
        omega
  · intro ctx now intent
    simp only [TickContext.submit_collect_intent, TickContext.is_past_deadline]
    by_cases h1 : now > ctx.deadline_ms
    · simp [h1]
    · by_cases h2 : dictHas ctx.collect_intents intent.entity_id
      · simp [h1, h2]
      · simp [h1, h2]
  · intro ctx now intent
    simp only [TickContext.submit_eat_intent, TickContext.is_past_deadline]
    by_cases h1 : now > ctx.deadline_ms
    · simp [h1]
    · by_cases h2 : dictHas ctx.eat_intents intent.entity_id
      · simp [h1, h2]
      · simp [h1, h2]
        omega
  · intro ctx now intent
    simp only [TickContext.submit_eat_intent, TickContext.is_past_deadline]
    by_cases h1 : now > ctx.deadline_ms
    · simp [h1]
    · by_cases h2 : dictHas ctx.eat_intents intent.entity_id
      · simp [h1, h2]
      · simp [h1, h2]

/-- C3 (witness): a concrete late rejection leaves the context unchanged. -/
theorem c3_admission_characterization_witness :
    (tickLoopSubmitMoveIntent (some ctx0) 600 "p1" Direction.north).1 = false
    ∧ (tickLoopSubmitMoveIntent (some ctx0) 600 "p1" Direction.north).2 = some ctx0 := by
  have h : (tickLoopSubmitMoveIntent (some ctx0) 600 "p1" Direction.north).1 = false := rfl
  exact ⟨h, c3_admission_characterization.2.2.1 ctx0 600 "p1" Direction.north h⟩

/-- C6 (counterexample): validity of a lease does not imply the leased entity
is live in any world.  `LeaseManager.acquire` accepts an arbitrary entity id
(here "ghost"), and `is_valid_lease` never consults the world, so it returns
true while the world holds no such entity. -/
theorem c6_valid_lease_without_live_entity :
    ((((LeaseManagerState.mk [] []).acquire 30000 1000 "L1" "ghost" "ctrlA").2).is_valid_lease
        1000 "L1" "ghost").1 = true
    ∧ dictHas (World.new 10 10).entities "ghost" = false := by
  exact ⟨rfl, rfl⟩

/-- C6 (amended): `is_valid_lease(lease_id, entity_id)` returns true iff a
lease with that id exists, is not expired (expiry being `now_ms ≥
expires_at_ms`), and is bound to that entity id; in particular an expired
lease never validates, swept or not.  (Validity does not by itself guarantee
that the entity is live in the world.) -/
theorem c6_is_valid_lease_characterization :
    ∀ (s : LeaseManagerState) (now : Int) (lid eid : String),
      (s.is_valid_lease now lid eid).1 = true ↔
        ∃ l : Lease, dictGet s.leases lid = some l
          ∧ l.is_expired now = false ∧ l.entity_id = eid := by
  intro s now lid eid
  simp only [LeaseManagerState.is_valid_lease, LeaseManagerState.get_lease]
  cases h : dictGet s.leases lid with
  | none => simp [h]
  | some l =>
    by_cases hexp : l.is_expired now
    · simp [h, hexp]
    · simp [h, hexp]

/-- C7: the claim describes the collect phase serving claimants in
lexicographic order, deducting `min(requested, remaining)`; the code and its
tests (`test_foraging.py`) intend exactly that, but `CollectIntent` in
`world/types.py` defines no `amount` field, so `process_collect_phase` raises
`AttributeError` at `intent.amount` as soon as any claimant is served with a
positive `berry_count`.  This theorem evaluates the code at such an input. -/
theorem c7_collect_phase_raises_attribute_error :
    process_collect_phase collectW0 [("bob", CollectIntent.mk "bob" (some "bush1") "berry")]
      = Except.error "AttributeError: amount" := by
  exact rfl

/-- C10: lease lookups are effectful exactly on expired leases: `get_lease` of
a lease expired at call time removes it from both the lease table and the
entity index and returns `None` (and `is_valid_lease` / `get_lease_for_entity`,
which call it, do the same), while looking up a non-expired or absent lease
leaves both maps unchanged. -/
theorem c10_lease_lookup_side_effects :
    (∀ (s : LeaseManagerState) (now : Int) (lid : String) (l : Lease),
      dictGet s.leases lid = some l → l.is_expired now = true →
        s.get_lease now lid =
          (none, LeaseManagerState.mk (dictDel s.leases lid) (dictDel s.entity_leases l.entity_id)))
    ∧ (∀ (s : LeaseManagerState) (now : Int) (lid : String) (l : Lease),
        dictGet s.leases lid = some l → l.is_expired now = false →
          s.get_lease now lid = (some l, s))
    ∧ (∀ (s : LeaseManagerState) (now : Int) (lid : String),
        dictGet s.leases lid = none → s.get_lease now lid = (none, s))
    ∧ (∀ (s : LeaseManagerState) (now : Int) (lid eid : String) (l : Lease),
        dictGet s.leases lid = some l → l.is_expired now = true →
          s.is_valid_lease now lid eid =
            (false, LeaseManagerState.mk (dictDel s.leases lid) (dictDel s.entity_leases l.entity_id)))
    ∧ (∀ (s : LeaseManagerState) (now : Int) (eid lid : String) (l : Lease),
        dictGet s.entity_leases eid = some lid → dictGet s.leases lid = some l →
          l.is_expired now = true →
          s.get_lease_for_entity now eid =
            (none, LeaseManagerState.mk (dictDel s.leases lid) (dictDel s.entity_leases l.entity_id)))
    ∧ (∀ (s : LeaseManagerState) (now : Int) (eid : String),
        dictGet s.entity_leases eid = none → s.get_lease_for_entity now eid = (none, s)) := by
  have hget : ∀ (s : LeaseManagerState) (now : Int) (lid : String) (l : Lease),
      dictGet s.leases lid = some l → l.is_expired now = true →
        s.get_lease now lid =
          (none, LeaseManagerState.mk (dictDel s.leases lid) (dictDel s.entity_leases l.entity_id)) := by
    intro s now lid l h hexp
    simp [LeaseManagerState.get_lease, h, hexp, LeaseManagerState.remove_lease]
  refine ⟨hget, ?_, ?_, ?_, ?_, ?_⟩
  · intro s now lid l h hexp
    simp [LeaseManagerState.get_lease, h, hexp]
  · intro s now lid h
    simp [LeaseManagerState.get_lease, h]
  · intro s now lid eid l h hexp
    simp [LeaseManagerState.is_valid_lease, hget s now lid l h hexp]
  · intro s now eid lid l he h hexp
    simp [LeaseManagerState.get_lease_for_entity, he, hget s now lid l h hexp]
  · intro s now eid he
    simp [LeaseManagerState.get_lease_for_entity, he]

/-- C10 (witness): a concrete expired lease is evicted by a lookup. -/
theorem c10_lease_lookup_side_effects_witness :
    (LeaseManagerState.mk [("L1", Lease.mk "L1" "e1" "ctrlA" 0 100)] [("e1", "L1")]).get_lease
        100 "L1"
      = (none, LeaseManagerState.mk [] []) := by
  have h := c10_lease_lookup_side_effects.1
    (LeaseManagerState.mk [("L1", Lease.mk "L1" "e1" "ctrlA" 0 100)] [("e1", "L1")])
    100 "L1" (Lease.mk "L1" "e1" "ctrlA" 0 100) rfl rfl
  exact h

theorem mem_setAdd (s : List String) (x y : String) :
    x ∈ setAdd s y ↔ x ∈ s ∨ x = y := by
  unfold setAdd
  by_cases h : s.contains y
  · simp only [if_pos h]
    have hy : y ∈ s := by simpa using h
    constructor
    · intro hx
      exact Or.inl hx
    · rintro (hx | rfl)
      · exact hx
      · exact hy
  · have hy : ¬ y ∈ s := by simpa using h
    simp [hy, List.mem_append]

/-- C9: `ChunkManager.update_entity_position(id, old, new)` returns
`(None, None)` iff `old` and `new` fall in the same chunk under
floor-division by 32, in which case membership is unchanged but the chunk's
version still increases; otherwise it removes the entity from the old chunk's
set, adds it to the new chunk's set, increments both chunk versions and
returns the pair of chunk coordinates.  Concretely, an entity placed at
(10,10) and moved to (50,50) goes from chunk (0,0) to (1,1) and both
versions increment. -/
theorem c9_chunk_update_entity_position :
    (∀ (s : ChunkManagerState) (eid : String) (oldPos newPos : Pos),
      ((s.update_entity_position eid oldPos newPos).1 = (none, none) ↔
        chunk_coords oldPos.x oldPos.y = chunk_coords newPos.x newPos.y))
    ∧ (∀ (s : ChunkManagerState) (eid : String) (oldPos newPos : Pos) (oc : Chunk),
        chunk_coords oldPos.x oldPos.y = chunk_coords newPos.x newPos.y →
        dictGet s.chunks (chunk_coords oldPos.x oldPos.y) = some oc →
        oc.entities.contains eid = true →
        ∃ oc' : Chunk,
          dictGet (s.update_entity_position eid oldPos newPos).2.chunks
              (chunk_coords oldPos.x oldPos.y) = some oc'
            ∧ (∀ x, x ∈ oc'.entities ↔ x ∈ oc.entities)
            ∧ oc.version < oc'.version)
    ∧ (∀ (s : ChunkManagerState) (eid : String) (oldPos newPos : Pos) (oc : Chunk),
        chunk_coords oldPos.x oldPos.y ≠ chunk_coords newPos.x newPos.y →
        dictGet s.chunks (chunk_coords oldPos.x oldPos.y) = some oc →
        oc.entities.contains eid = true →
        (s.update_entity_position eid oldPos newPos).1 =
            (some (chunk_coords oldPos.x oldPos.y), some (chunk_coords newPos.x newPos.y))
        ∧ dictGet (s.update_entity_position eid oldPos newPos).2.chunks
            (chunk_coords oldPos.x oldPos.y)
            = some { oc with entities := setDiscard oc.entities eid, version := oc.version + 1 }
        ∧ (∃ nc' : Chunk,
            dictGet (s.update_entity_position eid oldPos newPos).2.chunks
                (chunk_coords newPos.x newPos.y) = some nc'
              ∧ eid ∈ nc'.entities
              ∧ nc'.version = (match dictGet s.chunks (chunk_coords newPos.x newPos.y) with
                  | some nc => nc.version
                  | none => 0) + 1)
        ∧ dictGet (s.update_entity_position eid oldPos newPos).2.entity_chunks eid
            = some (chunk_coords newPos.x newPos.y))
    ∧ ((chunkMgr0.add_entity "e1" (Pos.mk 10 10)).1 = (0, 0)
        ∧ ((chunkMgr0.add_entity "e1" (Pos.mk 10 10)).2.update_entity_position "e1"
              (Pos.mk 10 10) (Pos.mk 50 50)).1 = (some (0, 0), some (1, 1))
        ∧ dictGet ((chunkMgr0.add_entity "e1" (Pos.mk 10 10)).2.update_entity_position "e1"
              (Pos.mk 10 10) (Pos.mk 50 50)).2.chunks (0, 0)
            = some (Chunk.mk 0 0 stoneChunkTerrain [] [] 2)
        ∧ dictGet ((chunkMgr0.add_entity "e1" (Pos.mk 10 10)).2.update_entity_position "e1"
              (Pos.mk 10 10) (Pos.mk 50 50)).2.chunks (1, 1)
            = some (Chunk.mk 1 1 stoneChunkTerrain ["e1"] [] 1)) := by
  refine ⟨?_, ?_, ?_, rfl, rfl, rfl, rfl⟩
  · intro s eid oldPos newPos
    by_cases hc : chunk_coords oldPos.x oldPos.y = chunk_coords newPos.x newPos.y
    · simp [ChunkManagerState.update_entity_position, hc]
    · simp [ChunkManagerState.update_entity_position, hc]
  · intro s eid oldPos newPos oc hc hoc hmem
    refine ⟨{ oc with entities := setAdd (setDiscard oc.entities eid) eid,
                      version := oc.version + 1 + 1 }, ?_, ?_, ?_⟩
    · simp only [ChunkManagerState.update_entity_position, hoc, hmem, if_pos,
        ChunkManagerState.get_or_create_chunk]
      rw [← hc]
      simp [dictGet_dictSet_self, hoc, ← hc]
    · intro x
      by_cases hx : x = eid
      · subst hx
        simp [mem_setAdd]
        exact List.mem_of_elem_eq_true hmem
      · simp only [mem_setAdd, setDiscard]
        rw [List.mem_erase_of_ne hx]
        simp [hx]
    · show oc.version < oc.version + 1 + 1
      omega
  · intro s eid oldPos newPos oc hc hoc hmem
    refine ⟨?_, ?_, ?_, ?_⟩
    · simp [ChunkManagerState.update_entity_position, hc]
    · cases hnew : dictGet s.chunks (chunk_coords newPos.x newPos.y) with
      | some nc =>
        simp only [ChunkManagerState.update_entity_position, hoc, hmem, if_pos,
          ChunkManagerState.get_or_create_chunk,
          dictGet_dictSet_ne _ _ _ _ hc, hnew]
        simp [hc, dictGet_dictSet_ne _ _ _ _ (Ne.symm hc), dictGet_dictSet_self]
      | none =>
        simp only [ChunkManagerState.update_entity_position, hoc, hmem, if_pos,
          ChunkManagerState.get_or_create_chunk,
          dictGet_dictSet_ne _ _ _ _ hc, hnew]
        simp [hc, dictGet_dictSet_ne _ _ _ _ (Ne.symm hc), dictGet_dictSet_self]
    · cases hnew : dictGet s.chunks (chunk_coords newPos.x newPos.y) with
      | some nc =>
        refine ⟨{ nc with entities := setAdd nc.entities eid, version := nc.version + 1 },
          ?_, ?_, ?_⟩
        · simp only [ChunkManagerState.update_entity_position, hoc, hmem, if_pos,
            ChunkManagerState.get_or_create_chunk,
            dictGet_dictSet_ne _ _ _ _ hc, hnew]
          simp [hc, dictGet_dictSet_self]
        · simp [mem_setAdd]
        · simp [hnew]
      | none =>
        refine ⟨Chunk.mk (chunk_coords newPos.x newPos.y).1 (chunk_coords newPos.x newPos.y).2
            (s.getTerrain (chunk_coords newPos.x newPos.y).1 (chunk_coords newPos.x newPos.y).2)
            (setAdd [] eid) [] 1, ?_, ?_, ?_⟩
        · simp only [ChunkManagerState.update_entity_position, hoc, hmem, if_pos,
            ChunkManagerState.get_or_create_chunk,
            dictGet_dictSet_ne _ _ _ _ hc, hnew]
          simp [hc, dictGet_dictSet_self]
        · simp [mem_setAdd]
        · simp [hnew]
    · simp only [ChunkManagerState.update_entity_position, hoc, hmem, if_pos,
        ChunkManagerState.get_or_create_chunk]
      simp [hc, dictGet_dictSet_self]

/-- C9 (witness): the cross-chunk branch applied to the concrete
(10,10) → (50,50) move. -/
theorem c9_chunk_update_entity_position_witness :
    ((chunkMgr0.add_entity "e1" (Pos.mk 10 10)).2.update_entity_position "e1"
        (Pos.mk 10 10) (Pos.mk 50 50)).1 = (some (0, 0), some (1, 1))
    ∧ dictGet ((chunkMgr0.add_entity "e1" (Pos.mk 10 10)).2.update_entity_position "e1"
        (Pos.mk 10 10) (Pos.mk 50 50)).2.entity_chunks "e1" = some (1, 1) := by
  have h := c9_chunk_update_entity_position.2.2.1
    (chunkMgr0.add_entity "e1" (Pos.mk 10 10)).2 "e1" (Pos.mk 10 10) (Pos.mk 50 50)
    (Chunk.mk 0 0 stoneChunkTerrain ["e1"] [] 1) (by decide) rfl rfl
  exact ⟨h.1, h.2.2.2⟩

theorem decodeRLEGo_encodeRLEGo (xs : List Nat) : ∀ (v c : Nat), 1 ≤ c → c ≤ 255 →
    decodeRLEGo (encodeRLEGo v c xs) (c + xs.length) = Except.ok (List.replicate c v ++ xs) := by
  induction xs with
  | nil =>
    intro v c h1 h255
    simp only [encodeRLEGo, decodeRLEGo, List.length_nil, Nat.add_zero]
    have hng : ¬ c > c := by omega
    rw [if_neg hng]
    simp only [Nat.sub_self]
    rfl
  | cons x xs ih =>
    intro v c h1 h255
    show decodeRLEGo
        (if x = v ∧ c < 255 then encodeRLEGo v (c + 1) xs else v :: c :: encodeRLEGo x 1 xs)
        (c + (x :: xs).length)
      = Except.ok (List.replicate c v ++ x :: xs)
    by_cases hcase : x = v ∧ c < 255
    · obtain ⟨hx, hc⟩ := hcase
      subst hx
      rw [if_pos (And.intro rfl hc)]
      have heq : c + (x :: xs).length = (c + 1) + xs.length := by
        simp [List.length_cons]
        omega
      rw [heq]
      rw [ih x (c + 1) (by omega) (by omega)]
      congr 1
      rw [List.replicate_succ']
      simp
    · rw [if_neg hcase]
      have hng : ¬ c > c + (x :: xs).length := by omega
      simp only [decodeRLEGo, if_neg hng]
      have hsub : c + (x :: xs).length - c = 1 + xs.length := by
        simp [List.length_cons]
        omega
      rw [hsub, ih x 1 (by omega) (by omega)]
      rfl

theorem splitRows_flatten (a : List (List Nat)) (w : Nat)
    (h : ∀ r ∈ a, r.length = w) : splitRows a.length w a.flatten = a := by
  induction a with
  | nil => simp [splitRows]
  | cons r rest ih =>
    have hr : r.length = w := h r (List.mem_cons_self r rest)
    simp only [List.length_cons, List.flatten_cons, splitRows]
    rw [List.take_left' hr, List.drop_left' hr]
    rw [ih (fun x hx => h x (List.mem_cons_of_mem r hx))]

theorem splitRows_flatten32 (a : List (List Nat)) (hn : a.length = 32)
    (h : ∀ r ∈ a, r.length = 32) : splitRows 32 32 a.flatten = a := by
  have hsr := splitRows_flatten a 32 h
  rwa [hn] at hsr

/-- C8: for every 32×32 uint8 array `a`,
`decode_terrain_rle(encode_terrain_rle(a), (32,32)) = a`, the encoder
flattening row-major into (value, count) pairs with counts capped at 255;
in particular the 32×32 array filled with 3 encodes to exactly 10 bytes and
decodes back to the array. -/
theorem c8_rle_roundtrip :
    (∀ a : List (List Nat),
      a.length = 32 →
      (∀ row ∈ a, row.length = 32) →
      (∀ row ∈ a, ∀ v ∈ row, v < 256) →
      decode_terrain_rle (encode_terrain_rle a) (32, 32) = Except.ok a)
    ∧ (encode_terrain_rle grassChunkTerrain).length = 10
    ∧ decode_terrain_rle (encode_terrain_rle grassChunkTerrain) (32, 32)
        = Except.ok grassChunkTerrain := by
  have hgen : ∀ a : List (List Nat),
      a.length = 32 →
      (∀ row ∈ a, row.length = 32) →
      (∀ row ∈ a, ∀ v ∈ row, v < 256) →
      decode_terrain_rle (encode_terrain_rle a) (32, 32) = Except.ok a := by
    intro a hlen hrows _
    have hmap : a.map List.length = List.replicate 32 32 := by
      rw [List.eq_replicate_iff]
      refine ⟨by simp [hlen], ?_⟩
      intro b hb
      obtain ⟨r, hr, hrb⟩ := List.mem_map.1 hb
      rw [← hrb]
      exact hrows r hr
    have hflatlen : a.flatten.length = 1024 := by
      rw [List.length_flatten, hmap]
      simp
    cases hflat : a.flatten with
    | nil => rw [hflat] at hflatlen; simp at hflatlen
    | cons x xs =>
      have hxs : xs.length = 1023 := by
        rw [hflat] at hflatlen
        simp at hflatlen
        omega
      simp only [encode_terrain_rle, hflat, decode_terrain_rle]
      have hcap : (32 * 32 : Nat) = 1 + xs.length := by
        rw [hxs]
      show (do
        let flat ← decodeRLEGo (encodeRLEGo x 1 xs) (32 * 32)
        Except.ok (splitRows 32 32 flat)) = Except.ok a
      rw [hcap, decodeRLEGo_encodeRLEGo xs x 1 (by omega) (by omega)]
      show Except.ok (splitRows 32 32 (List.replicate 1 x ++ xs)) = Except.ok a
      have hone : List.replicate 1 x ++ xs = x :: xs := by simp
      rw [hone, ← hflat, splitRows_flatten32 a hlen hrows]
  refine ⟨hgen, rfl, ?_⟩
  apply hgen
  · rfl
  · intro r hr
    rw [List.eq_of_mem_replicate hr]
    simp
  · intro r hr v hv
    rw [List.eq_of_mem_replicate hr] at hv
    have := List.eq_of_mem_replicate hv
    omega

/-- C8 (witness): the general round-trip law applied to the all-3 array. -/
theorem c8_rle_roundtrip_witness :
    decode_terrain_rle (encode_terrain_rle grassChunkTerrain) (32, 32)
      = Except.ok grassChunkTerrain := by
  apply c8_rle_roundtrip.1
  · rfl
  · intro r hr
    rw [List.eq_of_mem_replicate hr]
    simp
  · intro r hr v hv
    rw [List.eq_of_mem_replicate hr] at hv
    have := List.eq_of_mem_replicate hv
    omega

theorem dictGet_markFold_preserve (ms : List MoveClaim) (v : String)
    (f0 : List (String × String)) (k : String) (hv : dictGet f0 k = some v) :
    dictGet (ms.foldl (fun f x => dictSet f x.entity_id v) f0) k = some v := by
  induction ms generalizing f0 with
  | nil => exact hv
  | cons m rest ih =>
    apply ih
    by_cases hk : m.entity_id = k
    · subst hk
      exact dictGet_dictSet_self f0 m.entity_id v
    · rw [dictGet_dictSet_ne _ _ _ _ hk]
      exact hv

theorem dictGet_markFold_of_mem (ms : List MoveClaim) (v : String)
    (f0 : List (String × String)) (l : MoveClaim) (hl : l ∈ ms) :
    dictGet (ms.foldl (fun f x => dictSet f x.entity_id v) f0) l.entity_id = some v := by
  induction ms generalizing f0 with
  | nil => cases hl
  | cons m rest ih =>
    rcases List.mem_cons.1 hl with h | h
    · subst h
      exact dictGet_markFold_preserve rest v _ _ (dictGet_dictSet_self f0 l.entity_id v)
    · exact ih _ h

theorem dictGet_markFold_frame (ms : List MoveClaim) (v : String)
    (f0 : List (String × String)) (k : String) (hk : ∀ m ∈ ms, m.entity_id ≠ k) :
    dictGet (ms.foldl (fun f x => dictSet f x.entity_id v) f0) k = dictGet f0 k := by
  induction ms generalizing f0 with
  | nil => rfl
  | cons m rest ih =>
    simp only [List.foldl_cons]
    rw [ih _ (fun x hx => hk x (List.mem_cons_of_mem m hx))]
    exact dictGet_dictSet_ne _ _ _ _ (hk m (List.mem_cons_self m rest))

theorem mem_insertByEntityId (c x : MoveClaim) (l : List MoveClaim) :
    x ∈ insertByEntityId c l ↔ x = c ∨ x ∈ l := by
  induction l with
  | nil => simp [insertByEntityId]
  | cons d rest ih =>
    by_cases h : pyStrLt c.entity_id d.entity_id = true
    · simp [insertByEntityId, h]
    · simp only [insertByEntityId, if_neg h, List.mem_cons, ih]
      tauto

theorem mem_sortByEntityId (l : List MoveClaim) (x : MoveClaim) :
    x ∈ sortByEntityId l ↔ x ∈ l := by
  suffices h : ∀ acc, x ∈ l.foldl (fun acc c => insertByEntityId c acc) acc ↔ x ∈ acc ∨ x ∈ l by
    simpa [sortByEntityId] using h []
  induction l with
  | nil => simp
  | cons c rest ih =>
    intro acc
    simp only [List.foldl_cons, ih, mem_insertByEntityId, List.mem_cons]
    tauto

theorem charListLtb_irrefl (a : List Char) : charListLtb a a = false := by
  induction a with
  | nil => rfl
  | cons x xs ih => simp [charListLtb, ih]

theorem charListLtb_trans (a : List Char) : ∀ b c : List Char,
    charListLtb a b = true → charListLtb b c = true → charListLtb a c = true := by
  induction a with
  | nil =>
    intro b c hab hbc
    cases b with
    | nil => simp [charListLtb] at hab
    | cons y ys =>
      cases c with
      | nil => simp [charListLtb] at hbc
      | cons z zs => rfl
  | cons x xs ih =>
    intro b c hab hbc
    cases b with
    | nil => simp [charListLtb] at hab
    | cons y ys =>
      cases c with
      | nil => simp [charListLtb] at hbc
      | cons z zs =>
        simp only [charListLtb] at hab hbc ⊢
        rcases lt_trichotomy x y with hxy | hxy | hxy
        · rcases lt_trichotomy y z with hyz | hyz | hyz
          · rw [if_pos (lt_trans hxy hyz)]
          · subst hyz
            rw [if_pos hxy]
          · rw [if_neg (lt_asymm hyz), if_pos hyz] at hbc
            simp at hbc
        · subst hxy
          rw [if_neg (lt_irrefl x), if_neg (lt_irrefl x)] at hab
          rcases lt_trichotomy x z with hxz | hxz | hxz
          · rw [if_pos hxz]
          · subst hxz
            rw [if_neg (lt_irrefl x), if_neg (lt_irrefl x)] at hbc
            rw [if_neg (lt_irrefl x), if_neg (lt_irrefl x)]
            exact ih ys zs hab hbc
          · rw [if_neg (lt_asymm hxz), if_pos hxz] at hbc
            simp at hbc
        · rw [if_neg (lt_asymm hxy), if_pos hxy] at hab
          simp at hab

theorem pyStrLt_irrefl (a : String) : pyStrLt a a = false :=
  charListLtb_irrefl a.data

theorem pyStrLt_trans (a b c : String) (hab : pyStrLt a b = true)
    (hbc : pyStrLt b c = true) : pyStrLt a c = true :=
  charListLtb_trans a.data b.data c.data hab hbc

theorem pairwise_insertByEntityId (c : MoveClaim) (l : List MoveClaim)
    (h : l.Pairwise (fun a b => pyStrLt b.entity_id a.entity_id = false)) :
    (insertByEntityId c l).Pairwise (fun a b => pyStrLt b.entity_id a.entity_id = false) := by
  induction l with
  | nil => simp [insertByEntityId]
  | cons d rest ih =>
    rcases List.pairwise_cons.1 h with ⟨hd, hrest⟩
    by_cases hlt : pyStrLt c.entity_id d.entity_id = true
    · rw [insertByEntityId, if_pos hlt]
      refine List.pairwise_cons.2 ⟨?_, h⟩
      intro x hx
      rcases List.mem_cons.1 hx with rfl | hx
      · by_contra hdc
        rw [Bool.not_eq_false] at hdc
        have := pyStrLt_trans _ _ _ hdc hlt
        rw [pyStrLt_irrefl] at this
        cases this
      · by_contra hxc
        rw [Bool.not_eq_false] at hxc
        have h1 := pyStrLt_trans _ _ _ hxc hlt
        rw [hd x hx] at h1
        cases h1
    · rw [insertByEntityId, if_neg hlt]
      refine List.pairwise_cons.2 ⟨?_, ih hrest⟩
      intro x hx
      rcases (mem_insertByEntityId c x rest).1 hx with rfl | hx
      · simpa using hlt
      · exact hd x hx

theorem pairwise_sortByEntityId (l : List MoveClaim) :
    (sortByEntityId l).Pairwise (fun a b => pyStrLt b.entity_id a.entity_id = false) := by
  suffices h : ∀ acc, acc.Pairwise (fun a b => pyStrLt b.entity_id a.entity_id = false) →
      (l.foldl (fun acc c => insertByEntityId c acc) acc).Pairwise
        (fun a b => pyStrLt b.entity_id a.entity_id = false) by
    exact h [] (List.Pairwise.nil)
  induction l with
  | nil => intro acc hacc; exact hacc
  | cons c rest ih =>
    intro acc hacc
    exact ih _ (pairwise_insertByEntityId c acc hacc)

theorem sortByEntityId_head_min (l : List MoveClaim) (w : MoveClaim) (rest : List MoveClaim)
    (h : sortByEntityId l = w :: rest) :
    ∀ c ∈ l, pyStrLt c.entity_id w.entity_id = false := by
  intro c hc
  have hmem : c ∈ sortByEntityId l := (mem_sortByEntityId l c).2 hc
  rw [h] at hmem
  rcases List.mem_cons.1 hmem with rfl | hmem
  · exact pyStrLt_irrefl _
  · have hp := pairwise_sortByEntityId l
    rw [h] at hp
    exact (List.pairwise_cons.1 hp).1 c hmem

theorem claimantsOf_mem (claims : List MoveClaim) (dest : Pos) (c : MoveClaim) :
    c ∈ claimantsOf claims dest ↔ c ∈ claims ∧ c.to_pos = dest := by
  simp [claimantsOf]

theorem foldl_appendAt_get (cs : List MoveClaim) (m : List (Pos × List MoveClaim)) (dest : Pos) :
    dictGet (cs.foldl (fun acc c => dictAppendAt acc c.to_pos c) m) dest
      = match dictGet m dest with
        | some l => some (l ++ claimantsOf cs dest)
        | none => if claimantsOf cs dest = [] then none else some (claimantsOf cs dest) := by
  induction cs generalizing m with
  | nil =>
    cases h : dictGet m dest <;> simp [claimantsOf, h]
  | cons c rest ih =>
    simp only [List.foldl_cons]
    rw [ih]
    by_cases hc : c.to_pos = dest
    · rw [← hc]
      rw [dictGet_dictAppendAt_self]
      have hcl : claimantsOf (c :: rest) c.to_pos = c :: claimantsOf rest c.to_pos := by
        simp [claimantsOf]
      rw [hcl]
      cases h : dictGet m c.to_pos with
      | some l => simp [h]
      | none => simp [h]
    · rw [dictGet_dictAppendAt_ne _ _ _ _ hc]
      have hcl : claimantsOf (c :: rest) dest = claimantsOf rest dest := by
        simp [claimantsOf, hc]
      rw [hcl]

theorem buildDestMap_get (claims : List MoveClaim) (dest : Pos) :
    dictGet (buildDestMap claims) dest
      = if claimantsOf claims dest = [] then none else some (claimantsOf claims dest) := by
  have h := foldl_appendAt_get claims [] dest
  simpa [buildDestMap, dictGet] using h

theorem dictGet_split {K V : Type} [DecidableEq K] (m : List (K × V)) (k : K) (v : V)
    (h : dictGet m k = some v) (hnd : (m.map Prod.fst).Nodup) :
    ∃ pre post, m = pre ++ (k, v) :: post
      ∧ (∀ p ∈ pre, p.1 ≠ k) ∧ (∀ p ∈ post, p.1 ≠ k) := by
  induction m with
  | nil => simp [dictGet] at h
  | cons e rest ih =>
    obtain ⟨k', v'⟩ := e
    by_cases hk : k' = k
    · subst hk
      have hv : v' = v := by simpa [dictGet] using h
      subst hv
      refine ⟨[], rest, rfl, by simp, ?_⟩
      intro p hp hpk
      have := (List.nodup_cons.1 hnd).1
      exact this (by
        rw [← hpk]
        exact List.mem_map.2 ⟨p, hp, rfl⟩)
    · simp only [dictGet, if_neg hk] at h
      obtain ⟨pre, post, heq, hpre, hpost⟩ := ih h (List.nodup_cons.1 hnd).2
      exact ⟨(k', v') :: pre, post, by rw [heq]; rfl, by
        intro p hp
        rcases List.mem_cons.1 hp with rfl | hp
        · exact hk
        · exact hpre p hp, hpost⟩

theorem dictGet_of_mem_nodup {K V : Type} [DecidableEq K] (m : List (K × V)) (k : K) (v : V)
    (hmem : (k, v) ∈ m) (hnd : (m.map Prod.fst).Nodup) :
    dictGet m k = some v := by
  induction m with
  | nil => cases hmem
  | cons e rest ih =>
    obtain ⟨k', v'⟩ := e
    rcases List.mem_cons.1 hmem with heq | hmem'
    · cases heq
      simp [dictGet]
    · have hk : k' ≠ k := by
        intro hk
        subst hk
        exact (List.nodup_cons.1 hnd).1 (List.mem_map.2 ⟨(k', v), hmem', rfl⟩)
      simp only [dictGet, if_neg hk]
      exact ih hmem' (List.nodup_cons.1 hnd).2

theorem keys_mem_dictAppendAt {K V : Type} [DecidableEq K] (m : List (K × List V)) (k x : K)
    (v : V) : x ∈ (dictAppendAt m k v).map Prod.fst ↔ x ∈ m.map Prod.fst ∨ x = k := by
  induction m with
  | nil => simp [dictAppendAt]
  | cons e rest ih =>
    obtain ⟨k', l⟩ := e
    by_cases hk : k' = k
    · subst hk
      have e1 : dictAppendAt ((k', l) :: rest) k' v = (k', l ++ [v]) :: rest := by
        simp [dictAppendAt]
      rw [e1]
      simp only [List.map_cons, List.mem_cons]
      tauto
    · simp only [dictAppendAt, if_neg hk, List.map_cons, List.mem_cons, ih]
      tauto

theorem keys_nodup_dictAppendAt {K V : Type} [DecidableEq K] (m : List (K × List V)) (k : K)
    (v : V) (hnd : (m.map Prod.fst).Nodup) :
    ((dictAppendAt m k v).map Prod.fst).Nodup := by
  induction m with
  | nil => simp [dictAppendAt]
  | cons e rest ih =>
    obtain ⟨k', l⟩ := e
    obtain ⟨hhead, htail⟩ := List.nodup_cons.1 hnd
    by_cases hk : k' = k
    · subst hk
      simpa [dictAppendAt] using hnd
    · simp only [dictAppendAt, if_neg hk, List.map_cons]
      refine List.nodup_cons.2 ⟨?_, ih htail⟩
      intro hmem
      rcases (keys_mem_dictAppendAt rest k k' v).1 hmem with h | h
      · exact hhead h
      · exact hk h

theorem keys_mem_dictSet {K V : Type} [DecidableEq K] (m : List (K × V)) (k x : K) (v : V) :
    x ∈ (dictSet m k v).map Prod.fst ↔ x ∈ m.map Prod.fst ∨ x = k := by
  induction m with
  | nil => simp [dictSet]
  | cons e rest ih =>
    obtain ⟨k', v'⟩ := e
    by_cases hk : k' = k
    · subst hk
      have e1 : dictSet ((k', v') :: rest) k' v = (k', v) :: rest := by simp [dictSet]
      rw [e1]
      simp only [List.map_cons, List.mem_cons]
      tauto
    · simp only [dictSet, if_neg hk, List.map_cons, List.mem_cons, ih]
      tauto

theorem keys_nodup_dictSet {K V : Type} [DecidableEq K] (m : List (K × V)) (k : K) (v : V)
    (hnd : (m.map Prod.fst).Nodup) : ((dictSet m k v).map Prod.fst).Nodup := by
  induction m with
  | nil => simp [dictSet]
  | cons e rest ih =>
    obtain ⟨k', v'⟩ := e
    obtain ⟨hhead, htail⟩ := List.nodup_cons.1 hnd
    by_cases hk : k' = k
    · subst hk
      simpa [dictSet] using hnd
    · simp only [dictSet, if_neg hk, List.map_cons]
      refine List.nodup_cons.2 ⟨?_, ih htail⟩
      intro hmem
      rcases (keys_mem_dictSet rest k k' v).1 hmem with h | h
      · exact hhead h
      · exact hk h

theorem buildDestMap_keys_nodup (claims : List MoveClaim) :
    ((buildDestMap claims).map Prod.fst).Nodup := by
  suffices h : ∀ m : List (Pos × List MoveClaim), (m.map Prod.fst).Nodup →
      ((claims.foldl (fun acc c => dictAppendAt acc c.to_pos c) m).map Prod.fst).Nodup by
    exact h [] (by simp)
  induction claims with
  | nil => intro m hm; exact hm
  | cons c rest ih =>
    intro m hm
    exact ih _ (keys_nodup_dictAppendAt m c.to_pos c hm)

theorem phase3Dest_append (l1 l2 : List (Pos × List MoveClaim)) (w : List (Pos × String))
    (f : List (String × String)) :
    phase3Dest (l1 ++ l2) w f = phase3Dest l2 (phase3Dest l1 w f).1 (phase3Dest l1 w f).2 := by
  induction l1 generalizing w f with
  | nil => simp [phase3Dest]
  | cons e rest ih =>
    obtain ⟨dest, destClaims⟩ := e
    simp only [List.cons_append, phase3Dest]
    cases hv : destClaims.filter (fun c => ¬ dictHas f c.entity_id) with
    | nil => exact ih w f
    | cons c0 ctail =>
      cases ctail with
      | nil => exact ih _ f
      | cons c1 ctail2 =>
        cases hs : sortByEntityId (c0 :: c1 :: ctail2) with
        | nil => exact ih w f
        | cons winner losers => exact ih _ _

theorem phase3Dest_failed_frame (entries : List (Pos × List MoveClaim))
    (w : List (Pos × String)) (f : List (String × String)) (k : String)
    (hk : ∀ e ∈ entries, ∀ c ∈ e.2, c.entity_id ≠ k) :
    dictGet (phase3Dest entries w f).2 k = dictGet f k := by
  induction entries generalizing w f with
  | nil => rfl
  | cons e rest ih =>
    obtain ⟨dest, destClaims⟩ := e
    have hke : ∀ c ∈ destClaims, c.entity_id ≠ k :=
      fun c hc => hk (dest, destClaims) (List.mem_cons_self _ _) c hc
    have hkr : ∀ e ∈ rest, ∀ c ∈ e.2, c.entity_id ≠ k :=
      fun e he c hc => hk e (List.mem_cons_of_mem _ he) c hc
    simp only [phase3Dest]
    cases hv : destClaims.filter (fun c => ¬ dictHas f c.entity_id) with
    | nil => exact ih w f hkr
    | cons c0 ctail =>
      cases ctail with
      | nil => exact ih _ f hkr
      | cons c1 ctail2 =>
        cases hs : sortByEntityId (c0 :: c1 :: ctail2) with
        | nil => exact ih w f hkr
        | cons winner losers =>
          rw [ih _ _ hkr]
          apply dictGet_markFold_frame
          intro l hl
          apply hke
          have : l ∈ sortByEntityId (c0 :: c1 :: ctail2) := by
            rw [hs]
            exact List.mem_cons_of_mem _ hl
          have hlv := (mem_sortByEntityId _ _).1 this
          rw [← hv] at hlv
          exact List.mem_of_mem_filter hlv

theorem phase3Dest_failed_preserve (entries : List (Pos × List MoveClaim))
    (w : List (Pos × String)) (f : List (String × String)) (k : String) (r : String)
    (hr : dictGet f k = some r) :
    dictGet (phase3Dest entries w f).2 k = some r := by
  induction entries generalizing w f with
  | nil => exact hr
  | cons e rest ih =>
    obtain ⟨dest, destClaims⟩ := e
    simp only [phase3Dest]
    cases hv : destClaims.filter (fun c => ¬ dictHas f c.entity_id) with
    | nil => exact ih w f hr
    | cons c0 ctail =>
      cases ctail with
      | nil => exact ih _ f hr
      | cons c1 ctail2 =>
        cases hs : sortByEntityId (c0 :: c1 :: ctail2) with
        | nil => exact ih w f hr
        | cons winner losers =>
          apply ih
          rw [dictGet_markFold_frame]
          · exact hr
          · intro l hl hlk
            have : l ∈ sortByEntityId (c0 :: c1 :: ctail2) := by
              rw [hs]
              exact List.mem_cons_of_mem _ hl
            have hlv := (mem_sortByEntityId _ _).1 this
            rw [← hv] at hlv
            have := List.of_mem_filter hlv
            rw [hlk] at this
            simp [dictHas, hr] at this

theorem phase3Dest_winners_frame (entries : List (Pos × List MoveClaim))
    (w : List (Pos × String)) (f : List (String × String)) (dest : Pos)
    (hd : ∀ e ∈ entries, e.1 ≠ dest) :
    dictGet (phase3Dest entries w f).1 dest = dictGet w dest := by
  induction entries generalizing w f with
  | nil => rfl
  | cons e rest ih =>
    obtain ⟨d0, destClaims⟩ := e
    have hd0 : d0 ≠ dest := hd (d0, destClaims) (List.mem_cons_self _ _)
    have hdr : ∀ e ∈ rest, e.1 ≠ dest := fun e he => hd e (List.mem_cons_of_mem _ he)
    simp only [phase3Dest]
    cases hv : destClaims.filter (fun c => ¬ dictHas f c.entity_id) with
    | nil => exact ih w f hdr
    | cons c0 ctail =>
      cases ctail with
      | nil =>
        rw [ih _ f hdr]
        exact dictGet_dictSet_ne _ _ _ _ hd0
      | cons c1 ctail2 =>
        cases hs : sortByEntityId (c0 :: c1 :: ctail2) with
        | nil => exact ih w f hdr
        | cons winner losers =>
          rw [ih _ _ hdr]
          exact dictGet_dictSet_ne _ _ _ _ hd0

theorem perm_insertByEntityId (c : MoveClaim) (l : List MoveClaim) :
    (insertByEntityId c l).Perm (c :: l) := by
  induction l with
  | nil => simp [insertByEntityId]
  | cons d rest ih =>
    by_cases h : pyStrLt c.entity_id d.entity_id = true
    · rw [insertByEntityId, if_pos h]
    · rw [insertByEntityId, if_neg h]
      exact List.Perm.trans (List.Perm.cons d ih) (List.Perm.swap c d rest)

theorem perm_sortByEntityId (l : List MoveClaim) : (sortByEntityId l).Perm l := by
  suffices h : ∀ acc : List MoveClaim,
      (l.foldl (fun acc c => insertByEntityId c acc) acc).Perm (acc ++ l) by
    simpa [sortByEntityId] using h []
  induction l with
  | nil => simp
  | cons c rest ih =>
    intro acc
    simp only [List.foldl_cons]
    exact List.Perm.trans (ih _)
      (List.Perm.trans ((perm_insertByEntityId c acc).append_right rest)
        List.perm_middle.symm)

theorem nodup_sortByEntityId (l : List MoveClaim) (h : l.Nodup) :
    (sortByEntityId l).Nodup :=
  (perm_sortByEntityId l).nodup_iff.2 h

theorem buildDestMap_entry (claims : List MoveClaim) (e : Pos × List MoveClaim)
    (he : e ∈ buildDestMap claims) :
    e.2 = claimantsOf claims e.1 ∧ e.2 ≠ [] := by
  have hget : dictGet (buildDestMap claims) e.1 = some e.2 := by
    obtain ⟨d, cs⟩ := e
    exact dictGet_of_mem_nodup _ _ _ he (buildDestMap_keys_nodup claims)
  rw [buildDestMap_get] at hget
  by_cases hne : claimantsOf claims e.1 = []
  · rw [if_pos hne] at hget
    cases hget
  · rw [if_neg hne] at hget
    have heq2 := Option.some.inj hget
    exact ⟨heq2.symm, by rw [← heq2]; exact hne⟩

theorem wfClaims_id_inj (claims : List MoveClaim) (hwf : wfClaims claims) :
    ∀ c1 ∈ claims, ∀ c2 ∈ claims, c1.entity_id = c2.entity_id → c1 = c2 := by
  intro c1 h1 c2 h2 heq
  exact List.inj_on_of_nodup_map hwf.1 h1 h2 heq

theorem phase3_at_dest (claims : List MoveClaim) (dest : Pos)
    (hwf : wfClaims claims) (hne : claimantsOf claims dest ≠ []) :
    (validClaimantsOf claims dest = [] →
      dictGet (phase3Result claims).1 dest = none)
    ∧ (∀ c, validClaimantsOf claims dest = [c] →
        dictGet (phase3Result claims).1 dest = some c.entity_id)
    ∧ (∀ w losers, sortByEntityId (validClaimantsOf claims dest) = w :: losers →
        1 < (validClaimantsOf claims dest).length →
        dictGet (phase3Result claims).1 dest = some w.entity_id
        ∧ ∀ l ∈ losers, dictGet (phase3Result claims).2 l.entity_id
            = some "same_destination_conflict") := by
  have hget : dictGet (buildDestMap claims) dest = some (claimantsOf claims dest) := by
    rw [buildDestMap_get, if_neg hne]
  obtain ⟨pre, post, heq, hpre, hpost⟩ :=
    dictGet_split _ _ _ hget (buildDestMap_keys_nodup claims)
  have hentry : ∀ e ∈ buildDestMap claims, e.2 = claimantsOf claims e.1 ∧ e.2 ≠ [] :=
    buildDestMap_entry claims
  have hids : ∀ e ∈ pre, ∀ c ∈ e.2, ∀ c' ∈ claimantsOf claims dest,
      c.entity_id ≠ c'.entity_id := by
    intro e hepre c hc c' hc' hid
    have hein : e ∈ buildDestMap claims := by
      rw [heq]
      exact List.mem_append_left _ hepre
    have he2 := (hentry e hein).1
    rw [he2] at hc
    have hcc := (claimantsOf_mem claims e.1 c).1 hc
    have hcc' := (claimantsOf_mem claims dest c').1 hc'
    have : c = c' := wfClaims_id_inj claims hwf c hcc.1 c' hcc'.1 hid
    subst this
    exact hpre e hepre (by rw [hcc.2] at hcc'; exact hcc'.2)
  have hfpre : ∀ c ∈ claimantsOf claims dest,
      dictGet (phase3Dest pre [] (preDestFailed claims)).2 c.entity_id
        = dictGet (preDestFailed claims) c.entity_id := by
    intro c hc
    exact phase3Dest_failed_frame pre [] (preDestFailed claims) c.entity_id
      (fun e he c'' hc'' => hids e he c'' hc'' c hc)
  have hwpre : dictGet (phase3Dest pre [] (preDestFailed claims)).1 dest = none := by
    rw [phase3Dest_winners_frame pre [] (preDestFailed claims) dest hpre]
    rfl
  have hsplit : phase3Result claims
      = phase3Dest ((dest, claimantsOf claims dest) :: post)
          (phase3Dest pre [] (preDestFailed claims)).1
          (phase3Dest pre [] (preDestFailed claims)).2 := by
    show phase3Dest (buildDestMap claims) [] (preDestFailed claims) = _
    rw [heq, phase3Dest_append]
  have hvalid : (claimantsOf claims dest).filter
      (fun c => ¬ dictHas (phase3Dest pre [] (preDestFailed claims)).2 c.entity_id)
      = validClaimantsOf claims dest := by
    apply List.filter_congr
    intro c hc
    simp [dictHas, hfpre c hc]
  refine ⟨?_, ?_, ?_⟩
  · intro hv
    rw [hsplit]
    simp only [phase3Dest]
    rw [hvalid, hv]
    exact Eq.trans (phase3Dest_winners_frame post _ _ dest hpost) hwpre
  · intro c hv
    rw [hsplit]
    simp only [phase3Dest]
    rw [hvalid, hv]
    rw [phase3Dest_winners_frame post _ _ dest hpost]
    exact dictGet_dictSet_self _ _ _
  · intro w losers hs hlen
    rw [hsplit]
    simp only [phase3Dest]
    rw [hvalid]
    cases hv : validClaimantsOf claims dest with
    | nil => rw [hv] at hlen; simp at hlen
    | cons c0 ctail =>
      cases ctail with
      | nil => rw [hv] at hlen; simp at hlen
      | cons c1 ctail2 =>
        rw [hv] at hs
        rw [hs]
        constructor
        · rw [phase3Dest_winners_frame post _ _ dest hpost]
          exact dictGet_dictSet_self _ _ _
        · intro l hl
          apply phase3Dest_failed_preserve
          exact dictGet_markFold_of_mem losers _ _ l hl

theorem phase3Dest_winner_invariant (entries : List (Pos × List MoveClaim)) :
    ∀ (w : List (Pos × String)) (f : List (String × String)),
    (entries.map Prod.fst).Nodup →
    (∀ e ∈ entries, ∀ c ∈ e.2, c.to_pos = e.1) →
    (∀ e ∈ entries, e.2.Nodup) →
    (∀ e1 ∈ entries, ∀ e2 ∈ entries, ∀ c1 ∈ e1.2, ∀ c2 ∈ e2.2,
        c1.entity_id = c2.entity_id → c1 = c2) →
    (∀ d wid, dictGet w d = some wid → dictGet f wid = none ∧
        (∀ e ∈ entries, ∀ c ∈ e.2, c.entity_id ≠ wid)) →
    ∀ d wid, dictGet (phase3Dest entries w f).1 d = some wid →
      dictGet (phase3Dest entries w f).2 wid = none := by
  induction entries with
  | nil =>
    intro w f _ _ _ _ hinv d wid hw
    exact (hinv d wid hw).1
  | cons e rest ih =>
    obtain ⟨d0, cs0⟩ := e
    intro w f hkeys hto hnd hinj hinv
    have hkeys' : (rest.map Prod.fst).Nodup := (List.nodup_cons.1 hkeys).2
    have hd0notin : d0 ∉ rest.map Prod.fst := (List.nodup_cons.1 hkeys).1
    have hto' : ∀ e ∈ rest, ∀ c ∈ e.2, c.to_pos = e.1 :=
      fun e he => hto e (List.mem_cons_of_mem _ he)
    have hnd' : ∀ e ∈ rest, e.2.Nodup := fun e he => hnd e (List.mem_cons_of_mem _ he)
    have hinj' : ∀ e1 ∈ rest, ∀ e2 ∈ rest, ∀ c1 ∈ e1.2, ∀ c2 ∈ e2.2,
        c1.entity_id = c2.entity_id → c1 = c2 :=
      fun e1 h1 e2 h2 => hinj e1 (List.mem_cons_of_mem _ h1) e2 (List.mem_cons_of_mem _ h2)
    have hcs0nd : cs0.Nodup := hnd (d0, cs0) (List.mem_cons_self _ _)
    -- disjointness of a head-entry claim id from all claims of rest entries
    have hdisj : ∀ c ∈ cs0, ∀ e ∈ rest, ∀ c' ∈ e.2, c'.entity_id ≠ c.entity_id := by
      intro c hc e he c' hc' hid
      have : c' = c := hinj e (List.mem_cons_of_mem _ he) (d0, cs0) (List.mem_cons_self _ _)
        c' hc' c hc hid
      subst this
      have h1 : c'.to_pos = e.1 := hto e (List.mem_cons_of_mem _ he) c' hc'
      have h2 : c'.to_pos = d0 := hto (d0, cs0) (List.mem_cons_self _ _) c' hc
      apply hd0notin
      rw [← h2, h1]
      exact List.mem_map.2 ⟨e, he, rfl⟩
    simp only [phase3Dest]
    cases hv : cs0.filter (fun c => ¬ dictHas f c.entity_id) with
    | nil =>
      apply ih w f hkeys' hto' hnd' hinj'
      intro d wid hw
      exact ⟨(hinv d wid hw).1, fun e he => (hinv d wid hw).2 e (List.mem_cons_of_mem _ he)⟩
    | cons c0 ctail =>
      have hvalid_sub : ∀ x ∈ c0 :: ctail, x ∈ cs0 := by
        intro x hx
        rw [← hv] at hx
        exact List.mem_of_mem_filter hx
      have hvalid_unfailed : ∀ x ∈ c0 :: ctail, dictGet f x.entity_id = none := by
        intro x hx
        rw [← hv] at hx
        have := List.of_mem_filter hx
        simp only [dictHas, decide_not, Bool.not_eq_true'] at this
        exact Option.not_isSome_iff_eq_none.1 (of_decide_eq_false this)
      cases ctail with
      | nil =>
        apply ih _ f hkeys' hto' hnd' hinj'
        intro d wid hw
        by_cases hd : d0 = d
        · subst hd
          rw [dictGet_dictSet_self] at hw
          have hwid := Option.some.inj hw
          subst hwid
          refine ⟨hvalid_unfailed c0 (List.mem_cons_self _ _), ?_⟩
          intro e he c' hc'
          exact hdisj c0 (hvalid_sub c0 (List.mem_cons_self _ _)) e he c' hc'
        · rw [dictGet_dictSet_ne _ _ _ _ hd] at hw
          exact ⟨(hinv d wid hw).1, fun e he => (hinv d wid hw).2 e (List.mem_cons_of_mem _ he)⟩
      | cons c1 ctail2 =>
        cases hs : sortByEntityId (c0 :: c1 :: ctail2) with
        | nil =>
          have : c0 ∈ sortByEntityId (c0 :: c1 :: ctail2) :=
            (mem_sortByEntityId _ _).2 (List.mem_cons_self _ _)
          rw [hs] at this
          cases this
        | cons winner losers =>
          have hsortmem : ∀ x ∈ winner :: losers, x ∈ c0 :: c1 :: ctail2 := by
            intro x hx
            rw [← hs] at hx
            exact (mem_sortByEntityId _ _).1 hx
          have hwinner_mem : winner ∈ cs0 :=
            hvalid_sub winner (hsortmem winner (List.mem_cons_self _ _))
          have hsortnd : (winner :: losers).Nodup := by
            rw [← hs]
            apply nodup_sortByEntityId
            have : (c0 :: c1 :: ctail2) = cs0.filter (fun c => ¬ dictHas f c.entity_id) :=
              hv.symm
            rw [this]
            exact List.Nodup.filter _ hcs0nd
          have hwln : ∀ l ∈ losers, l.entity_id ≠ winner.entity_id := by
            intro l hl hid
            have hleq : l = winner := hinj (d0, cs0) (List.mem_cons_self _ _) (d0, cs0)
              (List.mem_cons_self _ _) l
              (hvalid_sub l (hsortmem l (List.mem_cons_of_mem _ hl))) winner hwinner_mem hid
            subst hleq
            exact (List.nodup_cons.1 hsortnd).1 hl
          apply ih _ _ hkeys' hto' hnd' hinj'
          intro d wid hw
          by_cases hd : d0 = d
          · subst hd
            rw [dictGet_dictSet_self] at hw
            have hwid := Option.some.inj hw
            subst hwid
            constructor
            · rw [dictGet_markFold_frame losers _ f _ hwln]
              exact hvalid_unfailed winner (hsortmem winner (List.mem_cons_self _ _))
            · intro e he c' hc'
              exact hdisj winner hwinner_mem e he c' hc'
          · rw [dictGet_dictSet_ne _ _ _ _ hd] at hw
            obtain ⟨hfn, hdisj'⟩ := hinv d wid hw
            constructor
            · rw [dictGet_markFold_frame]
              · exact hfn
              · intro l hl
                exact hdisj' (d0, cs0) (List.mem_cons_self _ _) l
                  (hvalid_sub l (hsortmem l (List.mem_cons_of_mem _ hl)))
            · intro e he c' hc'
              exact hdisj' e (List.mem_cons_of_mem _ he) c' hc'

theorem phase3_winner_unfailed (claims : List MoveClaim) (hwf : wfClaims claims) :
    ∀ d wid, dictGet (phase3Result claims).1 d = some wid →
      dictGet (phase3Result claims).2 wid = none := by
  have hclaims_nd : claims.Nodup := List.Nodup.of_map _ hwf.1
  apply phase3Dest_winner_invariant
  · exact buildDestMap_keys_nodup claims
  · intro e he c hc
    have := (buildDestMap_entry claims e he).1
    rw [this] at hc
    exact ((claimantsOf_mem claims e.1 c).1 hc).2
  · intro e he
    rw [(buildDestMap_entry claims e he).1]
    exact List.Nodup.filter _ hclaims_nd
  · intro e1 h1 e2 h2 c1 hc1 c2 hc2 hid
    rw [(buildDestMap_entry claims e1 h1).1] at hc1
    rw [(buildDestMap_entry claims e2 h2).1] at hc2
    exact wfClaims_id_inj claims hwf c1 ((claimantsOf_mem _ _ _).1 hc1).1 c2
      ((claimantsOf_mem _ _ _).1 hc2).1 hid
  · intro d wid hw
    cases hw

theorem phase3Dest_winners_keys_nodup (entries : List (Pos × List MoveClaim)) :
    ∀ (w : List (Pos × String)) (f : List (String × String)),
    ((w.map Prod.fst).Nodup) → (((phase3Dest entries w f).1.map Prod.fst).Nodup) := by
  induction entries with
  | nil => intro w f h; exact h
  | cons e rest ih =>
    obtain ⟨d0, cs0⟩ := e
    intro w f h
    simp only [phase3Dest]
    cases hv : cs0.filter (fun c => ¬ dictHas f c.entity_id) with
    | nil => exact ih w f h
    | cons c0 ctail =>
      cases ctail with
      | nil => exact ih _ f (keys_nodup_dictSet w d0 _ h)
      | cons c1 ctail2 =>
        cases hs : sortByEntityId (c0 :: c1 :: ctail2) with
        | nil => exact ih w f h
        | cons winner losers => exact ih _ _ (keys_nodup_dictSet w d0 _ h)

theorem phase4_failed_frame (w : World) (e2c : List (String × MoveClaim))
    (snap : List (Pos × String)) :
    ∀ (winners : List (Pos × String)) (failed : List (String × String)) (k : String),
    (∀ p ∈ snap, p.2 ≠ k) →
    dictGet (phase4Occupied w e2c snap winners failed).2 k = dictGet failed k := by
  induction snap with
  | nil => intro winners failed k _; rfl
  | cons p rest ih =>
    obtain ⟨dest, wid⟩ := p
    intro winners failed k hk
    have hwk : wid ≠ k := hk (dest, wid) (List.mem_cons_self _ _)
    have hk' : ∀ p ∈ rest, p.2 ≠ k := fun p hp => hk p (List.mem_cons_of_mem _ hp)
    cases ho : w.get_entity_at dest with
    | none =>
      simp only [phase4Occupied, ho]
      exact ih winners failed k hk'
    | some occ =>
      simp only [phase4Occupied, ho]
      by_cases hmov : dictHas e2c occ.entity_id = true
      · rw [if_neg (not_not_intro hmov)]
        exact ih winners failed k hk'
      · rw [if_pos hmov]
        rw [ih _ _ k hk']
        exact dictGet_dictSet_ne _ _ _ _ hwk

theorem phase4_preserve_occupied (w : World) (e2c : List (String × MoveClaim))
    (snap : List (Pos × String)) :
    ∀ (winners : List (Pos × String)) (failed : List (String × String)) (k : String),
    dictGet failed k = some "destination_occupied" →
    dictGet (phase4Occupied w e2c snap winners failed).2 k = some "destination_occupied" := by
  induction snap with
  | nil => intro winners failed k h; exact h
  | cons p rest ih =>
    obtain ⟨dest, wid⟩ := p
    intro winners failed k h
    cases ho : w.get_entity_at dest with
    | none =>
      simp only [phase4Occupied, ho]
      exact ih winners failed k h
    | some occ =>
      simp only [phase4Occupied, ho]
      by_cases hmov : dictHas e2c occ.entity_id = true
      · rw [if_neg (not_not_intro hmov)]
        exact ih winners failed k h
      · rw [if_pos hmov]
        apply ih
        by_cases hwk : wid = k
        · subst hwk
          exact dictGet_dictSet_self _ _ _
        · rw [dictGet_dictSet_ne _ _ _ _ hwk]
          exact h

theorem phase4_marks (w : World) (e2c : List (String × MoveClaim))
    (snap : List (Pos × String)) :
    ∀ (winners : List (Pos × String)) (failed : List (String × String)) (dest : Pos)
      (wid : String) (occ : Entity),
    (dest, wid) ∈ snap →
    w.get_entity_at dest = some occ →
    dictHas e2c occ.entity_id = false →
    dictGet (phase4Occupied w e2c snap winners failed).2 wid = some "destination_occupied" := by
  induction snap with
  | nil => intro _ _ _ _ _ hmem; cases hmem
  | cons p rest ih =>
    obtain ⟨d0, w0⟩ := p
    intro winners failed dest wid occ hmem hocc hnm
    rcases List.mem_cons.1 hmem with heq | hmem'
    · cases heq
      simp only [phase4Occupied, hocc]
      rw [if_pos (by simp [hnm] : ¬ dictHas e2c occ.entity_id = true)]
      apply phase4_preserve_occupied
      exact dictGet_dictSet_self _ _ _
    · cases ho : w.get_entity_at d0 with
      | none =>
        simp only [phase4Occupied, ho]
        exact ih winners failed dest wid occ hmem' hocc hnm
      | some occ0 =>
        simp only [phase4Occupied, ho]
        by_cases hmov : dictHas e2c occ0.entity_id = true
        · rw [if_neg (not_not_intro hmov)]
          exact ih winners failed dest wid occ hmem' hocc hnm
        · rw [if_pos hmov]
          exact ih _ _ dest wid occ hmem' hocc hnm

theorem resolve_conflicts_eq_map (w : World) (claims : List MoveClaim) :
    resolve_conflicts w claims = claims.map (fun c =>
      match dictGet (resolveFailed w claims) c.entity_id with
      | some reason => MoveResult.mk c.entity_id false c.from_pos c.from_pos (some reason)
      | none => MoveResult.mk c.entity_id true c.from_pos c.to_pos none) := by
  cases claims with
  | nil => rfl
  | cons c rest => rfl

theorem update_entity_position_preserves (w : World) (eid : String) (p : Pos) (w' : World)
    (h : w.update_entity_position eid p = Except.ok w') (k : String) (hk : eid ≠ k) :
    dictGet w'.entities k = dictGet w.entities k := by
  cases hg : dictGet w.entities eid with
  | none =>
    simp only [World.update_entity_position, hg] at h
    cases h
  | some e =>
    simp only [World.update_entity_position, hg] at h
    by_cases hh : dictHas w.entity_positions e.position = true
    · rw [if_pos hh] at h
      have hw := Except.ok.inj h
      rw [← hw]
      exact dictGet_dictSet_ne _ _ _ _ hk
    · rw [if_neg hh] at h
      cases h

theorem foldl_updates_preserve (moves : List (String × Pos)) :
    ∀ (w w' : World) (k : String),
    (moves.foldlM (fun wacc m => wacc.update_entity_position m.1 m.2) w) = Except.ok w' →
    (∀ m ∈ moves, m.1 ≠ k) →
    dictGet w'.entities k = dictGet w.entities k := by
  induction moves with
  | nil =>
    intro w w' k h _
    cases h
    rfl
  | cons m rest ih =>
    intro w w' k h hk
    obtain ⟨eid, p⟩ := m
    simp only [List.foldlM_cons] at h
    cases hu : w.update_entity_position eid p with
    | error e => rw [hu] at h; cases h
    | ok w1 =>
      rw [hu] at h
      have h1 : rest.foldlM (fun wacc m => wacc.update_entity_position m.1 m.2) w1
          = Except.ok w' := h
      rw [ih w1 w' k h1 (fun m hm => hk m (List.mem_cons_of_mem _ hm))]
      exact update_entity_position_preserves w eid p w1 hu k
        (hk (eid, p) (List.mem_cons_self _ _))

theorem enact_moves_preserves (w : World) (results : List MoveResult) (w' : World)
    (h : enact_moves w results = Except.ok w') (k : String)
    (hk : ∀ r ∈ results, r.success = true → r.entity_id ≠ k) :
    dictGet w'.entities k = dictGet w.entities k := by
  apply foldl_updates_preserve _ w w' k h
  intro m hm
  obtain ⟨r, hr, hrm⟩ := List.mem_map.1 hm
  have hrs : r.success = true := by
    have := List.of_mem_filter hr
    simpa using this
  rw [← hrm]
  exact hk r (List.mem_of_mem_filter hr) hrs

/-- C2: for every destination claimed by more than one not-yet-failed mover,
exactly the claimant with the lexicographically smallest entity_id is the
provisional winner; every other such claimant gets a MoveResult with
success=false, reason `same_destination_conflict`, `from == to ==` its original
position, and its stored entity record is unchanged by enactment.  Concretely,
"alpha" (4,5)→EAST beats "beta" (6,5)→WEST at (5,5). -/
theorem c2_same_destination_lowest_id_wins :
    (∀ (w : World) (claims : List MoveClaim) (dest : Pos) (winner : MoveClaim),
      wfClaims claims →
      winner ∈ validClaimantsOf claims dest →
      (∀ c ∈ validClaimantsOf claims dest, c ≠ winner →
        pyStrLt winner.entity_id c.entity_id = true) →
      1 < (validClaimantsOf claims dest).length →
      dictGet (phase3Result claims).1 dest = some winner.entity_id
      ∧ (∀ c ∈ validClaimantsOf claims dest, c ≠ winner →
          (∀ res ∈ resolve_conflicts w claims, res.entity_id = c.entity_id →
            res = MoveResult.mk c.entity_id false c.from_pos c.from_pos
              (some "same_destination_conflict"))
          ∧ (∀ w' : World, enact_moves w (resolve_conflicts w claims) = Except.ok w' →
              dictGet w'.entities c.entity_id = dictGet w.entities c.entity_id)))
    ∧ (process_movement_phase raceW0 [("alpha", Direction.east), ("beta", Direction.west)]
        = Except.ok ([MoveResult.mk "alpha" true (Pos.mk 4 5) (Pos.mk 5 5) none,
                      MoveResult.mk "beta" false (Pos.mk 6 5) (Pos.mk 6 5)
                        (some "same_destination_conflict")], raceW1)) := by
  constructor
  · intro w claims dest winner hwf hwmem hmin hlen
    have hcin_f : winner ∈ claimantsOf claims dest := List.mem_of_mem_filter hwmem
    have hne : claimantsOf claims dest ≠ [] := by
      intro h
      rw [h] at hcin_f
      cases hcin_f
    obtain ⟨w0, losers, hs⟩ : ∃ w0 losers,
        sortByEntityId (validClaimantsOf claims dest) = w0 :: losers := by
      cases hsv : sortByEntityId (validClaimantsOf claims dest) with
      | nil =>
        have hm : winner ∈ sortByEntityId (validClaimantsOf claims dest) :=
          (mem_sortByEntityId _ _).2 hwmem
        rw [hsv] at hm
        cases hm
      | cons a b => exact ⟨a, b, rfl⟩
    have hw0 : w0 = winner := by
      by_contra hne2
      have hw0mem : w0 ∈ validClaimantsOf claims dest := by
        have : w0 ∈ sortByEntityId (validClaimantsOf claims dest) := by
          rw [hs]
          exact List.mem_cons_self _ _
        exact (mem_sortByEntityId _ _).1 this
      have h1 : pyStrLt winner.entity_id w0.entity_id = true := hmin w0 hw0mem hne2
      have h2 := sortByEntityId_head_min _ w0 losers hs winner hwmem
      rw [h1] at h2
      cases h2
    subst hw0
    obtain ⟨hwin, hlose⟩ := (phase3_at_dest claims dest hwf hne).2.2 w0 losers hs hlen
    refine ⟨hwin, ?_⟩
    intro c hcmem hcne
    have hcl : c ∈ losers := by
      have hm : c ∈ sortByEntityId (validClaimantsOf claims dest) :=
        (mem_sortByEntityId _ _).2 hcmem
      rw [hs] at hm
      rcases List.mem_cons.1 hm with h | h
      · exact absurd h hcne
      · exact h
    have hmark := hlose c hcl
    have hcin : c ∈ claims :=
      ((claimantsOf_mem _ _ _).1 (List.mem_of_mem_filter hcmem)).1
    have hfinal : dictGet (resolveFailed w claims) c.entity_id
        = some "same_destination_conflict" := by
      show dictGet (phase4Occupied w (buildEntityMap claims) (phase3Result claims).1
          (phase3Result claims).1 (phase3Result claims).2).2 c.entity_id = _
      rw [phase4_failed_frame]
      · exact hmark
      · intro p hp hpc
        obtain ⟨d', wid'⟩ := p
        have hkeysw : (((phase3Result claims).1).map Prod.fst).Nodup :=
          phase3Dest_winners_keys_nodup _ [] _ (by simp)
        have hget : dictGet (phase3Result claims).1 d' = some wid' :=
          dictGet_of_mem_nodup _ _ _ hp hkeysw
        have hnone := phase3_winner_unfailed claims hwf d' wid' hget
        have hpc' : wid' = c.entity_id := hpc
        rw [hpc'] at hnone
        rw [hmark] at hnone
        cases hnone
    have hfc : ∀ c' : MoveClaim, ((match dictGet (resolveFailed w claims) c'.entity_id with
        | some reason => MoveResult.mk c'.entity_id false c'.from_pos c'.from_pos (some reason)
        | none => MoveResult.mk c'.entity_id true c'.from_pos c'.to_pos none) :
          MoveResult).entity_id = c'.entity_id := by
      intro c'
      cases dictGet (resolveFailed w claims) c'.entity_id <;> rfl
    constructor
    · intro res hres hresid
      rw [resolve_conflicts_eq_map] at hres
      obtain ⟨c', hc', hceq⟩ := List.mem_map.1 hres
      have hc'id : c'.entity_id = c.entity_id := by
        rw [← hresid, ← hceq]
        exact (hfc c').symm
      have hcc : c' = c := wfClaims_id_inj claims hwf c' hc' c hcin hc'id
      subst hcc
      rw [← hceq, hfinal]
    · intro w' hen
      apply enact_moves_preserves w _ w' hen
      intro r hr hrs
      rw [resolve_conflicts_eq_map] at hr
      obtain ⟨c'', hc'', hceq2⟩ := List.mem_map.1 hr
      cases hdg : dictGet (resolveFailed w claims) c''.entity_id with
      | some r' =>
        rw [hdg] at hceq2
        rw [← hceq2] at hrs
        cases hrs
      | none =>
        intro hrid
        have hc''id : c''.entity_id = c.entity_id := by
          rw [← hrid, ← hceq2]
          exact (hfc c'').symm
        have : c'' = c := wfClaims_id_inj claims hwf c'' hc'' c hcin hc''id
        subst this
        rw [hfinal] at hdg
        cases hdg
  · exact rfl

/-- C2 (witness): the general statement applied to the concrete alpha/beta
race claims. -/
theorem c2_same_destination_lowest_id_wins_witness :
    dictGet (phase3Result
        [MoveClaim.mk "alpha" (Pos.mk 4 5) (Pos.mk 5 5) Direction.east,
         MoveClaim.mk "beta" (Pos.mk 6 5) (Pos.mk 5 5) Direction.west]).1 (Pos.mk 5 5)
      = some "alpha" := by
  have h := c2_same_destination_lowest_id_wins.1 raceW0
    [MoveClaim.mk "alpha" (Pos.mk 4 5) (Pos.mk 5 5) Direction.east,
     MoveClaim.mk "beta" (Pos.mk 6 5) (Pos.mk 5 5) Direction.west]
    (Pos.mk 5 5) (MoveClaim.mk "alpha" (Pos.mk 4 5) (Pos.mk 5 5) Direction.east)
    (by constructor <;> decide)
    (by decide)
    (by decide)
    (by decide)
  exact h.1

theorem dictGet_mem {K V : Type} [DecidableEq K] (m : List (K × V)) (k : K) (v : V)
    (h : dictGet m k = some v) : (k, v) ∈ m := by
  induction m with
  | nil => cases h
  | cons e rest ih =>
    obtain ⟨k', v'⟩ := e
    by_cases hk : k' = k
    · subst hk
      have : v' = v := by simpa [dictGet] using h
      subst this
      exact List.mem_cons_self _ _
    · simp only [dictGet, if_neg hk] at h
      exact List.mem_cons_of_mem _ (ih h)

theorem foldl_dictSet_binding (cs : List MoveClaim) :
    ∀ (m0 : List (String × MoveClaim)) (k : String) (c : MoveClaim),
    dictGet (cs.foldl (fun m c => dictSet m c.entity_id c) m0) k = some c →
    dictGet m0 k = some c ∨ (c ∈ cs ∧ c.entity_id = k) := by
  induction cs with
  | nil =>
    intro m0 k c h
    exact Or.inl h
  | cons d rest ih =>
    intro m0 k c h
    rcases ih _ k c h with h1 | h1
    · by_cases hk : d.entity_id = k
      · subst hk
        rw [dictGet_dictSet_self] at h1
        have : d = c := Option.some.inj h1
        subst this
        exact Or.inr ⟨List.mem_cons_self _ _, rfl⟩
      · rw [dictGet_dictSet_ne _ _ _ _ hk] at h1
        exact Or.inl h1
    · exact Or.inr ⟨List.mem_cons_of_mem _ h1.1, h1.2⟩

theorem buildEntityMap_binding (claims : List MoveClaim) (k : String) (c : MoveClaim)
    (h : dictGet (buildEntityMap claims) k = some c) : c ∈ claims ∧ c.entity_id = k := by
  rcases foldl_dictSet_binding claims [] k c h with h1 | h1
  · cases h1
  · exact h1

theorem foldl_dictSet_has_mono (cs : List MoveClaim) :
    ∀ (m0 : List (String × MoveClaim)) (k : String), dictHas m0 k = true →
    dictHas (cs.foldl (fun m c => dictSet m c.entity_id c) m0) k = true := by
  induction cs with
  | nil => intro m0 k h; exact h
  | cons d rest ih =>
    intro m0 k h
    apply ih
    by_cases hk : d.entity_id = k
    · subst hk
      simp [dictHas, dictGet_dictSet_self]
    · simpa [dictHas, dictGet_dictSet_ne _ _ _ _ hk] using h

theorem buildEntityMap_has (claims : List MoveClaim) (c : MoveClaim) (hc : c ∈ claims) :
    dictHas (buildEntityMap claims) c.entity_id = true := by
  suffices hgen : ∀ (cs : List MoveClaim) (m0 : List (String × MoveClaim)),
      c ∈ cs → dictHas (cs.foldl (fun m c => dictSet m c.entity_id c) m0) c.entity_id = true by
    exact hgen claims [] hc
  intro cs
  induction cs with
  | nil => intro m0 h; cases h
  | cons d rest ih =>
    intro m0 h
    rcases List.mem_cons.1 h with rfl | h
    · simp only [List.foldl_cons]
      apply foldl_dictSet_has_mono
      simp [dictHas, dictGet_dictSet_self]
    · simp only [List.foldl_cons]
      exact ih _ h

theorem dictGet_isSome_dictSet {K V : Type} [DecidableEq K] (m : List (K × V)) (k x : K)
    (v : V) (h : (dictGet m k).isSome = true) : (dictGet (dictSet m x v) k).isSome = true := by
  by_cases hk : x = k
  · subst hk
    simp [dictGet_dictSet_self]
  · rwa [dictGet_dictSet_ne _ _ _ _ hk]

theorem phase4_isSome_mono (w : World) (e2c : List (String × MoveClaim))
    (snap : List (Pos × String)) :
    ∀ (winners : List (Pos × String)) (failed : List (String × String)) (k : String),
    (dictGet failed k).isSome = true →
    (dictGet (phase4Occupied w e2c snap winners failed).2 k).isSome = true := by
  induction snap with
  | nil => intro _ _ _ h; exact h
  | cons p rest ih =>
    obtain ⟨dest, wid⟩ := p
    intro winners failed k h
    cases ho : w.get_entity_at dest with
    | none =>
      simp only [phase4Occupied, ho]
      exact ih winners failed k h
    | some occ =>
      simp only [phase4Occupied, ho]
      by_cases hmov : dictHas e2c occ.entity_id = true
      · rw [if_neg (not_not_intro hmov)]
        exact ih winners failed k h
      · rw [if_pos hmov]
        exact ih _ _ k (dictGet_isSome_dictSet _ _ _ _ h)

theorem resolveFailed_of_phase3_marked (w : World) (claims : List MoveClaim)
    (hwf : wfClaims claims) (k r : String)
    (hr : dictGet (phase3Result claims).2 k = some r) :
    dictGet (resolveFailed w claims) k = some r := by
  show dictGet (phase4Occupied w (buildEntityMap claims) (phase3Result claims).1
      (phase3Result claims).1 (phase3Result claims).2).2 k = _
  rw [phase4_failed_frame]
  · exact hr
  · intro p hp hpc
    obtain ⟨d', wid'⟩ := p
    have hkeysw : (((phase3Result claims).1).map Prod.fst).Nodup :=
      phase3Dest_winners_keys_nodup _ [] _ (by simp)
    have hget : dictGet (phase3Result claims).1 d' = some wid' :=
      dictGet_of_mem_nodup _ _ _ hp hkeysw
    have hnone := phase3_winner_unfailed claims hwf d' wid' hget
    have hpc' : wid' = k := hpc
    rw [hpc'] at hnone
    rw [hr] at hnone
    cases hnone

theorem resolve_result_of_failed (w : World) (claims : List MoveClaim)
    (hwf : wfClaims claims) (c : MoveClaim) (hc : c ∈ claims) (r : String)
    (hr : dictGet (resolveFailed w claims) c.entity_id = some r) :
    ∀ res ∈ resolve_conflicts w claims, res.entity_id = c.entity_id →
      res = MoveResult.mk c.entity_id false c.from_pos c.from_pos (some r) := by
  intro res hres hresid
  have hfc : ∀ c' : MoveClaim, ((match dictGet (resolveFailed w claims) c'.entity_id with
      | some reason => MoveResult.mk c'.entity_id false c'.from_pos c'.from_pos (some reason)
      | none => MoveResult.mk c'.entity_id true c'.from_pos c'.to_pos none) :
        MoveResult).entity_id = c'.entity_id := by
    intro c'
    cases dictGet (resolveFailed w claims) c'.entity_id <;> rfl
  rw [resolve_conflicts_eq_map] at hres
  obtain ⟨c', hc', hceq⟩ := List.mem_map.1 hres
  have hc'id : c'.entity_id = c.entity_id := by
    rw [← hresid, ← hceq]
    exact (hfc c').symm
  have hcc : c' = c := wfClaims_id_inj claims hwf c' hc' c hc hc'id
  subst hcc
  rw [← hceq, hr]

theorem resolveResult_entity_id (w : World) (claims : List MoveClaim) (c' : MoveClaim) :
    ((match dictGet (resolveFailed w claims) c'.entity_id with
      | some reason => MoveResult.mk c'.entity_id false c'.from_pos c'.from_pos (some reason)
      | none => MoveResult.mk c'.entity_id true c'.from_pos c'.to_pos none) :
        MoveResult).entity_id = c'.entity_id := by
  cases dictGet (resolveFailed w claims) c'.entity_id <;> rfl

/-- C5: a provisional winner whose destination holds an entity that submitted
no move claim fails with `destination_occupied` and the destination is
released: no mover reaches it this tick, and rivals already failed with
`same_destination_conflict` keep that failure. -/
theorem c5_destination_occupied_no_revival :
    ∀ (w : World) (claims : List MoveClaim) (dest : Pos) (wid : String) (occ : Entity),
      wfClaims claims →
      dictGet (phase3Result claims).1 dest = some wid →
      w.get_entity_at dest = some occ →
      (∀ c ∈ claims, c.entity_id ≠ occ.entity_id) →
      (∀ res ∈ resolve_conflicts w claims, res.entity_id = wid →
        res.success = false ∧ res.failure_reason = some "destination_occupied")
      ∧ (∀ res ∈ resolve_conflicts w claims, res.success = true → res.to_pos ≠ dest)
      ∧ (∀ c ∈ claims, dictGet (phase3Result claims).2 c.entity_id
            = some "same_destination_conflict" →
          ∀ res ∈ resolve_conflicts w claims, res.entity_id = c.entity_id →
            res = MoveResult.mk c.entity_id false c.from_pos c.from_pos
              (some "same_destination_conflict")) := by
  intro w claims dest wid occ hwf hwin hocc hno
  have hnm : dictHas (buildEntityMap claims) occ.entity_id = false := by
    by_contra hh
    rw [Bool.not_eq_false] at hh
    obtain ⟨c, hcg⟩ := Option.isSome_iff_exists.1 hh
    have hb := buildEntityMap_binding claims _ c hcg
    exact hno c hb.1 hb.2
  have hmem : (dest, wid) ∈ (phase3Result claims).1 := dictGet_mem _ _ _ hwin
  have hmarked : dictGet (resolveFailed w claims) wid = some "destination_occupied" := by
    show dictGet (phase4Occupied w (buildEntityMap claims) (phase3Result claims).1
        (phase3Result claims).1 (phase3Result claims).2).2 wid = _
    exact phase4_marks w _ _ _ _ dest wid occ hmem hocc hnm
  refine ⟨?_, ?_, ?_⟩
  · intro res hres hresid
    rw [resolve_conflicts_eq_map] at hres
    obtain ⟨c', hc', hceq⟩ := List.mem_map.1 hres
    have hid : c'.entity_id = wid := by
      rw [← hresid, ← hceq]
      exact (resolveResult_entity_id w claims c').symm
    constructor
    · rw [← hceq, hid, hmarked]
    · rw [← hceq, hid, hmarked]
  · intro res hres hsucc hto
    rw [resolve_conflicts_eq_map] at hres
    obtain ⟨c', hc', hceq⟩ := List.mem_map.1 hres
    cases hdg : dictGet (resolveFailed w claims) c'.entity_id with
    | some r =>
      rw [hdg] at hceq
      rw [← hceq] at hsucc
      cases hsucc
    | none =>
      rw [hdg] at hceq
      have hto' : c'.to_pos = dest := by
        rw [← hceq] at hto
        exact hto
      have hcl : c' ∈ claimantsOf claims dest := (claimantsOf_mem _ _ _).2 ⟨hc', hto'⟩
      by_cases hpre : dictHas (preDestFailed claims) c'.entity_id = true
      · obtain ⟨r0, hr0⟩ := Option.isSome_iff_exists.1 hpre
        have h3 : dictGet (phase3Result claims).2 c'.entity_id = some r0 :=
          phase3Dest_failed_preserve _ _ _ _ _ hr0
        have h4 : (dictGet (resolveFailed w claims) c'.entity_id).isSome = true := by
          show (dictGet (phase4Occupied w (buildEntityMap claims) (phase3Result claims).1
              (phase3Result claims).1 (phase3Result claims).2).2 c'.entity_id).isSome = true
          apply phase4_isSome_mono
          simp [h3]
        rw [hdg] at h4
        cases h4
      · have hvmem : c' ∈ validClaimantsOf claims dest :=
          List.mem_filter.2 ⟨hcl, by simpa using hpre⟩
        have hne : claimantsOf claims dest ≠ [] := by
          intro h
          rw [h] at hcl
          cases hcl
        obtain ⟨h31, h32, h33⟩ := phase3_at_dest claims dest hwf hne
        cases hv : validClaimantsOf claims dest with
        | nil =>
          rw [hv] at hvmem
          cases hvmem
        | cons a tail =>
          cases tail with
          | nil =>
            rw [hv] at hvmem
            have hca : c' = a := by
              rcases List.mem_cons.1 hvmem with h | h
              · exact h
              · cases h
            have hwina := h32 a hv
            have hwa : wid = a.entity_id := by
              have := hwin.symm.trans hwina
              exact Option.some.inj this
            rw [hca, ← hwa] at hdg
            rw [hmarked] at hdg
            cases hdg
          | cons b tail2 =>
            have hlen : 1 < (validClaimantsOf claims dest).length := by
              rw [hv]
              simp only [List.length_cons]
              omega
            obtain ⟨w0, losers, hs⟩ : ∃ w0 losers,
                sortByEntityId (validClaimantsOf claims dest) = w0 :: losers := by
              cases hsv : sortByEntityId (validClaimantsOf claims dest) with
              | nil =>
                have hm : c' ∈ sortByEntityId (validClaimantsOf claims dest) :=
                  (mem_sortByEntityId _ _).2 hvmem
                rw [hsv] at hm
                cases hm
              | cons x y => exact ⟨x, y, rfl⟩
            obtain ⟨hwinw, hlose⟩ := h33 w0 losers hs hlen
            have hcs : c' ∈ sortByEntityId (validClaimantsOf claims dest) :=
              (mem_sortByEntityId _ _).2 hvmem
            rw [hs] at hcs
            rcases List.mem_cons.1 hcs with rfl | hcl2
            · have hwa : wid = c'.entity_id := by
                have := hwin.symm.trans hwinw
                exact Option.some.inj this
              rw [← hwa] at hdg
              rw [hmarked] at hdg
              cases hdg
            · have h3 := hlose c' hcl2
              have hff := resolveFailed_of_phase3_marked w claims hwf c'.entity_id _ h3
              rw [hdg] at hff
              cases hff
  · intro c hc hmarkc res hres hresid
    have hfin := resolveFailed_of_phase3_marked w claims hwf c.entity_id _ hmarkc
    exact resolve_result_of_failed w claims hwf c hc _ hfin res hres hresid

/-- C5 (witness): the occupancy scenario with movers "alpha" and "bravo"
racing toward non-mover "zed" at (4,3). -/
theorem c5_destination_occupied_no_revival_witness :
    resolve_conflicts occupiedW0
        [MoveClaim.mk "alpha" (Pos.mk 3 3) (Pos.mk 4 3) Direction.east,
         MoveClaim.mk "bravo" (Pos.mk 5 3) (Pos.mk 4 3) Direction.west]
      = [MoveResult.mk "alpha" false (Pos.mk 3 3) (Pos.mk 3 3) (some "destination_occupied"),
         MoveResult.mk "bravo" false (Pos.mk 5 3) (Pos.mk 5 3)
           (some "same_destination_conflict")]
    ∧ (MoveResult.mk "alpha" false (Pos.mk 3 3) (Pos.mk 3 3)
        (some "destination_occupied")).success = false
    ∧ (MoveResult.mk "alpha" false (Pos.mk 3 3) (Pos.mk 3 3)
        (some "destination_occupied")).failure_reason = some "destination_occupied" := by
  have h := c5_destination_occupied_no_revival occupiedW0
    [MoveClaim.mk "alpha" (Pos.mk 3 3) (Pos.mk 4 3) Direction.east,
     MoveClaim.mk "bravo" (Pos.mk 5 3) (Pos.mk 4 3) Direction.west]
    (Pos.mk 4 3) "alpha" (mkEntity "zed" (Pos.mk 4 3))
    (by constructor <;> decide) rfl rfl (by decide)
  refine ⟨rfl, ?_⟩
  exact h.1 (MoveResult.mk "alpha" false (Pos.mk 3 3) (Pos.mk 3 3)
    (some "destination_occupied")) (by decide) rfl

theorem dictGet_dictSet_cases {K V : Type} [DecidableEq K] (m : List (K × V)) (k x : K)
    (v u : V) (h : dictGet (dictSet m k v) x = some u) :
    (x = k ∧ u = v) ∨ (x ≠ k ∧ dictGet m x = some u) := by
  by_cases hk : x = k
  · subst hk
    rw [dictGet_dictSet_self] at h
    exact Or.inl ⟨rfl, (Option.some.inj h).symm⟩
  · rw [dictGet_dictSet_ne _ _ _ _ (fun he => hk he.symm)] at h
    exact Or.inr ⟨hk, h⟩

theorem mem_dictSet {K V : Type} [DecidableEq K] (m : List (K × V)) (k : K) (v : V)
    (p : K × V) (h : p ∈ dictSet m k v) : p ∈ m ∨ p = (k, v) := by
  induction m with
  | nil =>
    simp [dictSet] at h
    exact Or.inr h
  | cons e rest ih =>
    obtain ⟨k', v'⟩ := e
    by_cases hk : k' = k
    · subst hk
      have e1 : dictSet ((k', v') :: rest) k' v = (k', v) :: rest := by
        simp [dictSet]
      rw [e1] at h
      rcases List.mem_cons.1 h with h | h
      · exact Or.inr h
      · exact Or.inl (List.mem_cons_of_mem _ h)
    · have e1 : dictSet ((k', v') :: rest) k v = (k', v') :: dictSet rest k v := by
        simp [dictSet, hk]
      rw [e1] at h
      rcases List.mem_cons.1 h with h | h
      · exact Or.inl (h ▸ List.mem_cons_self _ _)
      · rcases ih h with h | h
        · exact Or.inl (List.mem_cons_of_mem _ h)
        · exact Or.inr h

theorem dictHas_of_mem {K V : Type} [DecidableEq K] (m : List (K × V)) (p : K × V)
    (h : p ∈ m) : dictHas m p.1 = true := by
  induction m with
  | nil => cases h
  | cons e rest ih =>
    obtain ⟨k', v'⟩ := e
    rcases List.mem_cons.1 h with h | h
    · subst h
      simp [dictHas, dictGet]
    · by_cases hk : k' = p.1
      · simp [dictHas, dictGet, hk]
      · simp only [dictHas, dictGet, if_neg hk]
        exact ih h

theorem dictHas_dictSet {K V : Type} [DecidableEq K] (m : List (K × V)) (k x : K) (v : V) :
    dictHas (dictSet m k v) x = true ↔ x = k ∨ dictHas m x = true := by
  by_cases hk : x = k
  · subst hk
    simp [dictHas, dictGet_dictSet_self]
  · rw [dictHas, dictHas, dictGet_dictSet_ne _ _ _ _ (fun he => hk he.symm)]
    simp [hk]

theorem foldl_pairs_frame (ps : List (String × String)) :
    ∀ (f0 : List (String × String)) (k : String), (∀ p ∈ ps, p.1 ≠ k) →
    dictGet (ps.foldl (fun f p => dictSet f p.1 p.2) f0) k = dictGet f0 k := by
  induction ps with
  | nil => intro f0 k _; rfl
  | cons p rest ih =>
    intro f0 k hk
    simp only [List.foldl_cons]
    rw [ih _ k (fun q hq => hk q (List.mem_cons_of_mem _ hq))]
    exact dictGet_dictSet_ne _ _ _ _ (hk p (List.mem_cons_self _ _))

theorem foldl_pairs_coherent (ps : List (String × String)) (v : String) :
    ∀ (f0 : List (String × String)) (k : String),
    (∃ p ∈ ps, p.1 = k) → (∀ p ∈ ps, p.1 = k → p.2 = v) →
    dictGet (ps.foldl (fun f p => dictSet f p.1 p.2) f0) k = some v := by
  induction ps with
  | nil =>
    intro f0 k hex _
    obtain ⟨p, hp, _⟩ := hex
    cases hp
  | cons p rest ih =>
    intro f0 k hex hco
    simp only [List.foldl_cons]
    by_cases hp : p.1 = k
    · have hv : p.2 = v := hco p (List.mem_cons_self _ _) hp
      by_cases hrest : ∃ q ∈ rest, q.1 = k
      · exact ih _ k hrest (fun q hq => hco q (List.mem_cons_of_mem _ hq))
      · rw [foldl_pairs_frame rest _ k (fun q hq hqk => hrest ⟨q, hq, hqk⟩)]
        rw [hp, hv]
        exact dictGet_dictSet_self _ _ _
    · have hrest : ∃ q ∈ rest, q.1 = k := by
        obtain ⟨q, hq, hqk⟩ := hex
        rcases List.mem_cons.1 hq with rfl | hq
        · exact absurd hqk hp
        · exact ⟨q, hq, hqk⟩
      exact ih _ k hrest (fun q hq => hco q (List.mem_cons_of_mem _ hq))

theorem strMark_preserve (members : List String) (v : String) :
    ∀ (f0 : List (String × String)) (k : String), dictGet f0 k = some v →
    dictGet (members.foldl (fun f m => dictSet f m v) f0) k = some v := by
  induction members with
  | nil => intro f0 k h; exact h
  | cons m rest ih =>
    intro f0 k h
    simp only [List.foldl_cons]
    apply ih
    by_cases hm : m = k
    · subst hm
      exact dictGet_dictSet_self _ _ _
    · rw [dictGet_dictSet_ne _ _ _ _ hm]
      exact h

theorem strMark_of_mem (members : List String) (v : String) :
    ∀ (f0 : List (String × String)) (k : String), k ∈ members →
    dictGet (members.foldl (fun f m => dictSet f m v) f0) k = some v := by
  induction members with
  | nil => intro _ _ h; cases h
  | cons m rest ih =>
    intro f0 k h
    simp only [List.foldl_cons]
    rcases List.mem_cons.1 h with rfl | h
    · exact strMark_preserve rest v _ k (dictGet_dictSet_self _ _ _)
    · exact ih _ k h

theorem strMark_keys (members : List String) (v : String) :
    ∀ (f0 : List (String × String)) (k r : String),
    dictGet (members.foldl (fun f m => dictSet f m v) f0) k = some r →
    k ∈ members ∨ dictGet f0 k = some r := by
  induction members with
  | nil => intro f0 k r h; exact Or.inr h
  | cons m rest ih =>
    intro f0 k r h
    simp only [List.foldl_cons] at h
    rcases ih _ k r h with h1 | h1
    · exact Or.inl (List.mem_cons_of_mem _ h1)
    · rcases dictGet_dictSet_cases _ _ _ _ _ h1 with ⟨hk, _⟩ | ⟨_, hg⟩
      · exact Or.inl (hk ▸ List.mem_cons_self _ _)
      · exact Or.inr hg

theorem strMark_mem (members : List String) (v : String) :
    ∀ (f0 : List (String × String)) (p : String × String),
    p ∈ members.foldl (fun f m => dictSet f m v) f0 →
    p ∈ f0 ∨ p.2 = v := by
  induction members with
  | nil => intro f0 p h; exact Or.inl h
  | cons m rest ih =>
    intro f0 p h
    simp only [List.foldl_cons] at h
    rcases ih _ p h with h1 | h1
    · rcases mem_dictSet _ _ _ _ h1 with h2 | h2
      · exact Or.inl h2
      · exact Or.inr (by rw [h2])
    · exact Or.inr h1

theorem nodup_length_le (l1 l2 : List String) (h1 : l1.Nodup) (hsub : ∀ x ∈ l1, x ∈ l2) :
    l1.length ≤ l2.length := by
  have h2 : l1.toFinset.card = l1.length := List.toFinset_card_of_nodup h1
  have h3 : l1.toFinset ⊆ l2.toFinset := by
    intro x hx
    rw [List.mem_toFinset] at hx ⊢
    exact hsub x hx
  have h4 := Finset.card_le_card h3
  have h5 : l2.toFinset.card ≤ l2.length := l2.toFinset_card_le
  omega

theorem wfClaims_from_inj (claims : List MoveClaim) (hwf : wfClaims claims) :
    ∀ c1 ∈ claims, ∀ c2 ∈ claims, c1.from_pos = c2.from_pos → c1 = c2 := by
  intro c1 h1 c2 h2 heq
  exact List.inj_on_of_nodup_map hwf.2 h1 h2 heq

theorem swapScan_cons (c p : MoveClaim) (rest : List MoveClaim)
    (f : List (String × String)) :
    swapScan c (p :: rest) f
      = swapScan c rest
          (if p.from_pos = c.to_pos then
            dictSet (dictSet f c.entity_id "swap_conflict") p.entity_id "swap_conflict"
          else f) := rfl

theorem swapScan_has_mono (c : MoveClaim) (parts : List MoveClaim) :
    ∀ (f : List (String × String)) (k : String), dictHas f k = true →
    dictHas (swapScan c parts f) k = true := by
  induction parts with
  | nil => intro f k h; exact h
  | cons p rest ih =>
    intro f k h
    rw [swapScan_cons]
    apply ih
    by_cases htr : p.from_pos = c.to_pos
    · rw [if_pos htr]
      exact (dictHas_dictSet _ _ _ _).2 (Or.inr ((dictHas_dictSet _ _ _ _).2 (Or.inr h)))
    · rw [if_neg htr]
      exact h

theorem swapScan_values (c : MoveClaim) (parts : List MoveClaim) :
    ∀ (f : List (String × String)),
    (∀ k v, dictGet f k = some v → v = "swap_conflict") →
    ∀ k v, dictGet (swapScan c parts f) k = some v → v = "swap_conflict" := by
  induction parts with
  | nil => intro f hf; exact hf
  | cons p rest ih =>
    intro f hf
    rw [swapScan_cons]
    apply ih
    by_cases htr : p.from_pos = c.to_pos
    · rw [if_pos htr]
      intro k v hv
      rcases dictGet_dictSet_cases _ _ _ _ _ hv with ⟨_, hvv⟩ | ⟨_, hv2⟩
      · exact hvv
      rcases dictGet_dictSet_cases _ _ _ _ _ hv2 with ⟨_, hvv⟩ | ⟨_, hv3⟩
      · exact hvv
      · exact hf _ _ hv3
    · rw [if_neg htr]
      exact hf

theorem swapScan_marks (c : MoveClaim) (parts : List MoveClaim) :
    ∀ (oc : MoveClaim) (f : List (String × String)), oc ∈ parts →
    oc.from_pos = c.to_pos →
    dictHas (swapScan c parts f) c.entity_id = true
      ∧ dictHas (swapScan c parts f) oc.entity_id = true := by
  induction parts with
  | nil => intro oc f h _; cases h
  | cons p rest ih =>
    intro oc f hoc htr
    rw [swapScan_cons]
    rcases List.mem_cons.1 hoc with rfl | hoc'
    · rw [if_pos htr]
      constructor
      · exact swapScan_has_mono c rest _ _
          ((dictHas_dictSet _ _ _ _).2 (Or.inr ((dictHas_dictSet _ _ _ _).2 (Or.inl rfl))))
      · exact swapScan_has_mono c rest _ _ ((dictHas_dictSet _ _ _ _).2 (Or.inl rfl))
    · exact ih oc _ hoc' htr

theorem swapScan_pair_inv (claims : List MoveClaim) (hwf : wfClaims claims)
    (c c' : MoveClaim) (hc : c ∈ claims) (hc' : c' ∈ claims)
    (hsp1 : c'.from_pos = c.to_pos) (hsp2 : c'.to_pos = c.from_pos)
    (d : MoveClaim) (hd : d ∈ claims) :
    ∀ (parts : List MoveClaim) (f : List (String × String)),
    (∀ oc ∈ parts, oc ∈ claims ∧ oc.to_pos = d.from_pos) →
    dictHas f c.entity_id = dictHas f c'.entity_id →
    dictHas (swapScan d parts f) c.entity_id
      = dictHas (swapScan d parts f) c'.entity_id := by
  intro parts
  induction parts with
  | nil => intro f _ h; exact h
  | cons p rest ih =>
    intro f hparts hinv
    have hp := hparts p (List.mem_cons_self _ _)
    have hrest : ∀ oc ∈ rest, oc ∈ claims ∧ oc.to_pos = d.from_pos :=
      fun oc hoc => hparts oc (List.mem_cons_of_mem _ hoc)
    rw [swapScan_cons]
    apply ih _ hrest
    by_cases htr : p.from_pos = d.to_pos
    · rw [if_pos htr]
      by_cases hdc : d = c
      · have hpc' : p = c' := by
          apply wfClaims_from_inj claims hwf p hp.1 c' hc'
          rw [htr, hdc, ← hsp1]
        have hkc : dictHas (dictSet (dictSet f d.entity_id "swap_conflict")
            p.entity_id "swap_conflict") c.entity_id = true :=
          (dictHas_dictSet _ _ _ _).2
            (Or.inr ((dictHas_dictSet _ _ _ _).2 (Or.inl (by rw [hdc]))))
        have hkc' : dictHas (dictSet (dictSet f d.entity_id "swap_conflict")
            p.entity_id "swap_conflict") c'.entity_id = true :=
          (dictHas_dictSet _ _ _ _).2 (Or.inl (by rw [hpc']))
        rw [hkc, hkc']
      · by_cases hdc' : d = c'
        · have hpc : p = c := by
            apply wfClaims_from_inj claims hwf p hp.1 c hc
            rw [htr, hdc', hsp2]
          have hkc : dictHas (dictSet (dictSet f d.entity_id "swap_conflict")
              p.entity_id "swap_conflict") c.entity_id = true :=
            (dictHas_dictSet _ _ _ _).2 (Or.inl (by rw [hpc]))
          have hkc' : dictHas (dictSet (dictSet f d.entity_id "swap_conflict")
              p.entity_id "swap_conflict") c'.entity_id = true :=
            (dictHas_dictSet _ _ _ _).2
              (Or.inr ((dictHas_dictSet _ _ _ _).2 (Or.inl (by rw [hdc']))))
          rw [hkc, hkc']
        · by_cases hpc : p = c
          · exfalso
            apply hdc'
            apply wfClaims_from_inj claims hwf d hd c' hc'
            rw [hsp1, ← hp.2, hpc]
          · by_cases hpc' : p = c'
            · exfalso
              apply hdc
              apply wfClaims_from_inj claims hwf d hd c hc
              rw [← hp.2, hpc', hsp2]
            · have hdid : d.entity_id ≠ c.entity_id :=
                fun h => hdc (wfClaims_id_inj claims hwf d hd c hc h)
              have hdid' : d.entity_id ≠ c'.entity_id :=
                fun h => hdc' (wfClaims_id_inj claims hwf d hd c' hc' h)
              have hpid : p.entity_id ≠ c.entity_id :=
                fun h => hpc (wfClaims_id_inj claims hwf p hp.1 c hc h)
              have hpid' : p.entity_id ≠ c'.entity_id :=
                fun h => hpc' (wfClaims_id_inj claims hwf p hp.1 c' hc' h)
              have e1 : dictHas (dictSet (dictSet f d.entity_id "swap_conflict")
                  p.entity_id "swap_conflict") c.entity_id = dictHas f c.entity_id := by
                simp only [dictHas]
                rw [dictGet_dictSet_ne _ _ _ _ hpid, dictGet_dictSet_ne _ _ _ _ hdid]
              have e2 : dictHas (dictSet (dictSet f d.entity_id "swap_conflict")
                  p.entity_id "swap_conflict") c'.entity_id = dictHas f c'.entity_id := by
                simp only [dictHas]
                rw [dictGet_dictSet_ne _ _ _ _ hpid', dictGet_dictSet_ne _ _ _ _ hdid']
              rw [e1, e2]
              exact hinv
    · rw [if_neg htr]
      exact hinv

theorem phase1_has_mono (destMap : List (Pos × List MoveClaim)) :
    ∀ (l : List MoveClaim) (f : List (String × String)) (k : String),
    dictHas f k = true → dictHas (phase1Swaps destMap l f) k = true := by
  intro l
  induction l with
  | nil => intro f k h; exact h
  | cons d rest ih =>
    intro f k h
    by_cases hd : dictHas f d.entity_id = true
    · simp only [phase1Swaps, if_pos hd]
      exact ih f k h
    · simp only [phase1Swaps, if_neg hd]
      exact ih _ k (swapScan_has_mono _ _ _ _ h)

theorem phase1_values (destMap : List (Pos × List MoveClaim)) :
    ∀ (l : List MoveClaim) (f : List (String × String)),
    (∀ k v, dictGet f k = some v → v = "swap_conflict") →
    ∀ k v, dictGet (phase1Swaps destMap l f) k = some v → v = "swap_conflict" := by
  intro l
  induction l with
  | nil => intro f hf; exact hf
  | cons d rest ih =>
    intro f hf
    by_cases hd : dictHas f d.entity_id = true
    · simp only [phase1Swaps, if_pos hd]
      exact ih f hf
    · simp only [phase1Swaps, if_neg hd]
      exact ih _ (swapScan_values d _ f hf)

theorem destMap_parts (claims : List MoveClaim) (p : Pos) :
    ∀ oc ∈ (dictGet (buildDestMap claims) p).getD [], oc ∈ claims ∧ oc.to_pos = p := by
  intro oc hoc
  rw [buildDestMap_get] at hoc
  by_cases hne : claimantsOf claims p = []
  · rw [if_pos hne] at hoc
    simp at hoc
  · rw [if_neg hne] at hoc
    simp only [Option.getD_some] at hoc
    exact (claimantsOf_mem _ _ _).1 hoc

theorem mem_destMap_parts (claims : List MoveClaim) (p : Pos) (oc : MoveClaim)
    (h1 : oc ∈ claims) (h2 : oc.to_pos = p) :
    oc ∈ (dictGet (buildDestMap claims) p).getD [] := by
  have hmem : oc ∈ claimantsOf claims p := (claimantsOf_mem _ _ _).2 ⟨h1, h2⟩
  rw [buildDestMap_get, if_neg (List.ne_nil_of_mem hmem)]
  simpa using hmem

theorem phase1_pair (claims : List MoveClaim) (hwf : wfClaims claims)
    (c c' : MoveClaim) (hc : c ∈ claims) (hc' : c' ∈ claims)
    (hsp1 : c'.from_pos = c.to_pos) (hsp2 : c'.to_pos = c.from_pos) :
    ∀ (l : List MoveClaim) (f : List (String × String)),
    (∀ x ∈ l, x ∈ claims) → c ∈ l →
    dictHas f c.entity_id = dictHas f c'.entity_id →
    dictHas (phase1Swaps (buildDestMap claims) l f) c.entity_id = true
    ∧ dictHas (phase1Swaps (buildDestMap claims) l f) c'.entity_id = true := by
  intro l
  induction l with
  | nil => intro f _ hcl _; cases hcl
  | cons d rest ih =>
    intro f hl hcl hinv
    have hdcl : d ∈ claims := hl d (List.mem_cons_self _ _)
    have hrl : ∀ x ∈ rest, x ∈ claims := fun x hx => hl x (List.mem_cons_of_mem _ hx)
    by_cases hskip : dictHas f d.entity_id = true
    · simp only [phase1Swaps, if_pos hskip]
      rcases List.mem_cons.1 hcl with rfl | hcrest
      · constructor
        · exact phase1_has_mono _ rest f _ hskip
        · exact phase1_has_mono _ rest f _ (by rw [← hinv]; exact hskip)
      · exact ih f hrl hcrest hinv
    · simp only [phase1Swaps, if_neg hskip]
      rcases List.mem_cons.1 hcl with rfl | hcrest
      · have hc'mem : c' ∈ (dictGet (buildDestMap claims) c.from_pos).getD [] :=
          mem_destMap_parts claims c.from_pos c' hc' hsp2
        have hmarks := swapScan_marks c ((dictGet (buildDestMap claims) c.from_pos).getD [])
          c' f hc'mem hsp1
        constructor
        · exact phase1_has_mono _ rest _ _ hmarks.1
        · exact phase1_has_mono _ rest _ _ hmarks.2
      · have hinv' := swapScan_pair_inv claims hwf c c' hc hc' hsp1 hsp2 d hdcl
          ((dictGet (buildDestMap claims) d.from_pos).getD []) f
          (destMap_parts claims d.from_pos) hinv
        exact ih _ hrl hcrest hinv'

theorem swapFailed_pair (claims : List MoveClaim) (hwf : wfClaims claims)
    (c c' : MoveClaim) (hc : c ∈ claims) (hc' : c' ∈ claims)
    (hsp1 : c'.from_pos = c.to_pos) (hsp2 : c'.to_pos = c.from_pos) :
    dictGet (swapFailed claims) c.entity_id = some "swap_conflict"
    ∧ dictGet (swapFailed claims) c'.entity_id = some "swap_conflict" := by
  have hp := phase1_pair claims hwf c c' hc hc' hsp1 hsp2 claims [] (fun x hx => hx) hc rfl
  have hvals : ∀ k v, dictGet (swapFailed claims) k = some v → v = "swap_conflict" :=
    fun k v hv =>
      phase1_values (buildDestMap claims) claims [] (fun k' v' h => by cases h) k v hv
  have h1 : (dictGet (swapFailed claims) c.entity_id).isSome = true := hp.1
  have h2 : (dictGet (swapFailed claims) c'.entity_id).isSome = true := hp.2
  constructor
  · obtain ⟨v, hv⟩ := Option.isSome_iff_exists.1 h1
    rw [hv, hvals _ _ hv]
  · obtain ⟨v, hv⟩ := Option.isSome_iff_exists.1 h2
    rw [hv, hvals _ _ hv]

theorem walkLoop_chain_already (e2c : List (String × MoveClaim)) (p2e : List (Pos × String))
    (already : List (String × String)) :
    ∀ (fuel : Nat) (chain : List String) (cur : String),
    (∀ x ∈ chain, dictHas already x = false) →
    ∀ x ∈ (walkLoop e2c p2e already fuel chain cur).1, dictHas already x = false := by
  intro fuel
  induction fuel with
  | zero => intro chain cur h; exact h
  | succ fuel ih =>
    intro chain cur h
    simp only [walkLoop]
    by_cases h0 : cur = ""
    · rw [if_pos h0]
      exact h
    rw [if_neg h0]
    by_cases h1 : cur ∈ chain
    · rw [if_pos h1]
      exact h
    rw [if_neg h1]
    by_cases h2 : dictHas already cur = true
    · rw [if_pos h2]
      exact h
    rw [if_neg h2]
    have h' : ∀ x ∈ chain ++ [cur], dictHas already x = false := by
      intro x hx
      rcases List.mem_append.1 hx with hx | hx
      · exact h x hx
      · rw [List.mem_singleton.1 hx]
        cases hb : dictHas already cur
        · rfl
        · exact absurd hb h2
    cases hg : dictGet e2c cur with
    | none =>
      simp only [hg]
      exact h'
    | some claim =>
      simp only [hg]
      cases hp : dictGet p2e claim.to_pos with
      | none =>
        simp only [hp]
        exact h'
      | some nxt =>
        simp only [hp]
        by_cases hgd : nxt ≠ "" ∧ dictHas e2c nxt = true ∧ dictHas already nxt = false
        · rw [if_pos hgd]
          exact ih _ nxt h'
        · rw [if_neg hgd]
          exact h'

theorem markCycle_keys (chain : List String) (fin : Option String)
    (f : List (String × String)) (k r : String)
    (h : dictGet (markCycle chain fin f) k = some r) :
    k ∈ chain ∨ dictGet f k = some r := by
  cases fin with
  | none => exact Or.inr h
  | some cur =>
    simp only [markCycle] at h
    by_cases h1 : cur ∈ chain
    · rw [if_pos h1] at h
      by_cases h2 : (chain.drop (chain.indexOf cur)).length > 2
      · rw [if_pos h2] at h
        rcases strMark_keys _ _ _ _ _ h with hmem | hget
        · exact Or.inl (List.drop_subset _ _ hmem)
        · exact Or.inr hget
      · rw [if_neg h2] at h
        exact Or.inr h
    · rw [if_neg h1] at h
      exact Or.inr h

theorem markCycle_preserve (chain : List String) (fin : Option String)
    (f : List (String × String)) (k : String)
    (h : dictGet f k = some "cycle_conflict") :
    dictGet (markCycle chain fin f) k = some "cycle_conflict" := by
  cases fin with
  | none => exact h
  | some cur =>
    simp only [markCycle]
    by_cases h1 : cur ∈ chain
    · rw [if_pos h1]
      by_cases h2 : (chain.drop (chain.indexOf cur)).length > 2
      · rw [if_pos h2]
        exact strMark_preserve _ _ _ _ h
      · rw [if_neg h2]
        exact h
    · rw [if_neg h1]
      exact h

theorem markCycle_mem (chain : List String) (fin : Option String)
    (f : List (String × String)) (p : String × String)
    (h : p ∈ markCycle chain fin f) : p ∈ f ∨ p.2 = "cycle_conflict" := by
  cases fin with
  | none => exact Or.inl h
  | some cur =>
    simp only [markCycle] at h
    by_cases h1 : cur ∈ chain
    · rw [if_pos h1] at h
      by_cases h2 : (chain.drop (chain.indexOf cur)).length > 2
      · rw [if_pos h2] at h
        exact strMark_mem _ _ _ _ h
      · rw [if_neg h2] at h
        exact Or.inl h
    · rw [if_neg h1] at h
      exact Or.inl h

theorem cyclesFold_keys (e2c : List (String × MoveClaim)) (p2e : List (Pos × String))
    (already : List (String × String)) (fuel : Nat) :
    ∀ (l : List MoveClaim) (acc : List (String × String) × List String),
    (∀ k r, dictGet acc.1 k = some r → dictHas already k = false) →
    ∀ k r, dictGet ((l.foldl (cyclesStep e2c p2e already fuel) acc).1) k = some r →
    dictHas already k = false := by
  intro l
  induction l with
  | nil => intro acc h; exact h
  | cons d rest ih =>
    intro acc h
    simp only [List.foldl_cons]
    apply ih
    intro k r hk
    simp only [cyclesStep] at hk
    by_cases hskip : dictHas already d.entity_id = true ∨ d.entity_id ∈ acc.2
    · rw [if_pos hskip] at hk
      exact h k r hk
    · rw [if_neg hskip] at hk
      have hk' : dictGet (markCycle (walkLoop e2c p2e already fuel [] d.entity_id).1
          (walkLoop e2c p2e already fuel [] d.entity_id).2 acc.1) k = some r := hk
      rcases markCycle_keys _ _ _ _ _ hk' with hmem | hget
      · exact walkLoop_chain_already e2c p2e already _ [] d.entity_id
          (by intro x hx; cases hx) k hmem
      · exact h k r hget

theorem cyclesFold_values (e2c : List (String × MoveClaim)) (p2e : List (Pos × String))
    (already : List (String × String)) (fuel : Nat) :
    ∀ (l : List MoveClaim) (acc : List (String × String) × List String),
    (∀ p ∈ acc.1, p.2 = "cycle_conflict") →
    ∀ p ∈ (l.foldl (cyclesStep e2c p2e already fuel) acc).1, p.2 = "cycle_conflict" := by
  intro l
  induction l with
  | nil => intro acc h; exact h
  | cons d rest ih =>
    intro acc h
    simp only [List.foldl_cons]
    apply ih
    intro p hp
    simp only [cyclesStep] at hp
    by_cases hskip : dictHas already d.entity_id = true ∨ d.entity_id ∈ acc.2
    · rw [if_pos hskip] at hp
      exact h p hp
    · rw [if_neg hskip] at hp
      have hp' : p ∈ markCycle (walkLoop e2c p2e already fuel [] d.entity_id).1
          (walkLoop e2c p2e already fuel [] d.entity_id).2 acc.1 := hp
      rcases markCycle_mem _ _ _ _ hp' with hmem | hval
      · exact h p hmem
      · exact hval

theorem detect_cycles_not_already (claims : List MoveClaim)
    (e2c : List (String × MoveClaim)) (already : List (String × String)) :
    ∀ k r, dictGet (detect_cycles claims e2c already) k = some r →
    dictHas already k = false := by
  intro k r h
  exact cyclesFold_keys e2c (cyclesP2E claims already) already (claims.length + 1)
    claims ([], []) (by intro k' r' h'; cases h') k r h

theorem detect_cycles_values (claims : List MoveClaim)
    (e2c : List (String × MoveClaim)) (already : List (String × String)) :
    ∀ p ∈ detect_cycles claims e2c already, p.2 = "cycle_conflict" := by
  intro p hp
  exact cyclesFold_values e2c (cyclesP2E claims already) already (claims.length + 1)
    claims ([], []) (by intro p' hp'; cases hp') p hp

theorem preDest_of_swap (claims : List MoveClaim) (k r : String)
    (h : dictGet (swapFailed claims) k = some r) :
    dictGet (preDestFailed claims) k = some r := by
  show dictGet ((detect_cycles claims (buildEntityMap claims) (swapFailed claims)).foldl
      (fun f p => dictSet f p.1 p.2) (swapFailed claims)) k = some r
  rw [foldl_pairs_frame]
  · exact h
  · intro p hp hpk
    have hhas := dictHas_of_mem _ p hp
    obtain ⟨u, hu⟩ := Option.isSome_iff_exists.1 hhas
    have hna := detect_cycles_not_already claims _ _ p.1 u hu
    rw [hpk] at hna
    have hkt : dictHas (swapFailed claims) k = true := by
      rw [dictHas, h]
      rfl
    rw [hna] at hkt
    cases hkt

theorem preDest_of_cycle (claims : List MoveClaim) (k : String)
    (h : dictGet (detect_cycles claims (buildEntityMap claims) (swapFailed claims)) k
      = some "cycle_conflict") :
    dictGet (preDestFailed claims) k = some "cycle_conflict" := by
  show dictGet ((detect_cycles claims (buildEntityMap claims) (swapFailed claims)).foldl
      (fun f p => dictSet f p.1 p.2) (swapFailed claims)) k = some "cycle_conflict"
  apply foldl_pairs_coherent
  · exact ⟨(k, "cycle_conflict"), dictGet_mem _ _ _ h, rfl⟩
  · intro p hp _
    exact detect_cycles_values claims _ _ p hp

theorem foldl_p2e_frame (already : List (String × String)) (cs : List MoveClaim) :
    ∀ (m0 : List (Pos × String)) (pos : Pos), (∀ c ∈ cs, c.from_pos ≠ pos) →
    dictGet (cs.foldl (fun m c => if dictHas already c.entity_id then m
      else dictSet m c.from_pos c.entity_id) m0) pos = dictGet m0 pos := by
  induction cs with
  | nil => intro m0 pos _; rfl
  | cons d rest ih =>
    intro m0 pos hpos
    simp only [List.foldl_cons]
    rw [ih _ pos (fun c hc => hpos c (List.mem_cons_of_mem _ hc))]
    by_cases hd : dictHas already d.entity_id = true
    · rw [if_pos hd]
    · rw [if_neg hd]
      exact dictGet_dictSet_ne _ _ _ _ (hpos d (List.mem_cons_self _ _))

theorem foldl_p2e_get (already : List (String × String)) (cs : List MoveClaim) :
    ∀ (m0 : List (Pos × String)) (c : MoveClaim),
    (cs.map MoveClaim.from_pos).Nodup → c ∈ cs → dictHas already c.entity_id = false →
    dictGet (cs.foldl (fun m c => if dictHas already c.entity_id then m
      else dictSet m c.from_pos c.entity_id) m0) c.from_pos = some c.entity_id := by
  induction cs with
  | nil => intro m0 c _ h _; cases h
  | cons d rest ih =>
    intro m0 c hnd hc hna
    simp only [List.foldl_cons]
    rcases List.mem_cons.1 hc with heq | hcr
    · rw [heq] at hna ⊢
      rw [foldl_p2e_frame already rest _ d.from_pos
        (fun e he hef => (List.nodup_cons.1 hnd).1 (List.mem_map.2 ⟨e, he, hef⟩))]
      have hng : ¬ (dictHas already d.entity_id = true) := by
        simp [hna]
      rw [if_neg hng]
      exact dictGet_dictSet_self _ _ _
    · exact ih _ c (List.nodup_cons.1 hnd).2 hcr hna

theorem foldl_p2e_binding (already : List (String × String)) (cs : List MoveClaim) :
    ∀ (m0 : List (Pos × String)) (pos : Pos) (i : String),
    dictGet (cs.foldl (fun m c => if dictHas already c.entity_id then m
      else dictSet m c.from_pos c.entity_id) m0) pos = some i →
    dictGet m0 pos = some i ∨ ∃ c ∈ cs, c.entity_id = i := by
  induction cs with
  | nil => intro m0 pos i h; exact Or.inl h
  | cons d rest ih =>
    intro m0 pos i h
    simp only [List.foldl_cons] at h
    rcases ih _ pos i h with h1 | h1
    · by_cases hd : dictHas already d.entity_id = true
      · rw [if_pos hd] at h1
        exact Or.inl h1
      · rw [if_neg hd] at h1
        rcases dictGet_dictSet_cases _ _ _ _ _ h1 with ⟨_, hi⟩ | ⟨_, hg⟩
        · exact Or.inr ⟨d, List.mem_cons_self _ _, hi.symm⟩
        · exact Or.inl hg
    · obtain ⟨c, hc, hi⟩ := h1
      exact Or.inr ⟨c, List.mem_cons_of_mem _ hc, hi⟩

theorem buildEntityMap_get (claims : List MoveClaim) (hwf : wfClaims claims)
    (c : MoveClaim) (hc : c ∈ claims) :
    dictGet (buildEntityMap claims) c.entity_id = some c := by
  have hhas := buildEntityMap_has claims c hc
  obtain ⟨c2, hc2⟩ := Option.isSome_iff_exists.1 hhas
  have hb := buildEntityMap_binding claims _ c2 hc2
  have hcc : c2 = c := wfClaims_id_inj claims hwf c2 hb.1 c hc hb.2
  rw [hc2, hcc]

theorem indexOf_append_cons_self (chain0 : List String) (cur : String) (tail : List String)
    (hnm : cur ∉ chain0) :
    (chain0 ++ cur :: tail).indexOf cur = chain0.length := by
  induction chain0 with
  | nil => simp [List.indexOf_cons_self]
  | cons a rest ih =>
    have hne : a ≠ cur := fun h => hnm (by rw [h]; exact List.mem_cons_self _ _)
    have hnr : cur ∉ rest := fun h => hnm (List.mem_cons_of_mem _ h)
    simp only [List.cons_append, List.length_cons]
    rw [List.indexOf_cons_ne _ hne, ih hnr]

theorem markCycle_rotation (chain0 : List String) (cur : String) (tail : List String)
    (f : List (String × String)) (hnm : cur ∉ chain0)
    (hlen : 2 < (cur :: tail).length) :
    ∀ k ∈ cur :: tail, dictGet (markCycle (chain0 ++ cur :: tail) (some cur) f) k
      = some "cycle_conflict" := by
  intro k hk
  simp only [markCycle]
  rw [if_pos (List.mem_append_right _ (List.mem_cons_self _ _))]
  rw [indexOf_append_cons_self _ _ _ hnm]
  rw [List.drop_left]
  rw [if_pos hlen]
  exact strMark_of_mem _ _ f k hk

theorem cycle_rotate (claims cyc : List MoveClaim) (hcyc : IsMoveCycle claims cyc)
    (pre post : List MoveClaim) (d : MoveClaim) (hshape : cyc = pre ++ d :: post) :
    (d :: (post ++ pre)).Perm cyc
    ∧ List.Chain' (fun a b => a.to_pos = b.from_pos) (d :: (post ++ pre))
    ∧ (∀ x ∈ (d :: (post ++ pre)).getLast?, x.to_pos = d.from_pos) := by
  obtain ⟨hlen, hmem, hnd, hok, hch, hwrap⟩ := hcyc
  rw [hshape] at hch hwrap
  refine ⟨?_, ?_, ?_⟩
  · have p1 : (d :: (post ++ pre)).Perm (d :: (pre ++ post)) :=
      List.Perm.cons d List.perm_append_comm
    have p2 : (pre ++ d :: post).Perm (d :: (pre ++ post)) := List.perm_middle
    rw [hshape]
    exact p1.trans p2.symm
  · obtain ⟨hcpre, hcdp, hjun⟩ := List.chain'_append.1 hch
    show List.Chain' _ ((d :: post) ++ pre)
    apply List.chain'_append.2
    refine ⟨hcdp, hcpre, ?_⟩
    intro x hx y hy
    refine hwrap x ?_ y ?_
    · show (pre ++ d :: post).getLast? = some x
      rw [List.getLast?_append_of_ne_nil _ (List.cons_ne_nil _ _)]
      exact hx
    · show (pre ++ d :: post).head? = some y
      rw [List.head?_append, hy]
      rfl
  · intro x hx
    by_cases hpre : pre = []
    · subst hpre
      rw [List.append_nil] at hx
      simp only [List.nil_append] at hwrap
      exact hwrap x hx d rfl
    · have hgl : (d :: (post ++ pre)).getLast? = pre.getLast? := by
        show ((d :: post) ++ pre).getLast? = pre.getLast?
        rw [List.getLast?_append_of_ne_nil _ hpre]
      rw [hgl] at hx
      obtain ⟨hcpre, hcdp, hjun⟩ := List.chain'_append.1 hch
      exact hjun x hx d rfl

theorem walk_rotation
    (claims : List MoveClaim) (e2c : List (String × MoveClaim))
    (p2e : List (Pos × String)) (already : List (String × String))
    (he2c : ∀ c ∈ claims, dictGet e2c c.entity_id = some c)
    (hp2e : ∀ c ∈ claims, dictHas already c.entity_id = false →
      dictGet p2e c.from_pos = some c.entity_id)
    (r0 : MoveClaim) (rtail : List MoveClaim)
    (hrcl : ∀ c ∈ r0 :: rtail, c ∈ claims)
    (hrnd : ((r0 :: rtail).map MoveClaim.entity_id).Nodup)
    (hrnf : ∀ c ∈ r0 :: rtail, dictHas already c.entity_id = false)
    (hrne : ∀ c ∈ r0 :: rtail, c.entity_id ≠ "")
    (hchain : List.Chain' (fun a b => a.to_pos = b.from_pos) (r0 :: rtail))
    (hwrap : ∀ x ∈ (r0 :: rtail).getLast?, x.to_pos = r0.from_pos) :
    ∀ (stail : List MoveClaim) (s : MoveClaim) (pre : List MoveClaim)
      (chain0 : List String) (fuel : Nat),
    r0 :: rtail = pre ++ s :: stail → stail.length < fuel →
    (∀ i ∈ chain0, i ∉ (r0 :: rtail).map MoveClaim.entity_id) →
    walkLoop e2c p2e already fuel (chain0 ++ pre.map MoveClaim.entity_id) s.entity_id
      = (chain0 ++ (r0 :: rtail).map MoveClaim.entity_id, some r0.entity_id) := by
  intro stail
  induction stail with
  | nil =>
    intro s pre chain0 fuel hshape hfuel hch0
    have hsr : s ∈ r0 :: rtail := by
      rw [hshape]
      exact List.mem_append_right _ (List.mem_cons_self _ _)
    have hscl : s ∈ claims := hrcl s hsr
    have h0 : ¬ (s.entity_id = "") := hrne s hsr
    have hmapids : (r0 :: rtail).map MoveClaim.entity_id
        = pre.map MoveClaim.entity_id ++ (s :: ([] : List MoveClaim)).map MoveClaim.entity_id := by
      rw [hshape, List.map_append]
    have hndapp : (pre.map MoveClaim.entity_id
        ++ (s :: ([] : List MoveClaim)).map MoveClaim.entity_id).Nodup := by
      rw [← hmapids]
      exact hrnd
    have hdisj := List.disjoint_of_nodup_append hndapp
    have hsid_right : s.entity_id ∈ (s :: ([] : List MoveClaim)).map MoveClaim.entity_id :=
      List.mem_map.2 ⟨s, List.mem_cons_self _ _, rfl⟩
    have hsid_pre : s.entity_id ∉ pre.map MoveClaim.entity_id := fun h => hdisj h hsid_right
    have hsid_ch0 : s.entity_id ∉ chain0 := fun h =>
      hch0 s.entity_id h (by rw [hmapids]; exact List.mem_append_right _ hsid_right)
    have h1 : ¬ (s.entity_id ∈ chain0 ++ pre.map MoveClaim.entity_id) := by
      intro h
      rcases List.mem_append.1 h with h | h
      · exact hsid_ch0 h
      · exact hsid_pre h
    have h2 : ¬ (dictHas already s.entity_id = true) := by
      rw [hrnf s hsr]
      exact Bool.false_ne_true
    have hge : dictGet e2c s.entity_id = some s := he2c s hscl
    have hlast : (r0 :: rtail).getLast? = some s := by
      rw [hshape]
      exact List.getLast?_concat _
    have hr0mem : r0 ∈ r0 :: rtail := List.mem_cons_self _ _
    have hst : s.to_pos = r0.from_pos := hwrap s hlast
    have hgp : dictGet p2e s.to_pos = some r0.entity_id := by
      rw [hst]
      exact hp2e r0 (hrcl r0 hr0mem) (hrnf r0 hr0mem)
    have hguard : r0.entity_id ≠ "" ∧ dictHas e2c r0.entity_id = true
        ∧ dictHas already r0.entity_id = false := by
      refine ⟨hrne r0 hr0mem, ?_, hrnf r0 hr0mem⟩
      rw [dictHas, he2c r0 (hrcl r0 hr0mem)]
      rfl
    cases fuel with
    | zero => exact absurd hfuel (Nat.not_lt_zero _)
    | succ f' =>
      simp only [walkLoop]
      rw [if_neg h0, if_neg h1, if_neg h2]
      simp only [hge, hgp]
      rw [if_pos hguard]
      have hchain_eq : chain0 ++ pre.map MoveClaim.entity_id ++ [s.entity_id]
          = chain0 ++ (r0 :: rtail).map MoveClaim.entity_id := by
        simp [hmapids, List.append_assoc]
      rw [hchain_eq]
      have hmem : r0.entity_id ∈ chain0 ++ (r0 :: rtail).map MoveClaim.entity_id :=
        List.mem_append_right _ (List.mem_map.2 ⟨r0, hr0mem, rfl⟩)
      cases f' with
      | zero => rfl
      | succ f'' =>
        simp only [walkLoop]
        rw [if_neg (hrne r0 hr0mem), if_pos hmem]
  | cons s2 stail' ih =>
    intro s pre chain0 fuel hshape hfuel hch0
    have hsr : s ∈ r0 :: rtail := by
      rw [hshape]
      exact List.mem_append_right _ (List.mem_cons_self _ _)
    have hscl : s ∈ claims := hrcl s hsr
    have h0 : ¬ (s.entity_id = "") := hrne s hsr
    have hmapids : (r0 :: rtail).map MoveClaim.entity_id
        = pre.map MoveClaim.entity_id ++ (s :: s2 :: stail').map MoveClaim.entity_id := by
      rw [hshape, List.map_append]
    have hndapp : (pre.map MoveClaim.entity_id
        ++ (s :: s2 :: stail').map MoveClaim.entity_id).Nodup := by
      rw [← hmapids]
      exact hrnd
    have hdisj := List.disjoint_of_nodup_append hndapp
    have hsid_right : s.entity_id ∈ (s :: s2 :: stail').map MoveClaim.entity_id :=
      List.mem_map.2 ⟨s, List.mem_cons_self _ _, rfl⟩
    have hsid_pre : s.entity_id ∉ pre.map MoveClaim.entity_id := fun h => hdisj h hsid_right
    have hsid_ch0 : s.entity_id ∉ chain0 := fun h =>
      hch0 s.entity_id h (by rw [hmapids]; exact List.mem_append_right _ hsid_right)
    have h1 : ¬ (s.entity_id ∈ chain0 ++ pre.map MoveClaim.entity_id) := by
      intro h
      rcases List.mem_append.1 h with h | h
      · exact hsid_ch0 h
      · exact hsid_pre h
    have h2 : ¬ (dictHas already s.entity_id = true) := by
      rw [hrnf s hsr]
      exact Bool.false_ne_true
    have hge : dictGet e2c s.entity_id = some s := he2c s hscl
    have hR : s.to_pos = s2.from_pos := by
      have hch' := hchain
      rw [hshape] at hch'
      have hc2 := (List.chain'_append.1 hch').2.1
      exact (List.chain'_cons.1 hc2).1
    have hs2mem : s2 ∈ r0 :: rtail := by
      rw [hshape]
      exact List.mem_append_right _ (List.mem_cons_of_mem _ (List.mem_cons_self _ _))
    have hgp : dictGet p2e s.to_pos = some s2.entity_id := by
      rw [hR]
      exact hp2e s2 (hrcl s2 hs2mem) (hrnf s2 hs2mem)
    have hguard : s2.entity_id ≠ "" ∧ dictHas e2c s2.entity_id = true
        ∧ dictHas already s2.entity_id = false := by
      refine ⟨hrne s2 hs2mem, ?_, hrnf s2 hs2mem⟩
      rw [dictHas, he2c s2 (hrcl s2 hs2mem)]
      rfl
    cases fuel with
    | zero => exact absurd hfuel (Nat.not_lt_zero _)
    | succ f' =>
      simp only [walkLoop]
      rw [if_neg h0, if_neg h1, if_neg h2]
      simp only [hge, hgp]
      rw [if_pos hguard]
      have hpre' : chain0 ++ pre.map MoveClaim.entity_id ++ [s.entity_id]
          = chain0 ++ (pre ++ [s]).map MoveClaim.entity_id := by
        simp [List.append_assoc]
      rw [hpre']
      apply ih s2 (pre ++ [s]) chain0 f'
      · rw [hshape, List.append_assoc]
        rfl
      · simp only [List.length_cons] at hfuel
        omega
      · exact hch0

theorem walk_marks
    (claims : List MoveClaim) (e2c : List (String × MoveClaim))
    (p2e : List (Pos × String)) (already : List (String × String))
    (he2c : ∀ c ∈ claims, dictGet e2c c.entity_id = some c)
    (hp2e : ∀ c ∈ claims, dictHas already c.entity_id = false →
      dictGet p2e c.from_pos = some c.entity_id)
    (hp2eVals : ∀ (pos : Pos) (i : String), dictGet p2e pos = some i →
      ∃ c ∈ claims, c.entity_id = i)
    (cyc : List MoveClaim) (hcyc : IsMoveCycle claims cyc)
    (halready : ∀ c ∈ cyc, dictHas already c.entity_id = false) :
    ∀ (fuel : Nat) (chain0 : List String) (cur : String),
    chain0.Nodup →
    (∀ i ∈ chain0, ∃ c ∈ claims, c.entity_id = i) →
    (∀ i ∈ chain0, ∀ c ∈ cyc, c.entity_id ≠ i) →
    (∃ c ∈ claims, c.entity_id = cur) →
    claims.length + 1 ≤ fuel + chain0.length →
    (∃ c ∈ cyc, c.entity_id ∈ (walkLoop e2c p2e already fuel chain0 cur).1) →
    ∀ (f : List (String × String)) (c : MoveClaim), c ∈ cyc →
    dictGet (markCycle (walkLoop e2c p2e already fuel chain0 cur).1
      (walkLoop e2c p2e already fuel chain0 cur).2 f) c.entity_id
      = some "cycle_conflict" := by
  intro fuel
  induction fuel with
  | zero =>
    intro chain0 cur _ _ hnocyc _ _ hhit f c hccyc
    obtain ⟨c0, hc0cyc, hc0mem⟩ := hhit
    have hc0mem' : c0.entity_id ∈ chain0 := hc0mem
    exact absurd rfl (hnocyc c0.entity_id hc0mem' c0 hc0cyc)
  | succ fuel ih =>
    intro chain0 cur hnd hcl hnocyc hcurcl hfuel hhit f c hccyc
    by_cases hcur : ∃ d ∈ cyc, d.entity_id = cur
    · obtain ⟨d, hdcyc, hdid⟩ := hcur
      obtain ⟨pre, post, hshape⟩ := List.append_of_mem hdcyc
      obtain ⟨hpermr, hchainr, hwrapr⟩ := cycle_rotate claims cyc hcyc pre post d hshape
      have hrcyc : ∀ x ∈ d :: (post ++ pre), x ∈ cyc := fun x hx => hpermr.mem_iff.1 hx
      have hrcl : ∀ x ∈ d :: (post ++ pre), x ∈ claims := fun x hx =>
        hcyc.2.1 x (hrcyc x hx)
      have hrnd : ((d :: (post ++ pre)).map MoveClaim.entity_id).Nodup :=
        ((hpermr.map MoveClaim.entity_id).nodup_iff).2 hcyc.2.2.1
      have hrnf : ∀ x ∈ d :: (post ++ pre), dictHas already x.entity_id = false :=
        fun x hx => halready x (hrcyc x hx)
      have hrne : ∀ x ∈ d :: (post ++ pre), x.entity_id ≠ "" :=
        fun x hx => (hcyc.2.2.2.1 x (hrcyc x hx)).1
      have hch0 : ∀ i ∈ chain0, i ∉ (d :: (post ++ pre)).map MoveClaim.entity_id := by
        intro i hi hmem
        obtain ⟨x, hx, hxid⟩ := List.mem_map.1 hmem
        exact hnocyc i hi x (hrcyc x hx) hxid
      have hndapp : (chain0 ++ (d :: (post ++ pre)).map MoveClaim.entity_id).Nodup := by
        apply List.Nodup.append hnd hrnd
        intro a ha hamem
        obtain ⟨x, hx, hxid⟩ := List.mem_map.1 hamem
        exact hnocyc a ha x (hrcyc x hx) hxid
      have hsub : ∀ x ∈ chain0 ++ (d :: (post ++ pre)).map MoveClaim.entity_id,
          x ∈ claims.map MoveClaim.entity_id := by
        intro x hx
        rcases List.mem_append.1 hx with hx | hx
        · obtain ⟨e, he, heid⟩ := hcl x hx
          exact List.mem_map.2 ⟨e, he, heid⟩
        · obtain ⟨e, he, heid⟩ := List.mem_map.1 hx
          exact List.mem_map.2 ⟨e, hrcl e he, heid⟩
      have hlenb := nodup_length_le _ _ hndapp hsub
      rw [List.length_append, List.length_map, List.length_map] at hlenb
      have hfb : (post ++ pre).length < fuel + 1 := by
        have hlc : (d :: (post ++ pre)).length = (post ++ pre).length + 1 :=
          List.length_cons _ _
        omega
      have hwalk := walk_rotation claims e2c p2e already he2c hp2e d (post ++ pre)
        hrcl hrnd hrnf hrne hchainr hwrapr (post ++ pre) d [] chain0 (fuel + 1)
        rfl hfb hch0
      rw [List.map_nil, List.append_nil, List.map_cons, hdid] at hwalk
      have hnm : cur ∉ chain0 := fun h => hnocyc cur h d hdcyc hdid
      have hlen3 : 2 < (cur :: (post ++ pre).map MoveClaim.entity_id).length := by
        have hl := hpermr.length_eq
        have h3 := hcyc.1
        simp only [List.length_cons, List.length_map] at hl ⊢
        omega
      have hcmem : c.entity_id ∈ cur :: (post ++ pre).map MoveClaim.entity_id := by
        have hm1 : c.entity_id ∈ (d :: (post ++ pre)).map MoveClaim.entity_id :=
          ((hpermr.map MoveClaim.entity_id).mem_iff).2 (List.mem_map.2 ⟨c, hccyc, rfl⟩)
        rw [List.map_cons, hdid] at hm1
        exact hm1
      rw [hwalk]
      exact markCycle_rotation chain0 cur ((post ++ pre).map MoveClaim.entity_id) f
        hnm hlen3 c.entity_id hcmem
    · have hcurnot : ∀ d ∈ cyc, d.entity_id ≠ cur := fun d hd he => hcur ⟨d, hd, he⟩
      by_cases h0 : cur = ""
      · have hw : walkLoop e2c p2e already (fuel + 1) chain0 cur = (chain0, none) := by
          simp only [walkLoop]
          rw [if_pos h0]
        rw [hw] at hhit
        obtain ⟨c0, hc0, hm⟩ := hhit
        exact absurd rfl (hnocyc c0.entity_id hm c0 hc0)
      · by_cases h1 : cur ∈ chain0
        · have hw : walkLoop e2c p2e already (fuel + 1) chain0 cur = (chain0, some cur) := by
            simp only [walkLoop]
            rw [if_neg h0, if_pos h1]
          rw [hw] at hhit
          obtain ⟨c0, hc0, hm⟩ := hhit
          exact absurd rfl (hnocyc c0.entity_id hm c0 hc0)
        · by_cases h2 : dictHas already cur = true
          · have hw : walkLoop e2c p2e already (fuel + 1) chain0 cur
                = (chain0, some cur) := by
              simp only [walkLoop]
              rw [if_neg h0, if_neg h1, if_pos h2]
            rw [hw] at hhit
            obtain ⟨c0, hc0, hm⟩ := hhit
            exact absurd rfl (hnocyc c0.entity_id hm c0 hc0)
          · have hchsplit : ∀ (c0 : MoveClaim), c0 ∈ cyc →
                c0.entity_id ∈ chain0 ++ [cur] → False := by
              intro c0 hc0 hm
              rcases List.mem_append.1 hm with hm | hm
              · exact hnocyc c0.entity_id hm c0 hc0 rfl
              · exact hcurnot c0 hc0 (List.mem_singleton.1 hm)
            cases hge : dictGet e2c cur with
            | none =>
              have hw : walkLoop e2c p2e already (fuel + 1) chain0 cur
                  = (chain0 ++ [cur], some cur) := by
                simp only [walkLoop]
                rw [if_neg h0, if_neg h1, if_neg h2]
                simp only [hge]
              rw [hw] at hhit
              obtain ⟨c0, hc0, hm⟩ := hhit
              exact absurd (hchsplit c0 hc0 hm) (fun h => h)
            | some claim =>
              cases hgp : dictGet p2e claim.to_pos with
              | none =>
                have hw : walkLoop e2c p2e already (fuel + 1) chain0 cur
                    = (chain0 ++ [cur], none) := by
                  simp only [walkLoop]
                  rw [if_neg h0, if_neg h1, if_neg h2]
                  simp only [hge, hgp]
                rw [hw] at hhit
                obtain ⟨c0, hc0, hm⟩ := hhit
                exact absurd (hchsplit c0 hc0 hm) (fun h => h)
              | some nxt =>
                by_cases hgd : nxt ≠ "" ∧ dictHas e2c nxt = true
                    ∧ dictHas already nxt = false
                · have hw : walkLoop e2c p2e already (fuel + 1) chain0 cur
                      = walkLoop e2c p2e already fuel (chain0 ++ [cur]) nxt := by
                    simp only [walkLoop]
                    rw [if_neg h0, if_neg h1, if_neg h2]
                    simp only [hge, hgp]
                    rw [if_pos hgd]
                  rw [hw] at hhit ⊢
                  apply ih (chain0 ++ [cur]) nxt ?_ ?_ ?_ ?_ ?_ hhit f c hccyc
                  · exact List.Nodup.append hnd (List.nodup_singleton _)
                      (fun a ha hm => h1 (by rw [← List.mem_singleton.1 hm]; exact ha))
                  · intro i hi
                    rcases List.mem_append.1 hi with hi | hi
                    · exact hcl i hi
                    · rw [List.mem_singleton.1 hi]
                      exact hcurcl
                  · intro i hi c2 hc2
                    rcases List.mem_append.1 hi with hi | hi
                    · exact hnocyc i hi c2 hc2
                    · rw [List.mem_singleton.1 hi]
                      exact hcurnot c2 hc2
                  · exact hp2eVals claim.to_pos nxt hgp
                  · rw [List.length_append, List.length_singleton]
                    omega
                · have hw : walkLoop e2c p2e already (fuel + 1) chain0 cur
                      = (chain0 ++ [cur], none) := by
                    simp only [walkLoop]
                    rw [if_neg h0, if_neg h1, if_neg h2]
                    simp only [hge, hgp]
                    rw [if_neg hgd]
                  rw [hw] at hhit
                  obtain ⟨c0, hc0, hm⟩ := hhit
                  exact absurd (hchsplit c0 hc0 hm) (fun h => h)

theorem walkLoop_chain_sub (e2c : List (String × MoveClaim)) (p2e : List (Pos × String))
    (already : List (String × String)) :
    ∀ (fuel : Nat) (chain : List String) (cur : String),
    ∀ x ∈ chain, x ∈ (walkLoop e2c p2e already fuel chain cur).1 := by
  intro fuel
  induction fuel with
  | zero => intro chain cur x hx; exact hx
  | succ fuel ih =>
    intro chain cur x hx
    simp only [walkLoop]
    by_cases h0 : cur = ""
    · rw [if_pos h0]
      exact hx
    rw [if_neg h0]
    by_cases h1 : cur ∈ chain
    · rw [if_pos h1]
      exact hx
    rw [if_neg h1]
    by_cases h2 : dictHas already cur = true
    · rw [if_pos h2]
      exact hx
    rw [if_neg h2]
    have hx' : x ∈ chain ++ [cur] := List.mem_append_left _ hx
    cases hg : dictGet e2c cur with
    | none =>
      simp only [hg]
      exact hx'
    | some claim =>
      simp only [hg]
      cases hp : dictGet p2e claim.to_pos with
      | none =>
        simp only [hp]
        exact hx'
      | some nxt =>
        simp only [hp]
        by_cases hgd : nxt ≠ "" ∧ dictHas e2c nxt = true ∧ dictHas already nxt = false
        · rw [if_pos hgd]
          exact ih _ nxt x hx'
        · rw [if_neg hgd]
          exact hx'

theorem walkLoop_start_mem (e2c : List (String × MoveClaim)) (p2e : List (Pos × String))
    (already : List (String × String)) (fuel : Nat) (cur : String)
    (h0 : cur ≠ "") (h2 : dictHas already cur = false) :
    cur ∈ (walkLoop e2c p2e already (fuel + 1) [] cur).1 := by
  simp only [walkLoop]
  rw [if_neg h0, if_neg (List.not_mem_nil cur), if_neg (by simp [h2])]
  have hcm : cur ∈ ([] : List String) ++ [cur] :=
    List.mem_append_right _ (List.mem_singleton.2 rfl)
  cases hg : dictGet e2c cur with
  | none =>
    simp only [hg]
    exact hcm
  | some claim =>
    simp only [hg]
    cases hp : dictGet p2e claim.to_pos with
    | none =>
      simp only [hp]
      exact hcm
    | some nxt =>
      simp only [hp]
      by_cases hgd : nxt ≠ "" ∧ dictHas e2c nxt = true ∧ dictHas already nxt = false
      · rw [if_pos hgd]
        exact walkLoop_chain_sub e2c p2e already fuel _ nxt cur hcm
      · rw [if_neg hgd]
        exact hcm

theorem cyclesFold_marks
    (claims : List MoveClaim) (e2c : List (String × MoveClaim))
    (p2e : List (Pos × String)) (already : List (String × String))
    (he2c : ∀ c ∈ claims, dictGet e2c c.entity_id = some c)
    (hp2e : ∀ c ∈ claims, dictHas already c.entity_id = false →
      dictGet p2e c.from_pos = some c.entity_id)
    (hp2eVals : ∀ (pos : Pos) (i : String), dictGet p2e pos = some i →
      ∃ c ∈ claims, c.entity_id = i)
    (cyc : List MoveClaim) (hcyc : IsMoveCycle claims cyc)
    (halready : ∀ c ∈ cyc, dictHas already c.entity_id = false) :
    ∀ (l : List MoveClaim) (acc : List (String × String) × List String),
    (∀ x ∈ l, x ∈ claims) →
    ((∀ c ∈ cyc, dictGet acc.1 c.entity_id = some "cycle_conflict")
      ∨ (∀ c ∈ cyc, c.entity_id ∉ acc.2)) →
    ((∃ c ∈ cyc, c ∈ l)
      ∨ (∀ c ∈ cyc, dictGet acc.1 c.entity_id = some "cycle_conflict")) →
    ∀ c ∈ cyc,
    dictGet ((l.foldl (cyclesStep e2c p2e already (claims.length + 1)) acc).1) c.entity_id
      = some "cycle_conflict" := by
  intro l
  induction l with
  | nil =>
    intro acc _ _ hstart c hccyc
    rcases hstart with ⟨c0, _, hc0l⟩ | hall
    · cases hc0l
    · exact hall c hccyc
  | cons d rest ih =>
    intro acc hl hinv hstart
    simp only [List.foldl_cons]
    have hdcl : d ∈ claims := hl d (List.mem_cons_self _ _)
    have hrl : ∀ x ∈ rest, x ∈ claims := fun x hx => hl x (List.mem_cons_of_mem _ hx)
    by_cases hskip : dictHas already d.entity_id = true ∨ d.entity_id ∈ acc.2
    · have hstep : cyclesStep e2c p2e already (claims.length + 1) acc d = acc := by
        simp only [cyclesStep]
        rw [if_pos hskip]
      rw [hstep]
      apply ih acc hrl hinv
      rcases hstart with ⟨c0, hc0, hc0l⟩ | hall
      · rcases List.mem_cons.1 hc0l with heq | hc0r
        · have hdcyc : d ∈ cyc := heq ▸ hc0
          rcases hskip with ha | hv
          · rw [halready d hdcyc] at ha
            cases ha
          · rcases hinv with hall | huntouched
            · exact Or.inr hall
            · exact absurd hv (huntouched d hdcyc)
        · exact Or.inl ⟨c0, hc0, hc0r⟩
      · exact Or.inr hall
    · have hstep : cyclesStep e2c p2e already (claims.length + 1) acc d
          = (markCycle (walkLoop e2c p2e already (claims.length + 1) [] d.entity_id).1
              (walkLoop e2c p2e already (claims.length + 1) [] d.entity_id).2 acc.1,
             acc.2 ++ (walkLoop e2c p2e already (claims.length + 1) [] d.entity_id).1) := by
        simp only [cyclesStep]
        rw [if_neg hskip]
      rw [hstep]
      rcases hinv with hall | huntouched
      · have hall' : ∀ c2 ∈ cyc,
            dictGet (markCycle (walkLoop e2c p2e already (claims.length + 1) []
                d.entity_id).1
              (walkLoop e2c p2e already (claims.length + 1) [] d.entity_id).2 acc.1)
              c2.entity_id = some "cycle_conflict" :=
          fun c2 hc2 => markCycle_preserve _ _ _ _ (hall c2 hc2)
        exact ih _ hrl (Or.inl hall') (Or.inr hall')
      · by_cases hhit : ∃ c2 ∈ cyc, c2.entity_id
            ∈ (walkLoop e2c p2e already (claims.length + 1) [] d.entity_id).1
        · have hall' : ∀ c2 ∈ cyc,
              dictGet (markCycle (walkLoop e2c p2e already (claims.length + 1) []
                  d.entity_id).1
                (walkLoop e2c p2e already (claims.length + 1) [] d.entity_id).2 acc.1)
                c2.entity_id = some "cycle_conflict" := by
            intro c2 hc2
            exact walk_marks claims e2c p2e already he2c hp2e hp2eVals cyc hcyc halready
              (claims.length + 1) [] d.entity_id List.nodup_nil
              (by intro i hi; cases hi) (by intro i hi; cases hi)
              ⟨d, hdcl, rfl⟩ (by simp) hhit acc.1 c2 hc2
          exact ih _ hrl (Or.inl hall') (Or.inr hall')
        · have huntouched' : ∀ c2 ∈ cyc, c2.entity_id
              ∉ acc.2 ++ (walkLoop e2c p2e already (claims.length + 1) [] d.entity_id).1 := by
            intro c2 hc2 hm
            rcases List.mem_append.1 hm with hm | hm
            · exact huntouched c2 hc2 hm
            · exact hhit ⟨c2, hc2, hm⟩
          apply ih _ hrl (Or.inr huntouched')
          rcases hstart with ⟨c0, hc0, hc0l⟩ | hall
          · rcases List.mem_cons.1 hc0l with heq | hc0r
            · exfalso
              have hdcyc : d ∈ cyc := heq ▸ hc0
              apply hhit
              exact ⟨d, hdcyc, walkLoop_start_mem e2c p2e already claims.length d.entity_id
                (hcyc.2.2.2.1 d hdcyc).1 (halready d hdcyc)⟩
            · exact Or.inl ⟨c0, hc0, hc0r⟩
          · exact Or.inr (fun c2 hc2 => markCycle_preserve _ _ _ _ (hall c2 hc2))

theorem detect_cycles_marks (claims : List MoveClaim) (hwf : wfClaims claims)
    (cyc : List MoveClaim) (hcyc : IsMoveCycle claims cyc) :
    ∀ c ∈ cyc, dictGet (detect_cycles claims (buildEntityMap claims) (swapFailed claims))
      c.entity_id = some "cycle_conflict" := by
  intro c hccyc
  have he2c : ∀ x ∈ claims, dictGet (buildEntityMap claims) x.entity_id = some x :=
    fun x hx => buildEntityMap_get claims hwf x hx
  have hp2e : ∀ x ∈ claims, dictHas (swapFailed claims) x.entity_id = false →
      dictGet (cyclesP2E claims (swapFailed claims)) x.from_pos = some x.entity_id :=
    fun x hx hna => foldl_p2e_get (swapFailed claims) claims [] x hwf.2 hx hna
  have hp2eVals : ∀ (pos : Pos) (i : String),
      dictGet (cyclesP2E claims (swapFailed claims)) pos = some i →
      ∃ x ∈ claims, x.entity_id = i := by
    intro pos i h
    rcases foldl_p2e_binding (swapFailed claims) claims [] pos i h with h1 | h1
    · cases h1
    · exact h1
  have halready : ∀ x ∈ cyc, dictHas (swapFailed claims) x.entity_id = false :=
    fun x hx => (hcyc.2.2.2.1 x hx).2
  exact cyclesFold_marks claims (buildEntityMap claims)
    (cyclesP2E claims (swapFailed claims)) (swapFailed claims)
    he2c hp2e hp2eVals cyc hcyc halready claims ([], [])
    (fun x hx => hx) (Or.inr (fun c2 _ => List.not_mem_nil _))
    (Or.inl ⟨c, hccyc, hcyc.2.1 c hccyc⟩) c hccyc

theorem resolve_result_of_preDest (w : World) (claims : List MoveClaim)
    (hwf : wfClaims claims) (c : MoveClaim) (hc : c ∈ claims) (r : String)
    (hr : dictGet (preDestFailed claims) c.entity_id = some r) :
    ∀ res ∈ resolve_conflicts w claims, res.entity_id = c.entity_id →
      res = MoveResult.mk c.entity_id false c.from_pos c.from_pos (some r) := by
  have h3 : dictGet (phase3Result claims).2 c.entity_id = some r :=
    phase3Dest_failed_preserve _ _ _ _ _ hr
  have hf := resolveFailed_of_phase3_marked w claims hwf c.entity_id r h3
  exact resolve_result_of_failed w claims hwf c hc r hf

/-- C4: every exact position exchange fails both movers with `swap_conflict`
(and never with `cycle_conflict`), every mutual-displacement cycle of length at
least three among movers the swap phase left unfailed fails all its members
with `cycle_conflict`, and entities failed by either rule keep their stored
entity record unchanged by enactment. -/
theorem c4_swap_and_cycle_conflicts :
    ∀ (w : World) (claims : List MoveClaim), wfClaims claims →
      (∀ c c', c ∈ claims → c' ∈ claims → c ≠ c' → IsSwapPair c c' →
        ∀ res ∈ resolve_conflicts w claims,
          (res.entity_id = c.entity_id →
            res = MoveResult.mk c.entity_id false c.from_pos c.from_pos
              (some "swap_conflict"))
          ∧ (res.entity_id = c'.entity_id →
            res = MoveResult.mk c'.entity_id false c'.from_pos c'.from_pos
              (some "swap_conflict"))
          ∧ ((res.entity_id = c.entity_id ∨ res.entity_id = c'.entity_id) →
            res.failure_reason ≠ some "cycle_conflict"))
      ∧ (∀ cyc, IsMoveCycle claims cyc → ∀ c ∈ cyc,
          ∀ res ∈ resolve_conflicts w claims, res.entity_id = c.entity_id →
            res = MoveResult.mk c.entity_id false c.from_pos c.from_pos
              (some "cycle_conflict"))
      ∧ (∀ w', enact_moves w (resolve_conflicts w claims) = Except.ok w' →
          (∀ c c', c ∈ claims → c' ∈ claims → c ≠ c' → IsSwapPair c c' →
            dictGet w'.entities c.entity_id = dictGet w.entities c.entity_id)
          ∧ (∀ cyc, IsMoveCycle claims cyc → ∀ c ∈ cyc,
              dictGet w'.entities c.entity_id = dictGet w.entities c.entity_id)) := by
  intro w claims hwf
  have hswap : ∀ c c', c ∈ claims → c' ∈ claims → c ≠ c' → IsSwapPair c c' →
      ∀ res ∈ resolve_conflicts w claims, res.entity_id = c.entity_id →
        res = MoveResult.mk c.entity_id false c.from_pos c.from_pos
          (some "swap_conflict") := by
    intro c c' hc hc' hne hsp res hres hid
    have hpair := swapFailed_pair claims hwf c c' hc hc' hsp.1 hsp.2
    have hpre := preDest_of_swap claims c.entity_id _ hpair.1
    exact resolve_result_of_preDest w claims hwf c hc _ hpre res hres hid
  have hcycle : ∀ cyc, IsMoveCycle claims cyc → ∀ c ∈ cyc,
      ∀ res ∈ resolve_conflicts w claims, res.entity_id = c.entity_id →
        res = MoveResult.mk c.entity_id false c.from_pos c.from_pos
          (some "cycle_conflict") := by
    intro cyc hcyc c hccyc res hres hid
    have hdc := detect_cycles_marks claims hwf cyc hcyc c hccyc
    have hpre := preDest_of_cycle claims c.entity_id hdc
    exact resolve_result_of_preDest w claims hwf c (hcyc.2.1 c hccyc) _ hpre res hres hid
  refine ⟨?_, hcycle, ?_⟩
  · intro c c' hc hc' hne hsp res hres
    have hsp' : IsSwapPair c' c := ⟨hsp.2.symm, hsp.1.symm⟩
    refine ⟨hswap c c' hc hc' hne hsp res hres,
      hswap c' c hc' hc (fun h => hne h.symm) hsp' res hres, ?_⟩
    intro hor hreason
    rcases hor with hid | hid
    · have hres' := hswap c c' hc hc' hne hsp res hres hid
      rw [hres'] at hreason
      have hne2 : (some "swap_conflict" : Option String) ≠ some "cycle_conflict" := by
        decide
      exact hne2 hreason
    · have hres' := hswap c' c hc' hc (fun h => hne h.symm) hsp' res hres hid
      rw [hres'] at hreason
      have hne2 : (some "swap_conflict" : Option String) ≠ some "cycle_conflict" := by
        decide
      exact hne2 hreason
  · intro w' henact
    constructor
    · intro c c' hc hc' hne hsp
      apply enact_moves_preserves w _ w' henact
      intro r hr hrs hrk
      have hres' := hswap c c' hc hc' hne hsp r hr hrk
      rw [hres'] at hrs
      exact Bool.noConfusion hrs
    · intro cyc hcyc c hccyc
      apply enact_moves_preserves w _ w' henact
      intro r hr hrs hrk
      have hres' := hcycle cyc hcyc c hccyc r hr hrk
      rw [hres'] at hrs
      exact Bool.noConfusion hrs

/-- C4 (witness): the combined scenario with swap pair "s1"/"s2" and 3-cycle
"a" → "b" → "c" → "a". -/
theorem c4_swap_and_cycle_conflicts_witness :
    resolve_conflicts (World.new 10 10) c4Claims
      = [MoveResult.mk "s1" false (Pos.mk 0 0) (Pos.mk 0 0) (some "swap_conflict"),
         MoveResult.mk "s2" false (Pos.mk 1 0) (Pos.mk 1 0) (some "swap_conflict"),
         MoveResult.mk "a" false (Pos.mk 3 3) (Pos.mk 3 3) (some "cycle_conflict"),
         MoveResult.mk "b" false (Pos.mk 4 3) (Pos.mk 4 3) (some "cycle_conflict"),
         MoveResult.mk "c" false (Pos.mk 3 4) (Pos.mk 3 4) (some "cycle_conflict")]
    ∧ (MoveResult.mk "s1" false (Pos.mk 0 0) (Pos.mk 0 0)
        (some "swap_conflict")).success = false
    ∧ (MoveResult.mk "a" false (Pos.mk 3 3) (Pos.mk 3 3)
        (some "cycle_conflict")).failure_reason = some "cycle_conflict" := by
  have h := c4_swap_and_cycle_conflicts (World.new 10 10) c4Claims
    (by constructor <;> decide)
  refine ⟨rfl, ?_, ?_⟩
  · have hs := (h.1 (MoveClaim.mk "s1" (Pos.mk 0 0) (Pos.mk 1 0) Direction.east)
      (MoveClaim.mk "s2" (Pos.mk 1 0) (Pos.mk 0 0) Direction.west)
      (by decide) (by decide) (by decide) ⟨rfl, rfl⟩
      (MoveResult.mk "s1" false (Pos.mk 0 0) (Pos.mk 0 0) (some "swap_conflict"))
      (by decide)).1 rfl
    exact congrArg MoveResult.success hs
  · have hmc : IsMoveCycle c4Claims
        [MoveClaim.mk "a" (Pos.mk 3 3) (Pos.mk 4 3) Direction.east,
         MoveClaim.mk "b" (Pos.mk 4 3) (Pos.mk 3 4) Direction.southwest,
         MoveClaim.mk "c" (Pos.mk 3 4) (Pos.mk 3 3) Direction.north] := by
      refine ⟨by decide, by decide, by decide, by decide,
        List.chain'_cons.2 ⟨rfl, List.chain'_cons.2 ⟨rfl, List.chain'_singleton _⟩⟩, ?_⟩
      intro x hx y hy
      have hx2 : MoveClaim.mk "c" (Pos.mk 3 4) (Pos.mk 3 3) Direction.north = x :=
        Option.some.inj hx
      have hy2 : MoveClaim.mk "a" (Pos.mk 3 3) (Pos.mk 4 3) Direction.east = y :=
        Option.some.inj hy
      rw [← hx2, ← hy2]
    have ha := h.2.1 _ hmc
      (MoveClaim.mk "a" (Pos.mk 3 3) (Pos.mk 4 3) Direction.east) (by decide)
      (MoveResult.mk "a" false (Pos.mk 3 3) (Pos.mk 3 3) (some "cycle_conflict"))
      (by decide) rfl
    exact congrArg MoveResult.failure_reason ha

/-- C4 (counterexample to the original claim): `c4EmptyCycleClaims` is a
genuine mutual-displacement cycle of length 3 — cyclically chained origins
and destinations, distinct ids, no member failed by the swap phase — yet
because one mover's entity id is the empty string, the Python-truthiness
guards of `_detect_cycles` (`while current_id`, `if next_entity and ...`)
never follow the chain into it: no member is marked `cycle_conflict` and all
three moves resolve successfully. -/
theorem c4_empty_id_cycle_counterexample :
    List.Chain' (fun a b => a.to_pos = b.from_pos) c4EmptyCycleClaims
    ∧ (c4EmptyCycleClaims.getLast?).map MoveClaim.to_pos
        = (c4EmptyCycleClaims.head?).map MoveClaim.from_pos
    ∧ (c4EmptyCycleClaims.map MoveClaim.entity_id).Nodup
    ∧ c4EmptyCycleClaims.length = 3
    ∧ swapFailed c4EmptyCycleClaims = []
    ∧ resolve_conflicts c4EmptyCycleW c4EmptyCycleClaims
      = [MoveResult.mk "a" true (Pos.mk 3 3) (Pos.mk 4 3) none,
         MoveResult.mk "" true (Pos.mk 4 3) (Pos.mk 3 4) none,
         MoveResult.mk "c" true (Pos.mk 3 4) (Pos.mk 3 3) none] := by
  refine ⟨List.chain'_cons.2 ⟨rfl, List.chain'_cons.2 ⟨rfl, List.chain'_singleton _⟩⟩,
    rfl, by decide, rfl, rfl, rfl⟩
